import Mathlib

/-!
# Connection.cpp: framing, serialised dispatch and ping statistics

A shallow embedding of `src/Connection.cpp`.

* A `Connection` owns a `QSslSocket`, abstracted to the bytes it has buffered
  for reading, the list of `write` calls it has received, its connected and
  encrypted flags and its error string.
* The two static members `iReceiveLevel` and `qsReceivers` live in `World`,
  together with all connection objects and the ordered log of emitted signals.
* `Env` fixes the build variant (`QT_VERSION < 0x040400` or not), what the slot
  connected to `message` does, and what the socket does synchronously inside
  `write` (old Qt raises `readyRead` there).
* C++ `int` is modelled by `Int`; this is exact as long as a socket buffers
  fewer than `2^31 - 1` bytes. `double` is modelled by `ℚ`.
* Loops and the re-entrant calls are driven by a fuel counter; running out of
  fuel is the distinguished result `Halt.outOfFuel`, never a normal return.
* No connection object is destroyed while a call is running.
* The macro `STACKVAR` of line 164 is not in the sources. It takes its buffer
  from the stack, so the room the stack has for it is a parameter (`Env.stack`);
  a request beyond it ends the process (`Halt.stackOverflow`). The stack is
  taken to hold the buffer of the largest payload that line 172 lets through.
-/

namespace Mumble

/-- One octet (`unsigned char`). -/
abbrev Byte := Fin 256

/-- Identity of a `Connection` object (the `this` pointer). -/
abbrev ConnId := Nat

/-- The part of `QSslSocket` that `Connection` observes. -/
structure Socket where
  /-- Whether `state() == QAbstractSocket::ConnectedState`. -/
  connected : Bool
  /-- Value of `isEncrypted()`. -/
  encrypted : Bool
  /-- Value of `errorString()`. -/
  errorString : String
  /-- Decrypted bytes not yet read; `bytesAvailable()` is its length. -/
  readBuf : List Byte
  /-- Every `write` call so far, oldest first, one entry per call. -/
  writes : List (List Byte)
deriving DecidableEq, Repr

/-- Value of `qtsSocket->bytesAvailable()`. -/
def Socket.bytesAvailable (s : Socket) : Int := (s.readBuf.length : Int)

/-- Models `qtsSocket->read(maxSize)`: up to `maxSize` bytes leave the buffer.
A negative `maxSize` reads nothing. -/
def Socket.read (s : Socket) (maxSize : Int) : List Byte × Socket :=
  (s.readBuf.take maxSize.toNat, { s with readBuf := s.readBuf.drop maxSize.toNat })

/-- Models `qtsSocket->write(data, len)`: one more entry in the write log. -/
def Socket.write (s : Socket) (data : List Byte) : Socket :=
  { s with writes := s.writes ++ [data] }

/-- The three reference arguments of `updatePing`: `avg`, `var`, `samples`. -/
structure PingStats where
  avg : ℚ
  var : ℚ
  /-- A `quint32` counter. -/
  samples : Nat
deriving DecidableEq, Repr

/-- The values the constructor gives to `avg`, `var` and `samples` (lines 51-53). -/
def PingStats.zero : PingStats := { avg := 0, var := 0, samples := 0 }

/-- The member variables of a `Connection`. -/
structure Connection where
  qtsSocket : Socket
  iPacketLength : Int
  bDisconnectedEmitted : Bool
  /-- Number of `qtLastPacket.restart()` calls so far. -/
  qtLastPacket : Nat
  /-- The triple `dUDPPingAvg`, `dUDPPingVar`, `uiUDPPackets`. -/
  udpPing : PingStats
  /-- The triple `dTCPPingAvg`, `dTCPPingVar`, `uiTCPPackets`. -/
  tcpPing : PingStats
deriving DecidableEq, Repr

/-- The constructor `Connection::Connection` (lines 45-60). -/
def Connection.new (qtsSock : Socket) : Connection :=
  { qtsSocket := qtsSock
    iPacketLength := -1
    bDisconnectedEmitted := false
    qtLastPacket := 1   -- the `restart()` of line 59
    udpPing := PingStats.zero
    tcpPing := PingStats.zero }

/-- Models `Connection::updatePing` (lines 222-228); the `quint32` counter
`samples` wraps at `2^32`, and a division by zero yields 0 as everywhere in `ℚ`. -/
def updatePing (p : PingStats) (usec : Nat) : PingStats :=
  let samples : Nat := (p.samples + 1) % 2 ^ 32
  let x : ℚ := (usec : ℚ) / 1000
  let delta : ℚ := x - p.avg
  let avg : ℚ := p.avg + delta / ((samples : ℚ) * 1)
  let var : ℚ := p.var + delta * (x - avg)
  { avg := avg, var := var, samples := samples }

/-- Feeds a sequence of samples to `updatePing`, one call per sample. -/
def updatePings (p : PingStats) (usecs : List Nat) : PingStats :=
  usecs.foldl updatePing p

/-- A signal emitted by a connection object. -/
inductive Signal where
  | message (c : ConnId) (qbaMsg : List Byte)
  | connectionClosed (c : ConnId) (reason : String)
deriving DecidableEq, Repr

/-- A call a `message` slot makes back into the connection layer. -/
inductive Act where
  | sendMessage (c : ConnId) (qbaMsg : List Byte)
  | socketRead (c : ConnId)
deriving DecidableEq, Repr

/-- All connection objects plus the static members of `Connection`. -/
structure World where
  conns : ConnId → Connection
  /-- Static `Connection::iReceiveLevel`. -/
  iReceiveLevel : Int
  /-- Static `Connection::qsReceivers`; iteration starts at the head. -/
  qsReceivers : List ConnId
  /-- Signals emitted so far, oldest first. -/
  emitted : List Signal

/-- Replaces the state of connection `c`. -/
def World.setConn (w : World) (c : ConnId) (k : Connection) : World :=
  { w with conns := Function.update w.conns c k }

/-- Appends a signal to the log. -/
def World.emit (w : World) (s : Signal) : World :=
  { w with emitted := w.emitted ++ [s] }

/-- Models `qsReceivers.insert(c)`. -/
def World.insertReceiver (w : World) (c : ConnId) : World :=
  { w with qsReceivers := if c ∈ w.qsReceivers then w.qsReceivers else w.qsReceivers ++ [c] }

/-- Models `qsReceivers.remove(c)`. -/
def World.removeReceiver (w : World) (c : ConnId) : World :=
  { w with qsReceivers := w.qsReceivers.filter (fun d => d ≠ c) }

/-- Ways a call can fail to return. -/
inductive Halt where
  /-- Outcome of `qFatal`: the process aborts, in the world `atAbort`. -/
  | fatal (atAbort : World)
  /-- The buffer of line 164 does not fit the stack: the process dies, in the
  world `atCrash`. -/
  | stackOverflow (atCrash : World)
  /-- The fuel of the model ran out. -/
  | outOfFuel

/-- What a call produces: the world it returns in, or the way it halted. -/
abbrev Result := Except Halt World

/-- Everything outside `Connection.cpp` that the code interacts with. -/
structure Env where
  /-- Whether the build has `QT_VERSION < 0x040400`. -/
  workaround : Bool
  /-- What the slot connected to `message` of `c` does with a payload. -/
  slot : ConnId → List Byte → List Act
  /-- What happens inside `write` on `c`: `some bs` when the socket takes in the
  newly arrived bytes `bs` and raises `readyRead`, `none` when it raises
  nothing. -/
  onWrite : World → ConnId → Option (List Byte)
  /-- Bytes the stack can give to the buffer of line 164 beyond the `3 + 0xfffff`
  that the largest payload admitted by line 172 needs. -/
  stackSpare : Nat

/-- Largest buffer that `STACKVAR` (line 164) can take from the stack. The macro
is not in the sources, so this is a parameter of the environment. -/
def Env.stack (env : Env) : Nat :=
  3 + 0xfffff + env.stackSpare

/-- An environment whose slots do nothing and whose writes raise no signal. -/
def Env.passive (workaround : Bool) : Env :=
  { workaround := workaround, slot := fun _ _ => [], onWrite := fun _ _ => none,
    stackSpare := 0 }

/-- Lines 176-178 of `sendMessage`: the three length octets for `size`. Storing
into an `unsigned char` truncates to 8 bits. -/
def lengthOctets (size : Nat) : List Byte :=
  [Fin.ofNat ((size >>> 16) &&& 0xff), Fin.ofNat ((size >>> 8) &&& 0xff),
    Fin.ofNat (size &&& 0xff)]

/-- Value of `a_ucBuffer` after line 179 of `sendMessage`: the length octets,
then a copy of the payload. -/
def sendBuffer (qbaMsg : List Byte) : List Byte :=
  lengthOctets qbaMsg.length ++ qbaMsg

/-- Line 104 of `socketRead`: the value assigned to `iPacketLength`. -/
def headerLength (a_ucBuffer : List Byte) : Int :=
  let b := fun i => (a_ucBuffer.getD i 0).val
  ((((b 0 <<< 16) &&& 0xff0000) + ((b 1 <<< 8) &&& 0xff00) + b 2 : Nat) : Int)

/-- Lines 93-106 of `socketRead`. `none` is the early `return` of line 98;
otherwise the connection and the local `iAvailable` after line 106. -/
def readHeader (k : Connection) (iAvailable : Int) : Option (Connection × Int) :=
  if k.iPacketLength = -1 then
    if iAvailable < 3 then none
    else
      let r := k.qtsSocket.read 3
      some ({ k with qtsSocket := r.2, iPacketLength := headerLength r.1 }, iAvailable - 3)
  else some (k, iAvailable)

/-- What lines 108-117 of `socketRead` did. -/
structure BodyStep where
  conn : Connection
  /-- The argument of `emit message`, when line 116 is reached. -/
  msg : Option (List Byte)
  /-- Whether line 114 ran `qsReceivers.insert(this)`. -/
  requeue : Bool
deriving DecidableEq, Repr

/-- Lines 108-117 of `socketRead`. Line 112 subtracts `iPacketLength` after
line 110 has reset it to `-1`. -/
def readBody (k : Connection) (iAvailable : Int) : BodyStep :=
  if k.iPacketLength ≠ -1 ∧ iAvailable ≥ k.iPacketLength then
    let r := k.qtsSocket.read k.iPacketLength
    let iPacketLength : Int := -1
    let iAvailable := iAvailable - iPacketLength
    { conn := { k with qtsSocket := r.2, iPacketLength := iPacketLength,
                       qtLastPacket := k.qtLastPacket + 1 }
      msg := some r.1
      requeue := decide (iAvailable ≥ 3) }
  else { conn := k, msg := none, requeue := false }

/-- The transport of `c` takes in the bytes `bs`. -/
def World.arrive (w : World) (c : ConnId) (bs : List Byte) : World :=
  let k := w.conns c
  w.setConn c { k with qtsSocket := { k.qtsSocket with readBuf := k.qtsSocket.readBuf ++ bs } }

mutual

/-- Models `Connection::socketRead` (lines 70-132) on connection `c`. -/
def socketRead (env : Env) : Nat → ConnId → World → Result
  | 0, _, _ => .error .outOfFuel
  | fuel + 1, c, w =>
    let iPrevLevel := w.iReceiveLevel
    let w := if env.workaround then { w with iReceiveLevel := 2 } else w
    if env.workaround ∧ iPrevLevel = 2 then
      .ok (w.insertReceiver c)
    else
      let w := if env.workaround ∧ iPrevLevel = 1 then w.removeReceiver c else w
      let iAvailable := (w.conns c).qtsSocket.bytesAvailable
      match readHeader (w.conns c) iAvailable with
      | none => .ok (if env.workaround then { w with iReceiveLevel := iPrevLevel } else w)
      | some (k, iAvailable) =>
        let b := readBody k iAvailable
        let w := w.setConn c b.conn
        let w := if b.requeue then w.insertReceiver c else w
        let afterEmit : Result :=
          match b.msg with
          | none => .ok w
          | some qbaBuffer =>
            runSlot env fuel (env.slot c qbaBuffer) (w.emit (.message c qbaBuffer))
        afterEmit.bind fun w =>
          if env.workaround then
            let drained : Result :=
              if iPrevLevel = 0 then drain env fuel { w with iReceiveLevel := 1 } else .ok w
            drained.bind fun w => .ok { w with iReceiveLevel := iPrevLevel }
          else .ok w

/-- The loop of lines 124-128 and 191-195. -/
def drain (env : Env) : Nat → World → Result
  | 0, _ => .error .outOfFuel
  | fuel + 1, w =>
    match w.qsReceivers with
    | [] => .ok w
    | i :: _ => (socketRead env fuel i w).bind (drain env fuel)

/-- Models `Connection::sendMessage(const QByteArray &)` (lines 163-199). -/
def sendMessage (env : Env) : Nat → ConnId → List Byte → World → Result
  | 0, _, _, _ => .error .outOfFuel
  | fuel + 1, c, qbaMsg, w =>
    -- line 164: the buffer of `3 + qbaMsg.size()` bytes is taken from the stack first
    if env.stack < 3 + qbaMsg.length then .error (.stackOverflow w)
    else if ¬ (w.conns c).qtsSocket.connected then .ok w
    else if ¬ (w.conns c).qtsSocket.encrypted then .ok w
    else if qbaMsg.length > 0xfffff then .error (.fatal w)
    else
      let a_ucBuffer := sendBuffer qbaMsg
      let iPrevLevel := w.iReceiveLevel
      let w := if env.workaround then { w with iReceiveLevel := 2 } else w
      let w := w.setConn c { w.conns c with qtsSocket := (w.conns c).qtsSocket.write a_ucBuffer }
      let written : Result :=
        match env.onWrite w c with
        | none => .ok w
        | some bs => socketRead env fuel c (w.arrive c bs)
      written.bind fun w =>
        if env.workaround then
          let drained : Result :=
            if iPrevLevel = 0 then drain env fuel { w with iReceiveLevel := 1 } else .ok w
          drained.bind fun w => .ok { w with iReceiveLevel := iPrevLevel }
        else .ok w

/-- Runs the calls a slot makes, in order. -/
def runSlot (env : Env) : Nat → List Act → World → Result
  | 0, _, _ => .error .outOfFuel
  | _ + 1, [], w => .ok w
  | fuel + 1, .sendMessage c qbaMsg :: rest, w =>
    (sendMessage env fuel c qbaMsg w).bind (runSlot env fuel rest)
  | fuel + 1, .socketRead c :: rest, w =>
    (socketRead env fuel c w).bind (runSlot env fuel rest)

end

/-- Models `Connection::socketError` (lines 134-139). -/
def socketError (c : ConnId) (w : World) : World :=
  let k := w.conns c
  if ¬ k.bDisconnectedEmitted then
    (w.setConn c { k with bDisconnectedEmitted := true }).emit
      (.connectionClosed c k.qtsSocket.errorString)
  else w

/-- Models `Connection::socketDisconnected` (lines 149-154). -/
def socketDisconnected (c : ConnId) (w : World) : World :=
  let k := w.conns c
  if ¬ k.bDisconnectedEmitted then
    (w.setConn c { k with bDisconnectedEmitted := true }).emit (.connectionClosed c "")
  else w

/-- A notification of the transport that ends in one of the two closing slots. -/
inductive CloseCall where
  /-- The transport reports an error, described by `errorString`. -/
  | error (errorString : String)
  /-- The transport reports a disconnect. -/
  | disconnected
deriving DecidableEq, Repr

/-- The reason the slot called for `e` passes to `connectionClosed`. -/
def CloseCall.reason : CloseCall → String
  | .error errorString => errorString
  | .disconnected => ""

/-- The transport of `c` raises `e`: for an error it first holds the error
string, then the connected slot runs. -/
def closeCall (c : ConnId) (w : World) (e : CloseCall) : World :=
  match e with
  | .error errorString =>
    let k := w.conns c
    socketError c (w.setConn c { k with qtsSocket := { k.qtsSocket with errorString := errorString } })
  | .disconnected => socketDisconnected c w

/-- One chunk arrives at `c` and the transport raises `readyRead` once. -/
def deliver (env : Env) (fuel : Nat) (c : ConnId) (r : Result) (chunk : List Byte) : Result :=
  r.bind fun w => socketRead env fuel c (w.arrive c chunk)

/-- The chunks arrive at `c` one after the other, each with its own `readyRead`. -/
def deliverAll (env : Env) (fuel : Nat) (c : ConnId) (w : World) (chunks : List (List Byte)) :
    Result :=
  chunks.foldl (deliver env fuel c) (.ok w)

/-- Whether the data available to `k` is too short for its next step: fewer
than 3 bytes while awaiting a header, fewer than `iPacketLength` bytes while
awaiting a body. -/
def Starved (k : Connection) : Prop :=
  (k.iPacketLength = -1 ∧ k.qtsSocket.bytesAvailable < 3) ∨
  (k.iPacketLength ≠ -1 ∧ k.qtsSocket.bytesAvailable < k.iPacketLength)

instance (k : Connection) : Decidable (Starved k) := by
  unfold Starved
  infer_instance

/-- Whether `iPacketLength` is the sentinel `-1` or a 24-bit length. -/
def LengthOk (k : Connection) : Prop :=
  k.iPacketLength = -1 ∨ (0 ≤ k.iPacketLength ∧ k.iPacketLength < 2 ^ 24)

instance (k : Connection) : Decidable (LengthOk k) := by
  unfold LengthOk
  infer_instance

/-- The bytes of the incoming stream that `k` has not yet turned into a
message: the length octets of a header already read, then the buffered bytes. -/
def unread (k : Connection) : List Byte :=
  if k.iPacketLength = -1 then k.qtsSocket.readBuf
  else lengthOctets k.iPacketLength.toNat ++ k.qtsSocket.readBuf

/-- The byte stream made of the buffers `sendMessage` writes for `msgs`. -/
def frames (msgs : List (List Byte)) : List Byte :=
  (msgs.map sendBuffer).flatten

/-- Lines 90-117 of `socketRead` on one connection: `none` is the early return. -/
def coreStep (k : Connection) : Option BodyStep :=
  (readHeader k k.qtsSocket.bytesAvailable).map fun p => readBody p.1 p.2

/-- A bound on the number of further `coreStep`s that can emit a message. -/
def weight (k : Connection) : Nat :=
  2 * k.qtsSocket.readBuf.length + (if k.iPacketLength = -1 then 0 else 1)

/-- Lines 90-117 of `socketRead` on the world, for a `message` slot that does
nothing: the connection is updated, possibly queued, and the signal logged. -/
def stepWorld (c : ConnId) (w : World) : World :=
  match coreStep (w.conns c) with
  | none => w
  | some b =>
    let w := w.setConn c b.conn
    let w := if b.requeue then w.insertReceiver c else w
    match b.msg with
    | none => w
    | some qbaBuffer => w.emit (.message c qbaBuffer)

/-- Relates a world `w` to the world `w'` in which connection `c` has turned
the front of its unread stream into the messages `msgs` and now lacks data,
with nothing pending and every other connection untouched. -/
structure Pumped (c : ConnId) (w w' : World) (msgs : List (List Byte)) : Prop where
  level : w'.iReceiveLevel = w.iReceiveLevel
  queue : w'.qsReceivers = []
  others : ∀ d, d ≠ c → w'.conns d = w.conns d
  signals : w'.emitted = w.emitted ++ msgs.map (Signal.message c)
  stream : frames msgs ++ unread (w'.conns c) = unread (w.conns c)
  starved : Starved (w'.conns c)
  lengthOk : LengthOk (w'.conns c)
  short : ∀ m ∈ msgs, m.length < 2 ^ 24

/-- A sample in milliseconds, as `updatePing` computes it from microseconds. -/
def msec (usec : Nat) : ℚ := (usec : ℚ) / 1000

/-- Arithmetic mean of a list of rationals. -/
def mean (xs : List ℚ) : ℚ := xs.sum / (xs.length : ℚ)

/-- Sum of the squared deviations of `xs` from `m`. -/
def sumSqDev (xs : List ℚ) (m : ℚ) : ℚ := (xs.map fun x => (x - m) ^ 2).sum

/-- The messages `c` has emitted, oldest first. -/
def messagesOf (c : ConnId) : List Signal → List (List Byte)
  | [] => []
  | .message d qbaMsg :: rest => if d = c then qbaMsg :: messagesOf c rest else messagesOf c rest
  | .connectionClosed _ _ :: rest => messagesOf c rest

/-- Number of `write` calls the socket of `c` has received. -/
def World.writeCount (w : World) (c : ConnId) : Nat :=
  (w.conns c).qtsSocket.writes.length

/-- An environment of the build with the workaround whose transports follow a
script: the write number `k` of connection `c`, counted from 0, finds what
`(script c)[k]` says, `some bs` when the bytes `bs` have arrived meanwhile and
`readyRead` is raised inside the write, `none` (or no entry) when nothing is
raised. -/
def Env.scripted (spare : Nat) (slot : ConnId → List Byte → List Act)
    (script : ConnId → List (Option (List Byte))) : Env :=
  { workaround := true
    stackSpare := spare
    slot := slot
    onWrite := fun w c => ((script c)[w.writeCount c - 1]?).join }

/-- The bytes that the writes number `a`, ..., `b - 1` of `c` bring in. -/
def arrivals (script : ConnId → List (Option (List Byte))) (c : ConnId) (a b : Nat) :
    List Byte :=
  ((((script c).drop a).take (b - a)).map fun o => o.getD []).flatten

/-- What one script entry adds to the work still ahead. -/
def arrivalCost : Option (List Byte) → Nat
  | none => 0
  | some bs => 2 * bs.length + 1

/-- The work the script of `c` still holds from write number `a` on. -/
def pending (script : ConnId → List (Option (List Byte))) (c : ConnId) (a : Nat) : Nat :=
  (((script c).drop a).map arrivalCost).sum

/-- The work connection `d` can still cause: its buffered input plus what its
script will still bring. -/
def load (script : ConnId → List (Option (List Byte))) (w : World) (d : ConnId) : Nat :=
  weight (w.conns d) + pending script d (w.writeCount d)

/-- A bound on the messages the connections in `S` can still emit. -/
def potential (script : ConnId → List (Option (List Byte))) (S : Finset ConnId) (w : World) :
    Nat :=
  S.sum (load script w)

/-- The slots make at most `L` calls per message and send only payloads the
sender accepts. -/
structure SlotOk (slot : ConnId → List Byte → List Act) (L : Nat) : Prop where
  calls : ∀ c m, (slot c m).length ≤ L
  sizes : ∀ c m d p, Act.sendMessage d p ∈ slot c m → p.length ≤ 0xfffff

/-- Lines 109-114 of `socketRead` on the world: the connection is updated and
possibly queued. -/
def World.stepped (w : World) (c : ConnId) (b : BodyStep) : World :=
  if b.requeue then (w.setConn c b.conn).insertReceiver c else w.setConn c b.conn

/-- Relates a world `w` at level 2 to the world `v` after at most `n` calls made
by a slot: nothing is emitted or read, sockets only gain writes and the bytes
their script brings, and every connection that gained bytes is queued. -/
structure Level2 (script : ConnId → List (Option (List Byte))) (n : Nat) (w v : World) :
    Prop where
  level : v.iReceiveLevel = w.iReceiveLevel
  signals : v.emitted = w.emitted
  queued : ∀ d, d ∈ w.qsReceivers → d ∈ v.qsReceivers
  queueLen : v.qsReceivers.length ≤ w.qsReceivers.length + n
  writes : ∀ d, w.writeCount d ≤ v.writeCount d
  length : ∀ d, (v.conns d).iPacketLength = (w.conns d).iPacketLength
  timer : ∀ d, (v.conns d).qtLastPacket = (w.conns d).qtLastPacket
  input : ∀ d, (v.conns d).qtsSocket.readBuf =
    (w.conns d).qtsSocket.readBuf ++ arrivals script d (w.writeCount d) (v.writeCount d)
  untouched : ∀ d, d ∉ v.qsReceivers →
    (v.conns d).qtsSocket.readBuf = (w.conns d).qtsSocket.readBuf
  cost : ∀ d, pending script d (v.writeCount d) +
    2 * (arrivals script d (w.writeCount d) (v.writeCount d)).length ≤
      pending script d (w.writeCount d)

/-- Relates a world `w` to a later world `v`: for every connection, the
messages emitted since `w` followed by what is unread in `v` are exactly what
was unread in `w` followed by the bytes that arrived since, the timer was
restarted once per message, and the pending length is well-formed. -/
structure Served (script : ConnId → List (Option (List Byte))) (w v : World) : Prop where
  lengthOk : ∀ d, LengthOk (v.conns d)
  writes : ∀ d, w.writeCount d ≤ v.writeCount d
  hist : ∀ d, ∃ new, messagesOf d v.emitted = messagesOf d w.emitted ++ new ∧
    (∀ m ∈ new, m.length < 2 ^ 24) ∧
    frames new ++ unread (v.conns d) =
      unread (w.conns d) ++ arrivals script d (w.writeCount d) (v.writeCount d) ∧
    (v.conns d).qtLastPacket = (w.conns d).qtLastPacket + new.length

/-- The world after line 186 of `sendMessage` in a scripted environment, for a
world at level 2: the write is logged and, if the script brings bytes, they are
buffered and the re-entrant `socketRead` queues the connection. -/
def World.afterWrite (script : ConnId → List (Option (List Byte))) (w : World) (c : ConnId)
    (data : List Byte) : World :=
  let w1 := w.setConn c { w.conns c with qtsSocket := (w.conns c).qtsSocket.write data }
  match ((script c)[w.writeCount c]?).join with
  | none => w1
  | some bs => (w1.arrive c bs).insertReceiver c

/-- Every connection that is not pending is short of data. -/
def Settled (w : World) : Prop :=
  ∀ d, d ∉ w.qsReceivers → Starved (w.conns d)

/-- Only the connections in `S` have input: every other one has an empty
script and is short of data. -/
def Confined (script : ConnId → List (Option (List Byte))) (S : Finset ConnId) (w : World) :
    Prop :=
  ∀ d, d ∉ S → script d = [] ∧ Starved (w.conns d)

/-- The pending length of every connection is `-1` or a 24-bit length. -/
def LengthAll (w : World) : Prop :=
  ∀ d, LengthOk (w.conns d)

/-- A connected, encrypted socket with nothing buffered. -/
def sockReady : Socket :=
  { connected := true, encrypted := true, errorString := "", readBuf := [], writes := [] }

/-- A socket that is not connected. -/
def sockDown : Socket :=
  { connected := false, encrypted := false, errorString := "", readBuf := [], writes := [] }

/-- The world at program start, every connection built on the socket `s`. -/
def World.init (s : Socket) : World :=
  { conns := fun _ => Connection.new s, iReceiveLevel := 0, qsReceivers := [], emitted := [] }

/-- A slot that answers every message with a one-byte message on the same
connection. -/
def slotAck : ConnId → List Byte → List Act :=
  fun c _ => [.sendMessage c [1]]

/-- A script in which the first write of connection 0 brings in the frame of
the payload `09`, and nothing else ever arrives. -/
def scriptOne : ConnId → List (Option (List Byte)) :=
  fun d => if d = 0 then [some (sendBuffer [9])] else []

/-- The initial world after the frame of the payload `07` arrived at
connection 0. -/
def worldOne : World :=
  (World.init sockReady).arrive 0 (sendBuffer [7])

/-- The initial world after two frames, of the payloads `07` and `09`, arrived at
connection 0 and the frame of the payload `08` at connection 1. -/
def worldTwo : World :=
  ((World.init sockReady).arrive 0 (frames [[7], [9]])).arrive 1 (sendBuffer [8])

/-! ## Octet arithmetic -/

theorem shl16_and (b : Byte) : (b.val <<< 16) &&& 0xff0000 = b.val * 65536 := by
  have h := b.isLt
  generalize b.val = n at h
  interval_cases n <;> rfl

theorem shl8_and (b : Byte) : (b.val <<< 8) &&& 0xff00 = b.val * 256 := by
  have h := b.isLt
  generalize b.val = n at h
  interval_cases n <;> rfl

theorem shr16 (n : Nat) : n >>> 16 = n / 65536 := by
  rw [Nat.shiftRight_eq_div_pow]

theorem shr8 (n : Nat) : n >>> 8 = n / 256 := by
  rw [Nat.shiftRight_eq_div_pow]

theorem and_ff (n : Nat) : n &&& 0xff = n % 256 :=
  Nat.and_pow_two_sub_one_eq_mod _ 8

theorem headerLength_cons (b0 b1 b2 : Byte) (rest : List Byte) :
    headerLength (b0 :: b1 :: b2 :: rest) =
      ((b0.val * 65536 + b1.val * 256 + b2.val : Nat) : Int) := by
  simp [headerLength, shl16_and, shl8_and]

theorem lengthOctets_length (n : Nat) : (lengthOctets n).length = 3 := rfl

theorem headerLength_lengthOctets (n : Nat) (h : n < 2 ^ 24) (rest : List Byte) :
    headerLength (lengthOctets n ++ rest) = (n : Int) := by
  simp only [lengthOctets, List.cons_append, List.nil_append, headerLength_cons]
  simp only [Fin.ofNat, shr16, shr8, and_ff]
  norm_cast
  omega

theorem lengthOctets_headerLength (b0 b1 b2 : Byte) (rest : List Byte) :
    lengthOctets (headerLength (b0 :: b1 :: b2 :: rest)).toNat = [b0, b1, b2] := by
  rw [headerLength_cons, Int.toNat_ofNat]
  have h0 := b0.isLt
  have h1 := b1.isLt
  have h2 := b2.isLt
  simp only [lengthOctets, Fin.ofNat, shr16, shr8, and_ff]
  refine List.cons_eq_cons.2 ⟨Fin.ext ?_, List.cons_eq_cons.2 ⟨Fin.ext ?_,
    List.cons_eq_cons.2 ⟨Fin.ext ?_, rfl⟩⟩⟩ <;> simp only [] <;> omega

/-! ## Sending -/

theorem runSlot_nil (env : Env) (fuel : Nat) (w : World) :
    runSlot env (fuel + 1) [] w = .ok w := by
  simp [runSlot]

theorem drain_nil (env : Env) (fuel : Nat) (w : World) (h : w.qsReceivers = []) :
    drain env (fuel + 1) w = .ok w := by
  simp [drain, h]

/-- The buffer of a payload that passes line 172 fits the stack. -/
theorem stack_fits (env : Env) (qbaMsg : List Byte) (h : qbaMsg.length ≤ 0xfffff) :
    ¬ env.stack < 3 + qbaMsg.length := by
  simp only [Env.stack]
  omega

/-- Line 164: a buffer beyond the stack ends the process before any check. -/
theorem sendMessage_overflow (env : Env) (fuel : Nat) (c : ConnId) (qbaMsg : List Byte)
    (w : World) (h : env.stack < 3 + qbaMsg.length) :
    sendMessage env (fuel + 1) c qbaMsg w = .error (.stackOverflow w) := by
  simp only [sendMessage, h, if_true]

/-- Lines 172-174: with a buffer that fits the stack, a payload longer than
`0xfffff` on a ready transport ends in `qFatal`. -/
theorem sendMessage_fatal (env : Env) (fuel : Nat) (c : ConnId) (qbaMsg : List Byte)
    (w : World) (hfit : ¬ env.stack < 3 + qbaMsg.length)
    (hconn : (w.conns c).qtsSocket.connected = true)
    (henc : (w.conns c).qtsSocket.encrypted = true)
    (hlen : 0xfffff < qbaMsg.length) :
    sendMessage env (fuel + 1) c qbaMsg w = .error (.fatal w) := by
  have hlen' : 1048575 < qbaMsg.length := by simpa using hlen
  simp [sendMessage, hfit, hconn, henc, hlen']

/-- Lines 166-170: with a buffer that fits the stack, `sendMessage` on a
transport that is not connected or not encrypted returns without effect. -/
theorem sendMessage_idle (env : Env) (fuel : Nat) (c : ConnId) (p : List Byte) (w : World)
    (hfit : ¬ env.stack < 3 + p.length)
    (h : ¬ ((w.conns c).qtsSocket.connected = true ∧ (w.conns c).qtsSocket.encrypted = true)) :
    sendMessage env (fuel + 1) c p w = .ok w := by
  by_cases hc : (w.conns c).qtsSocket.connected = true
  · have he : (w.conns c).qtsSocket.encrypted = false := by
      cases hx : (w.conns c).qtsSocket.encrypted
      · rfl
      · exact (h ⟨hc, hx⟩).elim
    simp [sendMessage, hfit, hc, he]
  · simp [sendMessage, hfit, hc]

/-- What `sendMessage` returns when the transport is ready, the payload fits,
the write raises no `readyRead` and nothing is pending. -/
theorem sendMessage_ready (env : Env) (fuel : Nat) (c : ConnId) (qbaMsg : List Byte) (w : World)
    (hconn : (w.conns c).qtsSocket.connected = true)
    (henc : (w.conns c).qtsSocket.encrypted = true)
    (hlen : qbaMsg.length ≤ 0xfffff)
    (hquiet : ∀ v, env.onWrite v c = none)
    (hq : env.workaround = true → w.iReceiveLevel = 0 → w.qsReceivers = []) :
    sendMessage env (fuel + 2) c qbaMsg w =
      .ok (w.setConn c
        { w.conns c with qtsSocket := (w.conns c).qtsSocket.write (sendBuffer qbaMsg) }) := by
  have hlen' : ¬ (1048575 < qbaMsg.length) := by simpa using hlen
  have hfit := stack_fits env qbaMsg hlen
  by_cases hd : env.workaround = true ∧ w.iReceiveLevel = 0
  · simp [sendMessage, hfit, hconn, henc, hlen', hquiet, hd.1, hd.2, World.setConn, drain,
      hq hd.1 hd.2, Except.bind]
  · cases hwa : env.workaround
    · simp [sendMessage, hfit, hconn, henc, hlen', hquiet, hwa, World.setConn, Except.bind]
    · have h0 : ¬ w.iReceiveLevel = 0 := fun h => hd ⟨hwa, h⟩
      simp [sendMessage, hfit, hconn, henc, hlen', hquiet, hwa, h0, World.setConn, Except.bind]

/-- C3: on a connected and encrypted transport, a payload of length `L ≤ 0xFFFFF`
makes `sendMessage` return after adding exactly one write of `3 + L` bytes: the
octets `(L >> 16) & 0xff`, `(L >> 8) & 0xff`, `L & 0xff`, which are the
big-endian digits of `L`, followed by the payload unchanged. -/
theorem sendMessage_encode_format (env : Env) (fuel : Nat) (c : ConnId) (qbaMsg : List Byte)
    (w : World)
    (hconn : (w.conns c).qtsSocket.connected = true)
    (henc : (w.conns c).qtsSocket.encrypted = true)
    (hlen : qbaMsg.length ≤ 0xfffff)
    (hquiet : ∀ v, env.onWrite v c = none)
    (hq : env.workaround = true → w.iReceiveLevel = 0 → w.qsReceivers = [])
    (hfuel : 2 ≤ fuel) :
    ∃ w' data, sendMessage env fuel c qbaMsg w = .ok w' ∧
      (w'.conns c).qtsSocket.writes = (w.conns c).qtsSocket.writes ++ [data] ∧
      data.length = 3 + qbaMsg.length ∧
      (data.take 3).map Fin.val =
        [(qbaMsg.length >>> 16) &&& 0xff, (qbaMsg.length >>> 8) &&& 0xff,
          qbaMsg.length &&& 0xff] ∧
      (data.getD 0 0).val * 65536 + (data.getD 1 0).val * 256 + (data.getD 2 0).val
        = qbaMsg.length ∧
      data.drop 3 = qbaMsg := by
  obtain ⟨f, rfl⟩ : ∃ f, fuel = f + 2 := ⟨fuel - 2, by omega⟩
  refine ⟨_, sendBuffer qbaMsg, sendMessage_ready env f c qbaMsg w hconn henc hlen hquiet hq,
    ?_, ?_, ?_, ?_, ?_⟩
  · simp [World.setConn, Socket.write]
  · simp [sendBuffer, lengthOctets]; omega
  · simp only [sendBuffer, lengthOctets, List.cons_append, List.nil_append, List.take_succ_cons,
      List.take_zero, List.map_cons, List.map_nil, Fin.ofNat, shr16, shr8, and_ff]
    simp
  · simp only [sendBuffer, lengthOctets, List.cons_append, List.nil_append, List.getD_cons_zero,
      List.getD_cons_succ, Fin.ofNat, shr16, shr8, and_ff]
    have : qbaMsg.length < 1048576 := by simpa using Nat.lt_succ_of_le hlen
    omega
  · simp [sendBuffer, lengthOctets]

/-- Witness of C3: a three-byte payload on a ready transport. -/
theorem sendMessage_encode_format_witness :
    ∃ w' data, sendMessage (Env.passive true) 2 0 [1, 2, 3] (World.init sockReady) = .ok w' ∧
      (w'.conns 0).qtsSocket.writes = ((World.init sockReady).conns 0).qtsSocket.writes ++ [data] ∧
      data.length = 3 + [(1 : Byte), 2, 3].length ∧
      (data.take 3).map Fin.val =
        [([(1 : Byte), 2, 3].length >>> 16) &&& 0xff, ([(1 : Byte), 2, 3].length >>> 8) &&& 0xff,
          [(1 : Byte), 2, 3].length &&& 0xff] ∧
      (data.getD 0 0).val * 65536 + (data.getD 1 0).val * 256 + (data.getD 2 0).val
        = [(1 : Byte), 2, 3].length ∧
      data.drop 3 = [1, 2, 3] :=
  sendMessage_encode_format (Env.passive true) 2 0 [1, 2, 3] (World.init sockReady)
    rfl rfl (by decide) (fun _ => rfl) (fun _ _ => rfl) (le_refl 2)

/-- C5, evaluated where it fails: on a connected and encrypted transport, in a
process whose stack has 8 MiB for the buffer, a payload of 8 MiB makes
`sendMessage` die of the stack overflow at line 164, before the size check of
line 172 is reached, where the claim says it ends in `qFatal`; nothing is
written. The payload of `0x100000` bytes, whose buffer fits, does end in
`qFatal`, as every oversized payload with a buffer that fits does. -/
theorem sendMessage_oversized_overflows_stack :
    sendMessage { Env.passive true with stackSpare := 0x6ffffe } 1 0
        (List.replicate 0x800000 0) (World.init sockReady)
      = .error (.stackOverflow (World.init sockReady)) ∧
    sendMessage { Env.passive true with stackSpare := 0x6ffffe } 1 0
        (List.replicate 0x100000 0) (World.init sockReady)
      = .error (.fatal (World.init sockReady)) ∧
    ∀ (env : Env) (fuel : Nat) (c : ConnId) (qbaMsg : List Byte) (w : World),
      (w.conns c).qtsSocket.connected = true → (w.conns c).qtsSocket.encrypted = true →
      0xfffff < qbaMsg.length →
      sendMessage env (fuel + 1) c qbaMsg w =
        if 3 + qbaMsg.length ≤ env.stack then .error (.fatal w)
        else .error (.stackOverflow w) := by
  refine ⟨?_, ?_, ?_⟩
  · exact sendMessage_overflow _ 0 0 _ _ (by
      rw [List.length_replicate]
      decide)
  · exact sendMessage_fatal _ 0 0 _ _ (by
      rw [List.length_replicate]
      decide) rfl rfl (by
      rw [List.length_replicate]
      decide)
  · intro env fuel c qbaMsg w hconn henc hlen
    by_cases hfit : 3 + qbaMsg.length ≤ env.stack
    · rw [if_pos hfit]
      exact sendMessage_fatal env fuel c qbaMsg w (by omega) hconn henc hlen
    · rw [if_neg hfit]
      exact sendMessage_overflow env fuel c qbaMsg w (by omega)

/-- C6, evaluated where it fails: on a transport that is not connected, in a
process whose stack has 8 MiB for the buffer, a payload of 8 MiB makes
`sendMessage` die of the stack overflow at line 164, before the checks of lines
166-170 are reached, where the claim says it returns without effect. With a
buffer that fits the stack the call does return the world it was called in,
whatever the payload. -/
theorem sendMessage_not_ready_overflows_stack :
    sendMessage { Env.passive true with stackSpare := 0x6ffffe } 1 0
        (List.replicate 0x800000 0) (World.init sockDown)
      = .error (.stackOverflow (World.init sockDown)) ∧
    sendMessage { Env.passive true with stackSpare := 0x6ffffe } 1 0
        (List.replicate 0x100000 0) (World.init sockDown)
      = .ok (World.init sockDown) ∧
    ∀ (env : Env) (fuel : Nat) (c : ConnId) (qbaMsg : List Byte) (w : World),
      (w.conns c).qtsSocket.connected = false ∨ (w.conns c).qtsSocket.encrypted = false →
      sendMessage env (fuel + 1) c qbaMsg w =
        if 3 + qbaMsg.length ≤ env.stack then .ok w else .error (.stackOverflow w) := by
  have down : ∀ (c : ConnId) (w : World),
      (w.conns c).qtsSocket.connected = false ∨ (w.conns c).qtsSocket.encrypted = false →
      ¬ ((w.conns c).qtsSocket.connected = true ∧ (w.conns c).qtsSocket.encrypted = true) := by
    intro c w h hr
    rcases h with h | h
    · rw [hr.1] at h
      cases h
    · rw [hr.2] at h
      cases h
  refine ⟨?_, ?_, ?_⟩
  · exact sendMessage_overflow _ 0 0 _ _ (by
      rw [List.length_replicate]
      decide)
  · exact sendMessage_idle _ 0 0 _ _ (by
      rw [List.length_replicate]
      decide) (down 0 _ (Or.inl rfl))
  · intro env fuel c qbaMsg w hdown
    by_cases hfit : 3 + qbaMsg.length ≤ env.stack
    · rw [if_pos hfit]
      exact sendMessage_idle env fuel c qbaMsg w (by omega) (down c w hdown)
    · rw [if_neg hfit]
      exact sendMessage_overflow env fuel c qbaMsg w (by omega)

/-! ## Reading: single steps -/

/-- C4: awaiting a header (`iPacketLength = -1`) with the bytes `b0 b1 b2` at the
front of the available data, the header step of `socketRead` takes exactly
these three bytes from the transport and sets the pending length to
`b0 * 65536 + b1 * 256 + b2`; every later byte is still unread. -/
theorem readHeader_decodes (k : Connection) (b0 b1 b2 : Byte) (rest : List Byte)
    (hpl : k.iPacketLength = -1)
    (hbuf : k.qtsSocket.readBuf = b0 :: b1 :: b2 :: rest) :
    readHeader k k.qtsSocket.bytesAvailable =
      some ({ k with qtsSocket := { k.qtsSocket with readBuf := rest }
                     iPacketLength := ((b0.val * 65536 + b1.val * 256 + b2.val : Nat) : Int) },
            (rest.length : Int)) := by
  have hav : ¬ ((rest.length : Int) + 1 + 1 + 1 < 3) := by omega
  simp [readHeader, hpl, Socket.bytesAvailable, Socket.read, hbuf, hav, headerLength_cons]
  omega

/-- Witness of C4: the header `00 01 02` in front of one more byte. -/
theorem readHeader_decodes_witness :
    readHeader (Connection.new { sockReady with readBuf := [0, 1, 2, 9] })
        (Connection.new { sockReady with readBuf := [0, 1, 2, 9] }).qtsSocket.bytesAvailable =
      some ({ Connection.new { sockReady with readBuf := [0, 1, 2, 9] } with
                qtsSocket := { (Connection.new
                  { sockReady with readBuf := [0, 1, 2, 9] }).qtsSocket with readBuf := [9] }
                iPacketLength :=
                  (((0 : Byte).val * 65536 + (1 : Byte).val * 256 + (2 : Byte).val : Nat) : Int) },
            (([9] : List Byte).length : Int)) :=
  readHeader_decodes (Connection.new { sockReady with readBuf := [0, 1, 2, 9] }) 0 1 2 [9]
    rfl rfl

theorem readHeader_starved (k : Connection) (h : Starved k) :
    (readHeader k k.qtsSocket.bytesAvailable = none ∧ k.iPacketLength = -1) ∨
    (readHeader k k.qtsSocket.bytesAvailable = some (k, k.qtsSocket.bytesAvailable) ∧
      readBody k k.qtsSocket.bytesAvailable = { conn := k, msg := none, requeue := false }) := by
  rcases h with ⟨h1, h2⟩ | ⟨h1, h2⟩
  · left; simp [readHeader, h1, h2]
  · right
    have h3 : ¬ (k.iPacketLength ≤ k.qtsSocket.bytesAvailable) := by omega
    simp [readHeader, readBody, h1, h3]

/-- A read that is not re-entrant and stops before the body step emits
anything returns; it changes no connection but its own and logs no signal. -/
theorem socketRead_silent (env : Env) (fuel : Nat) (c : ConnId) (w : World)
    (hnr : env.workaround = true → w.iReceiveLevel ≠ 2)
    (hq : env.workaround = true → w.iReceiveLevel = 0 → w.qsReceivers = [])
    (k1 : Connection)
    (hs : (readHeader (w.conns c) (w.conns c).qtsSocket.bytesAvailable = none ∧ k1 = w.conns c) ∨
      ∃ av, readHeader (w.conns c) (w.conns c).qtsSocket.bytesAvailable = some (k1, av) ∧
        readBody k1 av = { conn := k1, msg := none, requeue := false }) :
    ∃ w', socketRead env (fuel + 2) c w = .ok w' ∧ w'.conns = Function.update w.conns c k1 ∧
      w'.emitted = w.emitted ∧ w'.iReceiveLevel = w.iReceiveLevel := by
  cases hwa : env.workaround
  · rcases hs with ⟨h1, rfl⟩ | ⟨av, h1, h2⟩
    · exact ⟨w, by simp [socketRead, hwa, h1], by simp, rfl, rfl⟩
    · exact ⟨w.setConn c k1, by simp [socketRead, hwa, h1, h2, Except.bind], rfl, rfl, rfl⟩
  · have hne := hnr hwa
    by_cases hl1 : w.iReceiveLevel = 1
    · rcases hs with ⟨h1, rfl⟩ | ⟨av, h1, h2⟩
      · refine ⟨w.removeReceiver c, ?_, by simp [World.removeReceiver], rfl, rfl⟩
        simp [socketRead, hwa, hl1, World.removeReceiver] at h1 ⊢
        simp [h1, hl1]
      · refine ⟨(w.removeReceiver c).setConn c k1, ?_, rfl, rfl, rfl⟩
        simp [socketRead, hwa, hl1, World.removeReceiver, World.setConn, Except.bind] at h1 h2 ⊢
        simp [h1, h2, hl1]
    · rcases hs with ⟨h1, rfl⟩ | ⟨av, h1, h2⟩
      · refine ⟨w, ?_, by simp, rfl, rfl⟩
        simp [socketRead, hwa, hl1, hne, h1]
      · refine ⟨w.setConn c k1, ?_, rfl, rfl, rfl⟩
        by_cases hl0 : w.iReceiveLevel = 0
        · simp [socketRead, hwa, hl1, hne, h1, h2, World.setConn, Except.bind, drain, hq hwa hl0, hl0]
        · simp [socketRead, hwa, hl1, hne, h1, h2, World.setConn, Except.bind, hl0]

theorem readHeader_cons (k : Connection) (b0 b1 b2 : Byte) (rest : List Byte)
    (hpl : k.iPacketLength = -1)
    (hbuf : k.qtsSocket.readBuf = b0 :: b1 :: b2 :: rest) :
    readHeader k k.qtsSocket.bytesAvailable =
      some ({ k with qtsSocket := { k.qtsSocket with readBuf := rest }
                     iPacketLength := headerLength [b0, b1, b2] },
            (rest.length : Int)) := by
  have hav : ¬ ((rest.length : Int) + 1 + 1 + 1 < 3) := by omega
  simp [readHeader, hpl, Socket.bytesAvailable, Socket.read, hbuf, hav]
  omega

theorem headerLength_nonneg (l : List Byte) : 0 ≤ headerLength l := by
  simp only [headerLength]
  exact Int.ofNat_nonneg _

theorem headerLength_lt (b0 b1 b2 : Byte) : headerLength [b0, b1, b2] < 2 ^ 24 := by
  rw [headerLength_cons]
  have h0 := b0.isLt
  have h1 := b1.isLt
  have h2 := b2.isLt
  norm_cast
  omega

theorem exists_three (l : List Byte) (h : 3 ≤ l.length) :
    ∃ b0 b1 b2 rest, l = b0 :: b1 :: b2 :: rest := by
  match l, h with
  | b0 :: b1 :: b2 :: rest, _ => exact ⟨b0, b1, b2, rest, rfl⟩

theorem coreStep_none (k : Connection) (h : coreStep k = none) :
    k.iPacketLength = -1 ∧ k.qtsSocket.bytesAvailable < 3 := by
  unfold coreStep readHeader at h
  by_cases hpl : k.iPacketLength = -1
  · by_cases hav : k.qtsSocket.bytesAvailable < 3
    · exact ⟨hpl, hav⟩
    · simp [hpl, hav] at h
  · simp [hpl] at h

/-- The body step on a connection that awaits `n` bytes and has them. -/
theorem readBody_ready (k : Connection) (av : Int) (hpl : k.iPacketLength ≠ -1)
    (hav : k.iPacketLength ≤ av) :
    readBody k av =
      { conn := { k with qtsSocket := { k.qtsSocket with
                            readBuf := k.qtsSocket.readBuf.drop k.iPacketLength.toNat }
                         iPacketLength := -1
                         qtLastPacket := k.qtLastPacket + 1 }
        msg := some (k.qtsSocket.readBuf.take k.iPacketLength.toNat)
        requeue := decide (av + 1 ≥ 3) } := by
  simp [readBody, hpl, hav, Socket.read]

/-- The body step on a connection that awaits more bytes than it has. -/
theorem readBody_short (k : Connection) (av : Int) (hav : av < k.iPacketLength) :
    readBody k av = { conn := k, msg := none, requeue := false } := by
  have h : ¬ (k.iPacketLength ≤ av) := by omega
  simp [readBody, h]

/-- A `coreStep` that emits nothing leaves the connection short of data and
the unread stream as it was. -/
theorem coreStep_quiet (k : Connection) (hv : LengthOk k) (b : BodyStep)
    (h : coreStep k = some b) (hm : b.msg = none) :
    b.requeue = false ∧ Starved b.conn ∧ LengthOk b.conn ∧ unread b.conn = unread k := by
  unfold coreStep at h
  by_cases hpl : k.iPacketLength = -1
  · by_cases hav : k.qtsSocket.bytesAvailable < 3
    · simp [readHeader, hpl, hav] at h
    · obtain ⟨b0, b1, b2, rest, hbuf⟩ := exists_three k.qtsSocket.readBuf
        (by simp only [Socket.bytesAvailable] at hav; omega)
      rw [readHeader_cons k b0 b1 b2 rest hpl hbuf] at h
      simp only [Option.map_some', Option.some.injEq] at h
      have hnn := headerLength_nonneg [b0, b1, b2]
      have hlt := headerLength_lt b0 b1 b2
      by_cases hlen : headerLength [b0, b1, b2] ≤ (rest.length : Int)
      · rw [readBody_ready _ _ (by simp only; omega) (by simpa using hlen)] at h
        subst h
        simp at hm
      · rw [readBody_short _ _ (by simp only; omega)] at h
        subst h
        refine ⟨rfl, Or.inr ⟨by simp only; omega, ?_⟩, Or.inr ⟨hnn, hlt⟩, ?_⟩
        · simp only [Socket.bytesAvailable]; omega
        · have hne : headerLength [b0, b1, b2] ≠ -1 := by omega
          simp only [unread, hne, if_false, hpl, if_true, hbuf]
          rw [lengthOctets_headerLength]
          rfl
  · have hh : readHeader k k.qtsSocket.bytesAvailable = some (k, k.qtsSocket.bytesAvailable) := by
      simp [readHeader, hpl]
    rw [hh] at h
    simp only [Option.map_some', Option.some.injEq] at h
    by_cases hlen : k.iPacketLength ≤ k.qtsSocket.bytesAvailable
    · rw [readBody_ready _ _ hpl hlen] at h
      subst h
      simp at hm
    · rw [readBody_short _ _ (by omega)] at h
      subst h
      exact ⟨rfl, Or.inr ⟨hpl, by dsimp only; omega⟩, hv, rfl⟩

/-- A `coreStep` that emits `m` has taken exactly the frame of `m` off the
front of the unread stream. -/
theorem coreStep_msg (k : Connection) (hv : LengthOk k) (b : BodyStep) (m : List Byte)
    (h : coreStep k = some b) (hm : b.msg = some m) :
    sendBuffer m ++ unread b.conn = unread k ∧ m.length < 2 ^ 24 ∧
      b.conn.iPacketLength = -1 ∧ (b.requeue = false → Starved b.conn) ∧
      weight b.conn < weight k := by
  unfold coreStep at h
  by_cases hpl : k.iPacketLength = -1
  · by_cases hav : k.qtsSocket.bytesAvailable < 3
    · simp [readHeader, hpl, hav] at h
    · obtain ⟨b0, b1, b2, rest, hbuf⟩ := exists_three k.qtsSocket.readBuf
        (by simp only [Socket.bytesAvailable] at hav; omega)
      rw [readHeader_cons k b0 b1 b2 rest hpl hbuf] at h
      simp only [Option.map_some', Option.some.injEq] at h
      have hnn := headerLength_nonneg [b0, b1, b2]
      have hlt := headerLength_lt b0 b1 b2
      by_cases hlen : headerLength [b0, b1, b2] ≤ (rest.length : Int)
      · rw [readBody_ready _ _ (by simp only; omega) (by simpa using hlen)] at h
        subst h
        simp only [Option.some.injEq] at hm
        subst hm
        have hmin : (headerLength [b0, b1, b2]).toNat ≤ rest.length := by omega
        have hl : (List.take (headerLength [b0, b1, b2]).toNat rest).length
            = (headerLength [b0, b1, b2]).toNat := by
          rw [List.length_take]; omega
        refine ⟨?_, ?_, rfl, ?_, ?_⟩
        · simp only [unread, sendBuffer, hpl, if_true, hbuf, hl]
          rw [lengthOctets_headerLength]
          simp
        · rw [hl]; omega
        · intro hr
          simp only [decide_eq_false_iff_not] at hr
          left
          refine ⟨rfl, ?_⟩
          simp only [Socket.bytesAvailable, List.length_drop]
          omega
        · simp only [weight, hpl, if_true, hbuf, List.length_drop, List.length_cons]
          omega
      · rw [readBody_short _ _ (by simp only; omega)] at h
        subst h
        simp at hm
  · have hh : readHeader k k.qtsSocket.bytesAvailable = some (k, k.qtsSocket.bytesAvailable) := by
      simp [readHeader, hpl]
    rw [hh] at h
    simp only [Option.map_some', Option.some.injEq] at h
    by_cases hlen : k.iPacketLength ≤ k.qtsSocket.bytesAvailable
    · rw [readBody_ready _ _ hpl hlen] at h
      subst h
      simp only [Option.some.injEq] at hm
      subst hm
      rcases hv with hv | ⟨hv0, hv1⟩
      · exact absurd hv hpl
      simp only [Socket.bytesAvailable] at hlen
      have hl : (List.take k.iPacketLength.toNat k.qtsSocket.readBuf).length
          = k.iPacketLength.toNat := by
        rw [List.length_take]; omega
      refine ⟨?_, ?_, rfl, ?_, ?_⟩
      · simp only [unread, sendBuffer, hpl, if_false, if_true, hl]
        simp
      · rw [hl]; omega
      · intro hr
        simp only [decide_eq_false_iff_not] at hr
        left
        refine ⟨rfl, ?_⟩
        simp only [Socket.bytesAvailable, List.length_drop] at hr ⊢
        omega
      · simp only [weight, hpl, if_false, if_true, List.length_drop]
        omega
    · rw [readBody_short _ _ (by omega)] at h
      subst h
      simp at hm

/-! ## Reading: the serialised dispatch with passive slots -/

theorem level_self (w : World) (n : Int) (h : w.iReceiveLevel = n) :
    { w with iReceiveLevel := n } = w := by
  cases w
  simp_all

/-- Without the workaround, `socketRead` is one `coreStep`. -/
theorem socketRead_plain (fuel : Nat) (c : ConnId) (w : World) :
    socketRead (Env.passive false) (fuel + 2) c w = .ok (stepWorld c w) := by
  simp only [socketRead, Env.passive, stepWorld, coreStep]
  cases hh : readHeader (w.conns c) (w.conns c).qtsSocket.bytesAvailable with
  | none => simp [hh]
  | some p =>
    obtain ⟨k1, av⟩ := p
    cases hm : (readBody k1 av).msg <;> simp [hm, hh, Except.bind, runSlot]

/-- With the workaround, a `socketRead` called from the drain loop is one
`coreStep` after leaving the pending set. -/
theorem socketRead_nested (fuel : Nat) (c : ConnId) (w : World) (hl : w.iReceiveLevel = 1) :
    socketRead (Env.passive true) (fuel + 2) c w = .ok (stepWorld c (w.removeReceiver c)) := by
  simp only [socketRead, Env.passive, stepWorld, coreStep, hl]
  have hc : (w.removeReceiver c).conns = w.conns := rfl
  cases hh : readHeader (w.conns c) (w.conns c).qtsSocket.bytesAvailable with
  | none =>
    simp [World.removeReceiver, hh]
    rw [← hl]
  | some p =>
    obtain ⟨k1, av⟩ := p
    cases hm : (readBody k1 av).msg <;> cases hr : (readBody k1 av).requeue <;>
      simp [hm, hr, hh, Except.bind, runSlot, World.removeReceiver, World.setConn,
        World.insertReceiver, World.emit] <;> rw [← hl]

/-- With the workaround, an outermost `socketRead` is one `coreStep` followed,
unless it returned early, by the drain loop at level 1. -/
theorem socketRead_outer (fuel : Nat) (c : ConnId) (w : World) (hl : w.iReceiveLevel = 0) :
    socketRead (Env.passive true) (fuel + 2) c w =
      match coreStep (w.conns c) with
      | none => .ok w
      | some _ =>
        (drain (Env.passive true) (fuel + 1) { stepWorld c w with iReceiveLevel := 1 }).bind
          fun v => .ok { v with iReceiveLevel := 0 } := by
  simp only [socketRead, Env.passive, stepWorld, coreStep, hl]
  cases hh : readHeader (w.conns c) (w.conns c).qtsSocket.bytesAvailable with
  | none =>
    simp [hh]
    exact level_self w _ hl
  | some p =>
    obtain ⟨k1, av⟩ := p
    cases hm : (readBody k1 av).msg <;> cases hr : (readBody k1 av).requeue <;>
      simp [hm, hr, hh, Except.bind, runSlot, World.setConn,
        World.insertReceiver, World.emit]

theorem stepWorld_none (c : ConnId) (w : World) (h : coreStep (w.conns c) = none) :
    stepWorld c w = w := by
  simp [stepWorld, h]

theorem stepWorld_quiet (c : ConnId) (w : World) (b : BodyStep)
    (h : coreStep (w.conns c) = some b) (hm : b.msg = none) (hr : b.requeue = false) :
    stepWorld c w = w.setConn c b.conn := by
  simp [stepWorld, h, hm, hr]

theorem stepWorld_msg (c : ConnId) (w : World) (b : BodyStep) (m : List Byte)
    (h : coreStep (w.conns c) = some b) (hm : b.msg = some m) :
    stepWorld c w =
      (if b.requeue then (w.setConn c b.conn).insertReceiver c else w.setConn c b.conn).emit
        (.message c m) := by
  simp [stepWorld, h, hm]

theorem frames_nil : frames [] = [] := rfl

theorem frames_cons (m : List Byte) (ms : List (List Byte)) :
    frames (m :: ms) = sendBuffer m ++ frames ms := by
  simp [frames]

theorem frames_append (xs ys : List (List Byte)) : frames (xs ++ ys) = frames xs ++ frames ys := by
  simp [frames]

/-- A world whose connection `c` lacks data and whose pending set is empty is
already pumped. -/
theorem Pumped.refl (c : ConnId) (w : World) (hq : w.qsReceivers = [])
    (hs : Starved (w.conns c)) (hv : LengthOk (w.conns c)) : Pumped c w w [] :=
  { level := rfl, queue := hq, others := fun _ _ => rfl, signals := by simp,
    stream := by simp [frames_nil], starved := hs, lengthOk := hv,
    short := by simp }

/-- The drain loop at level 1, with at most `c` pending, terminates and pumps `c`. -/
theorem drain_pumps (c : ConnId) (n : Nat) : ∀ (w : World), w.iReceiveLevel = 1 →
    (w.qsReceivers = [c] ∨ (w.qsReceivers = [] ∧ Starved (w.conns c))) →
    LengthOk (w.conns c) → weight (w.conns c) < n → ∀ fuel, n + 2 ≤ fuel →
    ∃ w' msgs, drain (Env.passive true) fuel w = .ok w' ∧ Pumped c w w' msgs := by
  induction n with
  | zero => intro w _ _ _ hw; omega
  | succ n ih =>
    intro w hl hq hv hw fuel hfuel
    obtain ⟨f, rfl⟩ : ∃ f, fuel = f + 3 := ⟨fuel - 3, by omega⟩
    rcases hq with hq | ⟨hq, hs⟩
    · have hrem : (w.removeReceiver c).qsReceivers = [] := by
        simp [World.removeReceiver, hq]
      have hstep : drain (Env.passive true) (f + 3) w =
          drain (Env.passive true) (f + 2) (stepWorld c (w.removeReceiver c)) := by
        rw [drain]
        simp only [hq]
        rw [socketRead_nested f c w hl]
        rfl
      rw [hstep]
      have hcon : (w.removeReceiver c).conns = w.conns := rfl
      cases hc : coreStep (w.conns c) with
      | none =>
        have hc' : coreStep ((w.removeReceiver c).conns c) = none := by rw [hcon]; exact hc
        rw [stepWorld_none c _ hc']
        refine ⟨w.removeReceiver c, [], drain_nil _ _ _ hrem, ?_⟩
        have hst := coreStep_none _ hc
        exact { Pumped.refl c (w.removeReceiver c) hrem (Or.inl hst) hv with }
      | some b =>
        have hc' : coreStep ((w.removeReceiver c).conns c) = some b := by rw [hcon]; exact hc
        cases hm : b.msg with
        | none =>
          obtain ⟨hr, hst, hlo, hun⟩ := coreStep_quiet _ hv b hc hm
          rw [stepWorld_quiet c _ b hc' hm hr]
          refine ⟨(w.removeReceiver c).setConn c b.conn, [], drain_nil _ _ _ hrem, ?_⟩
          exact
            { level := rfl
              queue := hrem
              others := fun d hd => by simp [World.setConn, World.removeReceiver, hd]
              signals := by simp [World.setConn, World.removeReceiver]
              stream := by simpa [World.setConn, frames_nil] using hun
              starved := by simpa [World.setConn] using hst
              lengthOk := by simpa [World.setConn] using hlo
              short := by simp }
        | some m =>
          obtain ⟨hun, hml, hpl, hst, hwt⟩ := coreStep_msg _ hv b m hc hm
          rw [stepWorld_msg c _ b m hc' hm]
          have hlo : LengthOk b.conn := Or.inl hpl
          obtain ⟨w', msgs, hd, hp⟩ := ih
            ((if b.requeue then ((w.removeReceiver c).setConn c b.conn).insertReceiver c
              else (w.removeReceiver c).setConn c b.conn).emit (.message c m))
            (by cases b.requeue <;> simpa [World.emit, World.setConn, World.insertReceiver,
              World.removeReceiver] using hl)
            (by
              cases hr : b.requeue
              · right
                simp [World.emit, World.setConn, World.removeReceiver, hq]
                exact hst hr
              · left
                simp [World.emit, World.setConn, World.removeReceiver, World.insertReceiver, hq])
            (by cases b.requeue <;> simpa [World.emit, World.setConn, World.insertReceiver]
              using hlo)
            (by
              have : weight b.conn < n := by omega
              cases b.requeue <;> simpa [World.emit, World.setConn, World.insertReceiver]
                using this)
            (f + 2) (by omega)
          refine ⟨w', m :: msgs, hd, ?_⟩
          exact
            { level := by
                rw [hp.level]
                cases b.requeue <;> simp [World.emit, World.setConn, World.insertReceiver,
                  World.removeReceiver]
              queue := hp.queue
              others := fun d hd => by
                rw [hp.others d hd]
                cases b.requeue <;> simp [World.emit, World.setConn, World.insertReceiver,
                  World.removeReceiver, hd]
              signals := by
                rw [hp.signals]
                cases b.requeue <;> simp [World.emit, World.setConn, World.insertReceiver,
                  World.removeReceiver]
              stream := by
                have h1 := hp.stream
                have h2 : unread (((if b.requeue then
                    ((w.removeReceiver c).setConn c b.conn).insertReceiver c
                    else (w.removeReceiver c).setConn c b.conn).emit (.message c m)).conns c)
                    = unread b.conn := by
                  cases b.requeue <;> simp [World.emit, World.setConn, World.insertReceiver]
                rw [h2] at h1
                rw [frames_cons, List.append_assoc, h1, hun]
              starved := hp.starved
              lengthOk := hp.lengthOk
              short := by
                intro x hx
                rcases List.mem_cons.1 hx with rfl | hx
                · exact hml
                · exact hp.short x hx }
    · exact ⟨w, [], drain_nil _ _ _ hq, Pumped.refl c w hq hs hv⟩

/-- With the workaround and passive slots, an outermost `socketRead` with
nothing pending returns, having pumped its connection. -/
theorem socketRead_pumps (c : ConnId) (w : World) (hl : w.iReceiveLevel = 0)
    (hq : w.qsReceivers = []) (hv : LengthOk (w.conns c)) (fuel : Nat)
    (hfuel : weight (w.conns c) + 3 ≤ fuel) :
    ∃ w' msgs, socketRead (Env.passive true) fuel c w = .ok w' ∧ Pumped c w w' msgs := by
  obtain ⟨f, rfl⟩ : ∃ f, fuel = f + 2 := ⟨fuel - 2, by omega⟩
  rw [socketRead_outer f c w hl]
  cases hc : coreStep (w.conns c) with
  | none =>
    exact ⟨w, [], rfl, Pumped.refl c w hq (Or.inl (coreStep_none _ hc)) hv⟩
  | some b =>
    simp only []
    cases hm : b.msg with
    | none =>
      obtain ⟨hr, hst, hlo, hun⟩ := coreStep_quiet _ hv b hc hm
      rw [stepWorld_quiet c _ b hc hm hr]
      rw [drain_nil _ _ _ (by simpa [World.setConn] using hq)]
      refine ⟨w.setConn c b.conn, [], ?_, ?_⟩
      · simp only [Except.bind]
        congr 1
        exact level_self (w.setConn c b.conn) 0 (by simpa [World.setConn] using hl)
      · exact
          { level := rfl
            queue := by simpa [World.setConn] using hq
            others := fun d hd => by simp [World.setConn, hd]
            signals := by simp [World.setConn]
            stream := by simpa [World.setConn, frames_nil] using hun
            starved := by simpa [World.setConn] using hst
            lengthOk := by simpa [World.setConn] using hlo
            short := by simp }
    | some m =>
      obtain ⟨hun, hml, hpl, hst, hwt⟩ := coreStep_msg _ hv b m hc hm
      rw [stepWorld_msg c _ b m hc hm]
      have hlo : LengthOk b.conn := Or.inl hpl
      obtain ⟨v, msgs, hd, hp⟩ := drain_pumps c (weight (w.conns c))
        { (if b.requeue then (w.setConn c b.conn).insertReceiver c
            else w.setConn c b.conn).emit (.message c m) with iReceiveLevel := 1 }
        rfl
        (by
          cases hr : b.requeue
          · right
            simp [World.emit, World.setConn, hq]
            exact hst hr
          · left
            simp [World.emit, World.setConn, World.insertReceiver, hq])
        (by cases b.requeue <;> simpa [World.emit, World.setConn, World.insertReceiver]
          using hlo)
        (by cases b.requeue <;> simpa [World.emit, World.setConn, World.insertReceiver]
          using hwt)
        (f + 1) (by omega)
      rw [hd]
      refine ⟨{ v with iReceiveLevel := 0 }, m :: msgs, rfl, ?_⟩
      exact
        { level := hl.symm
          queue := hp.queue
          others := fun d hd => by
            show v.conns d = _
            rw [hp.others d hd]
            cases b.requeue <;> simp [World.emit, World.setConn, World.insertReceiver, hd]
          signals := by
            show v.emitted = _
            rw [hp.signals]
            cases b.requeue <;> simp [World.emit, World.setConn, World.insertReceiver]
          stream := by
            have h1 := hp.stream
            have h2 : unread (({ (if b.requeue then (w.setConn c b.conn).insertReceiver c
                else w.setConn c b.conn).emit (.message c m) with iReceiveLevel := 1 } :
                  World).conns c) = unread b.conn := by
              cases b.requeue <;> simp [World.emit, World.setConn, World.insertReceiver]
            rw [h2] at h1
            show frames (m :: msgs) ++ unread (v.conns c) = _
            rw [frames_cons, List.append_assoc, h1, hun]
          starved := hp.starved
          lengthOk := hp.lengthOk
          short := by
            intro x hx
            rcases List.mem_cons.1 hx with rfl | hx
            · exact hml
            · exact hp.short x hx }

/-! ## Frames parse in one way only -/

theorem lengthOctets_inj (a b : Nat) (ha : a < 2 ^ 24) (hb : b < 2 ^ 24)
    (h : lengthOctets a = lengthOctets b) : a = b := by
  have h1 := headerLength_lengthOctets a ha []
  have h2 := headerLength_lengthOctets b hb []
  rw [h] at h1
  rw [h1] at h2
  exact_mod_cast h2

theorem sendBuffer_append_inj (m p X Y : List Byte) (hm : m.length < 2 ^ 24)
    (hp : p.length < 2 ^ 24) (h : sendBuffer m ++ X = sendBuffer p ++ Y) : m = p ∧ X = Y := by
  simp only [sendBuffer, List.append_assoc] at h
  obtain ⟨h1, h2⟩ := List.append_inj h (by simp [lengthOctets_length])
  have hl := lengthOctets_inj _ _ hm hp h1
  exact List.append_inj h2 hl

theorem sendBuffer_length (m : List Byte) : (sendBuffer m).length = 3 + m.length := by
  simp [sendBuffer, lengthOctets_length]

/-- A starved connection cannot hold a whole frame in its unread stream. -/
theorem starved_no_frame (k : Connection) (hs : Starved k) (hv : LengthOk k) (p X : List Byte)
    (hp : p.length < 2 ^ 24) (h : unread k = sendBuffer p ++ X) : False := by
  rcases hs with ⟨h1, h2⟩ | ⟨h1, h2⟩
  · simp only [unread, h1, if_true] at h
    have hl := congrArg List.length h
    simp only [Socket.bytesAvailable] at h2
    simp only [List.length_append, sendBuffer_length] at hl
    omega
  · rcases hv with hv | ⟨hv0, hv1⟩
    · exact h1 hv
    simp only [unread, h1, if_false, sendBuffer, List.append_assoc] at h
    obtain ⟨e1, e2⟩ := List.append_inj h (by simp [lengthOctets_length])
    have hl := lengthOctets_inj _ _ (by omega) hp e1
    have hl2 := congrArg List.length e2
    simp only [Socket.bytesAvailable] at h2
    simp only [List.length_append] at hl2
    omega

/-- If the messages emitted so far plus the unread stream of a starved
connection make up the frames of `payloads`, the messages are `payloads`. -/
theorem frames_unique (k : Connection) (hs : Starved k) (hv : LengthOk k) :
    ∀ (msgs payloads : List (List Byte)), (∀ m ∈ msgs, m.length < 2 ^ 24) →
      (∀ p ∈ payloads, p.length < 2 ^ 24) → frames msgs ++ unread k = frames payloads →
      msgs = payloads ∧ unread k = [] := by
  intro msgs
  induction msgs with
  | nil =>
    intro payloads _ hp h
    cases payloads with
    | nil => exact ⟨rfl, by simpa [frames_nil] using h⟩
    | cons p ps =>
      rw [frames_nil, List.nil_append, frames_cons] at h
      exact (starved_no_frame k hs hv p _ (hp p (List.mem_cons_self _ _)) h).elim
  | cons m ms ih =>
    intro payloads hm hp h
    cases payloads with
    | nil =>
      have hl := congrArg List.length h
      simp [frames_cons, frames_nil, sendBuffer_length] at hl
    | cons p ps =>
      rw [frames_cons, frames_cons, List.append_assoc] at h
      obtain ⟨e1, e2⟩ := sendBuffer_append_inj m p _ _ (hm m (List.mem_cons_self _ _))
        (hp p (List.mem_cons_self _ _)) h
      obtain ⟨e3, e4⟩ := ih ps (fun x hx => hm x (List.mem_cons_of_mem _ hx))
        (fun x hx => hp x (List.mem_cons_of_mem _ hx)) e2
      exact ⟨by rw [e1, e3], e4⟩

/-! ## Round trip and chunk independence -/

theorem arrive_nil (w : World) (c : ConnId) : w.arrive c [] = w := by
  simp [World.arrive, World.setConn]

theorem unread_arrive (w : World) (c : ConnId) (bs : List Byte) :
    unread ((w.arrive c bs).conns c) = unread (w.conns c) ++ bs := by
  by_cases h : (w.conns c).iPacketLength = -1 <;> simp [World.arrive, World.setConn, unread, h]

theorem lengthOk_arrive (w : World) (c : ConnId) (bs : List Byte) :
    LengthOk ((w.arrive c bs).conns c) ↔ LengthOk (w.conns c) := by
  simp [World.arrive, World.setConn, LengthOk]

theorem weight_le (k : Connection) : weight k ≤ 2 * (unread k).length + 1 := by
  by_cases h : k.iPacketLength = -1 <;> simp [weight, unread, h]

theorem deliverAll_cons (env : Env) (fuel : Nat) (c : ConnId) (w : World) (ch : List Byte)
    (chs : List (List Byte)) :
    deliverAll env fuel c w (ch :: chs) =
      (socketRead env fuel c (w.arrive c ch)).bind fun v => deliverAll env fuel c v chs := by
  simp only [deliverAll, List.foldl_cons, deliver, Except.bind]
  cases socketRead env fuel c (w.arrive c ch) with
  | ok v => rfl
  | error e =>
    simp only []
    induction chs with
    | nil => rfl
    | cons x xs ih => simpa [List.foldl_cons, deliver, Except.bind] using ih

/-- Pumping after more bytes arrived continues an earlier pumping. -/
theorem Pumped.trans (c : ConnId) (w w1 w2 : World) (xs ys : List Byte)
    (ms1 ms2 : List (List Byte)) (h1 : Pumped c (w.arrive c xs) w1 ms1)
    (h2 : Pumped c (w1.arrive c ys) w2 ms2) : Pumped c (w.arrive c (xs ++ ys)) w2 (ms1 ++ ms2) :=
  { level := by rw [h2.level]; exact h1.level
    queue := h2.queue
    others := fun d hd => by
      rw [h2.others d hd]
      have := h1.others d hd
      simp [World.arrive, World.setConn, hd] at this ⊢
      exact this
    signals := by
      rw [h2.signals]
      have := h1.signals
      simp only [World.arrive, World.setConn] at this ⊢
      rw [this, List.map_append, List.append_assoc]
    stream := by
      have e1 := h1.stream
      have e2 := h2.stream
      rw [unread_arrive] at e1 e2 ⊢
      rw [frames_append, List.append_assoc, e2, ← List.append_assoc, e1, List.append_assoc]
    starved := h2.starved
    lengthOk := h2.lengthOk
    short := by
      intro m hm
      rcases List.mem_append.1 hm with hm | hm
      · exact h1.short m hm
      · exact h2.short m hm }

/-- Chunks delivered one at a time to a quiescent connection pump it exactly
as far as their concatenation allows. -/
theorem deliverAll_pumps (c : ConnId) (chunks : List (List Byte)) : ∀ (w : World),
    w.iReceiveLevel = 0 → w.qsReceivers = [] → LengthOk (w.conns c) → Starved (w.conns c) →
    ∀ fuel, 2 * ((unread (w.conns c)).length + chunks.flatten.length) + 4 ≤ fuel →
    ∃ w' msgs, deliverAll (Env.passive true) fuel c w chunks = .ok w' ∧
      Pumped c (w.arrive c chunks.flatten) w' msgs := by
  induction chunks with
  | nil =>
    intro w _ hq hv hs fuel _
    refine ⟨w, [], rfl, ?_⟩
    simp only [List.flatten_nil, arrive_nil]
    exact Pumped.refl c w hq hs hv
  | cons ch chs ih =>
    intro w hl hq hv hs fuel hfuel
    simp only [List.flatten_cons, List.length_append] at hfuel
    have hun := unread_arrive w c ch
    obtain ⟨w1, ms1, hr, hp1⟩ := socketRead_pumps c (w.arrive c ch) hl hq
      ((lengthOk_arrive w c ch).2 hv) fuel (by
        have := weight_le ((w.arrive c ch).conns c)
        rw [hun, List.length_append] at this
        omega)
    have hlen : (unread (w1.conns c)).length ≤ (unread (w.conns c)).length + ch.length := by
      have := congrArg List.length hp1.stream
      rw [hun] at this
      simp only [List.length_append] at this
      omega
    obtain ⟨w2, ms2, hd, hp2⟩ := ih w1 (by rw [hp1.level]; exact hl) hp1.queue hp1.lengthOk
      hp1.starved fuel (by omega)
    refine ⟨w2, ms1 ++ ms2, ?_, ?_⟩
    · rw [deliverAll_cons, hr]
      exact hd
    · rw [List.flatten_cons]
      exact Pumped.trans c w w1 w2 ch chs.flatten ms1 ms2 hp1 hp2

theorem frames_length_lt (payloads : List (List Byte)) (hp : ∀ p ∈ payloads, p.length ≤ 0xfffff) :
    ∀ p ∈ payloads, p.length < 2 ^ 24 := by
  intro p h
  have := hp p h
  norm_num at this ⊢
  omega

/-- What any delivery of the frames of `payloads` to a fresh connection emits. -/
theorem deliverAll_frames (c : ConnId) (w : World) (payloads : List (List Byte))
    (chunks : List (List Byte))
    (hfresh : (w.conns c).iPacketLength = -1)
    (hempty : (w.conns c).qtsSocket.readBuf = [])
    (hl : w.iReceiveLevel = 0) (hq : w.qsReceivers = [])
    (hp : ∀ p ∈ payloads, p.length ≤ 0xfffff)
    (hsplit : chunks.flatten = frames payloads)
    (fuel : Nat) (hfuel : 2 * (frames payloads).length + 4 ≤ fuel) :
    ∃ w', deliverAll (Env.passive true) fuel c w chunks = .ok w' ∧
      w'.emitted = w.emitted ++ payloads.map (Signal.message c) ∧
      (w'.conns c).iPacketLength = -1 ∧ (w'.conns c).qtsSocket.readBuf = [] := by
  have hun : unread (w.conns c) = [] := by simp [unread, hfresh, hempty]
  have hs : Starved (w.conns c) := Or.inl ⟨hfresh, by simp [Socket.bytesAvailable, hempty]⟩
  obtain ⟨w', msgs, hd, hpu⟩ := deliverAll_pumps c chunks w hl hq (Or.inl hfresh) hs fuel
    (by rw [hun, hsplit]; simpa using hfuel)
  have hst := hpu.stream
  rw [unread_arrive, hun, List.nil_append, hsplit] at hst
  obtain ⟨e1, e2⟩ := frames_unique _ hpu.starved hpu.lengthOk msgs payloads hpu.short
    (frames_length_lt payloads hp) hst
  refine ⟨w', hd, ?_, ?_⟩
  · rw [hpu.signals, e1]
    simp [World.arrive, World.setConn]
  · by_cases h : (w'.conns c).iPacketLength = -1
    · exact ⟨h, by simpa [unread, h] using e2⟩
    · simp [unread, h, lengthOctets] at e2

/-- C2: with the serialising workaround and passive slots, a fresh connection
that receives the frames of `K` payloads (each at most `0xFFFFF` bytes) cut
into any consecutive chunks, one `readyRead` per chunk, emits the same signals
as when it receives the whole stream as one chunk, namely the `K` payloads in
order; both runs return. -/
theorem chunk_independence (c : ConnId) (w : World) (payloads : List (List Byte))
    (chunks : List (List Byte)) (fuel : Nat)
    (hfresh : (w.conns c).iPacketLength = -1)
    (hempty : (w.conns c).qtsSocket.readBuf = [])
    (hl : w.iReceiveLevel = 0) (hq : w.qsReceivers = [])
    (hp : ∀ p ∈ payloads, p.length ≤ 0xfffff)
    (hsplit : chunks.flatten = frames payloads)
    (hfuel : 2 * (frames payloads).length + 4 ≤ fuel) :
    ∃ w1 w2, deliverAll (Env.passive true) fuel c w chunks = .ok w1 ∧
      deliverAll (Env.passive true) fuel c w [frames payloads] = .ok w2 ∧
      w1.emitted = w2.emitted ∧
      w1.emitted = w.emitted ++ payloads.map (Signal.message c) := by
  obtain ⟨w1, h1, e1, _⟩ := deliverAll_frames c w payloads chunks hfresh hempty hl hq hp hsplit
    fuel hfuel
  obtain ⟨w2, h2, e2, _⟩ := deliverAll_frames c w payloads [frames payloads] hfresh hempty hl hq
    hp (by simp) fuel hfuel
  exact ⟨w1, w2, h1, h2, by rw [e1, e2], e1⟩

/-- Witness of C2: three frames, cut in the middle of a header and of a body. -/
theorem chunk_independence_witness :
    ∃ w1 w2,
      deliverAll (Env.passive true) 30 0 (World.init sockReady)
        [[0], [0, 2, 7], [8, 0, 0, 0, 0, 0], [1, 9]] = .ok w1 ∧
      deliverAll (Env.passive true) 30 0 (World.init sockReady) [frames [[7, 8], [], [9]]]
        = .ok w2 ∧
      w1.emitted = w2.emitted ∧
      w1.emitted = (World.init sockReady).emitted ++
        [[7, 8], [], [9]].map (Signal.message 0) :=
  chunk_independence 0 (World.init sockReady) [[7, 8], [], [9]]
    [[0], [0, 2, 7], [8, 0, 0, 0, 0, 0], [1, 9]] 30 rfl rfl rfl rfl (by decide) (by decide)
    (by decide)

/-- Without the workaround nothing drains the pending set: when two frames
arrive as one chunk, the single `socketRead` emits the first and leaves the
second unread. -/
theorem deliverAll_plain_two_frames :
    ∃ w', deliverAll (Env.passive false) 2 0 (World.init sockReady) [frames [[7], [9]]] = .ok w' ∧
      w'.emitted = [.message 0 [7]] ∧ (w'.conns 0).qtsSocket.readBuf = sendBuffer [9] ∧
      w'.qsReceivers = [0] := by
  refine ⟨stepWorld 0 ((World.init sockReady).arrive 0 (frames [[7], [9]])), ?_, ?_⟩
  · rw [deliverAll_cons, socketRead_plain 0 0]
    rfl
  · have hk : coreStep (((World.init sockReady).arrive 0 (frames [[7], [9]])).conns 0) =
        some { conn := { Connection.new { sockReady with readBuf := sendBuffer [9] } with
                 qtLastPacket := 2 }
               msg := some [7]
               requeue := true } := by
      simp [coreStep, readHeader, readBody, World.arrive, World.setConn, World.init,
        Connection.new, sockReady, frames, sendBuffer, lengthOctets, Socket.bytesAvailable,
        Socket.read, headerLength, Fin.ofNat]
    rw [stepWorld_msg 0 _ _ [7] hk rfl]
    simp [World.emit, World.insertReceiver, World.setConn, World.arrive, World.init,
      Connection.new]

/-- One `coreStep` on a connection that awaits a header and holds exactly the
frame of `payload`. -/
theorem coreStep_frame (k : Connection) (payload : List Byte) (hlen : payload.length < 2 ^ 24)
    (hpl : k.iPacketLength = -1) (hbuf : k.qtsSocket.readBuf = sendBuffer payload) :
    ∃ b, coreStep k = some b ∧ b.msg = some payload ∧ b.conn.iPacketLength = -1 ∧
      b.conn.qtsSocket.readBuf = [] := by
  have hun : unread k = sendBuffer payload ++ [] := by simp [unread, hpl, hbuf]
  cases hc : coreStep k with
  | none => exact (starved_no_frame k (Or.inl (coreStep_none k hc)) (Or.inl hpl) payload []
      hlen hun).elim
  | some b =>
    cases hm : b.msg with
    | none =>
      obtain ⟨_, hst, hlo, hu⟩ := coreStep_quiet k (Or.inl hpl) b hc hm
      exact (starved_no_frame b.conn hst hlo payload [] hlen (hu.trans hun)).elim
    | some m =>
      obtain ⟨hu, hml, hpl', _, _⟩ := coreStep_msg k (Or.inl hpl) b m hc hm
      obtain ⟨e1, e2⟩ := sendBuffer_append_inj m payload _ _ hml hlen (hu.trans hun)
      exact ⟨b, rfl, by rw [hm, e1], hpl', by simpa [unread, hpl'] using e2⟩

/-- What a fresh connection does with the bytes of one frame, in either build. -/
theorem socketRead_frame (workaround : Bool) (fuel : Nat) (r : ConnId) (w : World)
    (payload : List Byte) (hlen : payload.length ≤ 0xfffff)
    (hpl : (w.conns r).iPacketLength = -1)
    (hbuf : (w.conns r).qtsSocket.readBuf = sendBuffer payload)
    (hl : workaround = true → w.iReceiveLevel = 0)
    (hq : workaround = true → w.qsReceivers = [])
    (hfuel : 2 * payload.length + 9 ≤ fuel) :
    ∃ w', socketRead (Env.passive workaround) fuel r w = .ok w' ∧
      w'.emitted = w.emitted ++ [.message r payload] ∧
      (w'.conns r).qtsSocket.readBuf = [] ∧ (w'.conns r).iPacketLength = -1 := by
  have hlt : payload.length < 2 ^ 24 := by
    norm_num at hlen ⊢
    omega
  cases workaround with
  | false =>
    obtain ⟨f, rfl⟩ : ∃ f, fuel = f + 2 := ⟨fuel - 2, by omega⟩
    obtain ⟨b, hc, hm, hp, hb⟩ := coreStep_frame _ payload hlt hpl hbuf
    refine ⟨_, socketRead_plain f r w, ?_⟩
    rw [stepWorld_msg r w b payload hc hm]
    cases b.requeue <;> simp [World.emit, World.setConn, World.insertReceiver, hp, hb]
  | true =>
    have hw : weight (w.conns r) = 2 * (3 + payload.length) := by
      simp [weight, hpl, hbuf, sendBuffer_length]
    obtain ⟨w', msgs, hr, hpu⟩ := socketRead_pumps r w (hl rfl) (hq rfl) (Or.inl hpl) fuel
      (by omega)
    have hst := hpu.stream
    have hun : unread (w.conns r) = frames [payload] := by
      simp [unread, hpl, hbuf, frames]
    rw [hun] at hst
    obtain ⟨e1, e2⟩ := frames_unique _ hpu.starved hpu.lengthOk msgs [payload] hpu.short
      (by simpa using hlt) hst
    refine ⟨w', hr, by rw [hpu.signals, e1]; rfl, ?_⟩
    by_cases h : (w'.conns r).iPacketLength = -1
    · exact ⟨by simpa [unread, h] using e2, h⟩
    · simp [unread, h, lengthOctets] at e2

/-- C1: for a payload of `0 .. 0xFFFFF` bytes, `sendMessage` on a connected and
encrypted transport returns after one write of `3 + length` bytes, and a fresh
connection (`iPacketLength = -1`, outermost call, nothing pending) that has
exactly the written bytes available and whose `message` slot does nothing
answers `socketRead` by emitting one signal, `message` with the payload,
consuming every byte and ending with `iPacketLength = -1`; this holds in both
builds. -/
theorem sendMessage_socketRead_round_trip (env : Env) (fuel : Nat) (s : ConnId) (ws : World)
    (payload : List Byte) (workaround : Bool) (r : ConnId) (fuelR : Nat)
    (hconn : (ws.conns s).qtsSocket.connected = true)
    (henc : (ws.conns s).qtsSocket.encrypted = true)
    (hlen : payload.length ≤ 0xfffff)
    (hquiet : ∀ v, env.onWrite v s = none)
    (hqs : env.workaround = true → ws.iReceiveLevel = 0 → ws.qsReceivers = [])
    (hfuel : 2 ≤ fuel)
    (hfuelR : 2 * payload.length + 9 ≤ fuelR) :
    ∃ ws' data, sendMessage env fuel s payload ws = .ok ws' ∧
      (ws'.conns s).qtsSocket.writes = (ws.conns s).qtsSocket.writes ++ [data] ∧
      data.length = 3 + payload.length ∧
      ∀ wr : World, (wr.conns r).iPacketLength = -1 → (wr.conns r).qtsSocket.readBuf = data →
        (workaround = true → wr.iReceiveLevel = 0) →
        (workaround = true → wr.qsReceivers = []) →
        ∃ wr', socketRead (Env.passive workaround) fuelR r wr = .ok wr' ∧
          wr'.emitted = wr.emitted ++ [.message r payload] ∧
          (wr'.conns r).qtsSocket.readBuf = [] ∧ (wr'.conns r).iPacketLength = -1 := by
  obtain ⟨f, rfl⟩ : ∃ f, fuel = f + 2 := ⟨fuel - 2, by omega⟩
  refine ⟨_, sendBuffer payload, sendMessage_ready env f s payload ws hconn henc hlen hquiet hqs,
    by simp [World.setConn, Socket.write], sendBuffer_length payload, ?_⟩
  intro wr hpl hbuf hl hq
  exact socketRead_frame workaround fuelR r wr payload hlen hpl hbuf hl hq hfuelR

/-- Witness of C1: the payload `07 08` sent by connection 0 and read back, with
the workaround, by a fresh connection 1 that holds exactly the written bytes. -/
theorem sendMessage_socketRead_round_trip_witness :
    ∃ ws' data wr', sendMessage (Env.passive true) 2 0 [7, 8] (World.init sockReady) = .ok ws' ∧
      (ws'.conns 0).qtsSocket.writes = ((World.init sockReady).conns 0).qtsSocket.writes ++ [data] ∧
      data.length = 3 + [(7 : Byte), 8].length ∧
      socketRead (Env.passive true) 13 1 ((World.init sockReady).arrive 1 data) = .ok wr' ∧
      wr'.emitted = [.message 1 [7, 8]] ∧
      (wr'.conns 1).qtsSocket.readBuf = [] ∧ (wr'.conns 1).iPacketLength = -1 := by
  obtain ⟨ws', data, h1, h2, h3, h4⟩ :=
    sendMessage_socketRead_round_trip (Env.passive true) 2 0 (World.init sockReady) [7, 8] true 1
      13 rfl rfl (by decide) (fun _ => rfl) (fun _ _ => rfl) (le_refl 2) (by decide)
  obtain ⟨wr', h5, h6, h7, h8⟩ := h4 ((World.init sockReady).arrive 1 data) rfl
    (by simp [World.arrive, World.setConn, World.init, Connection.new, sockReady])
    (fun _ => rfl) (fun _ => rfl)
  exact ⟨ws', data, wr', h1, h2, h3, h5, by simpa [World.arrive, World.setConn, World.init] using h6,
    h7, h8⟩

/-! ## Insufficient data -/

/-- C10: a `socketRead` that is not re-entrant, with nothing pending at the
outermost level, returns in each of these cases. If the connection awaits a
header with fewer than 3 bytes available, or awaits a body of `iPacketLength`
bytes with fewer available, the connection, hence its unread bytes and its
`iPacketLength`, is unchanged and no signal is emitted. If it awaits a header,
has the header `b0 b1 b2` and fewer body bytes than the header announces, the
three header bytes are consumed, every body byte stays in the transport,
`iPacketLength` is the announced length, and no signal is emitted. -/
theorem socketRead_insufficient_data (env : Env) (fuel : Nat) (c : ConnId) (w : World)
    (hnr : env.workaround = true → w.iReceiveLevel ≠ 2)
    (hq : env.workaround = true → w.iReceiveLevel = 0 → w.qsReceivers = [])
    (hfuel : 2 ≤ fuel) :
    (Starved (w.conns c) →
      ∃ w', socketRead env fuel c w = .ok w' ∧ w'.conns c = w.conns c ∧
        w'.emitted = w.emitted) ∧
    (∀ (b0 b1 b2 : Byte) (rest : List Byte), (w.conns c).iPacketLength = -1 →
      (w.conns c).qtsSocket.readBuf = b0 :: b1 :: b2 :: rest →
      (rest.length : Int) < headerLength [b0, b1, b2] →
      ∃ w', socketRead env fuel c w = .ok w' ∧
        w'.conns c = { w.conns c with
          qtsSocket := { (w.conns c).qtsSocket with readBuf := rest }
          iPacketLength := headerLength [b0, b1, b2] } ∧
        w'.emitted = w.emitted) := by
  obtain ⟨f, rfl⟩ : ∃ f, fuel = f + 2 := ⟨fuel - 2, by omega⟩
  constructor
  · intro hs
    have hs' : (readHeader (w.conns c) (w.conns c).qtsSocket.bytesAvailable = none ∧
        w.conns c = w.conns c) ∨
        ∃ av, readHeader (w.conns c) (w.conns c).qtsSocket.bytesAvailable
            = some (w.conns c, av) ∧
          readBody (w.conns c) av = { conn := w.conns c, msg := none, requeue := false } := by
      rcases readHeader_starved _ hs with ⟨h1, _⟩ | ⟨h1, h2⟩
      · exact Or.inl ⟨h1, rfl⟩
      · exact Or.inr ⟨_, h1, h2⟩
    obtain ⟨w', h1, h2, h3, _⟩ := socketRead_silent env f c w hnr hq (w.conns c) hs'
    exact ⟨w', h1, by rw [h2]; simp, h3⟩
  · intro b0 b1 b2 rest hpl hbuf hshort
    obtain ⟨w', h1, h2, h3, _⟩ := socketRead_silent env f c w hnr hq _
      (Or.inr ⟨_, readHeader_cons _ b0 b1 b2 rest hpl hbuf,
        readBody_short _ _ (by simpa using hshort)⟩)
    exact ⟨w', h1, by rw [h2]; simp, h3⟩

/-- Witness of C10: two bytes while awaiting a header, and the header `00 00 05`
followed by two of its five body bytes. -/
theorem socketRead_insufficient_data_witness :
    (∃ w', socketRead (Env.passive true) 2 0 ((World.init sockReady).arrive 0 [0, 0]) = .ok w' ∧
      w'.conns 0 = ((World.init sockReady).arrive 0 [0, 0]).conns 0 ∧
      w'.emitted = ((World.init sockReady).arrive 0 [0, 0]).emitted) ∧
    (∃ w', socketRead (Env.passive true) 2 0
        ((World.init sockReady).arrive 0 [0, 0, 5, 1, 2]) = .ok w' ∧
      w'.conns 0 = { ((World.init sockReady).arrive 0 [0, 0, 5, 1, 2]).conns 0 with
        qtsSocket := { (((World.init sockReady).arrive 0 [0, 0, 5, 1, 2]).conns 0).qtsSocket with
          readBuf := [1, 2] }
        iPacketLength := headerLength [0, 0, 5] } ∧
      w'.emitted = ((World.init sockReady).arrive 0 [0, 0, 5, 1, 2]).emitted) :=
  ⟨(socketRead_insufficient_data (Env.passive true) 2 0 ((World.init sockReady).arrive 0 [0, 0])
      (fun _ => by decide) (fun _ _ => rfl) (le_refl 2)).1 (Or.inl ⟨rfl, by decide⟩),
   (socketRead_insufficient_data (Env.passive true) 2 0
      ((World.init sockReady).arrive 0 [0, 0, 5, 1, 2])
      (fun _ => by decide) (fun _ _ => rfl) (le_refl 2)).2 0 0 5 [1, 2] rfl rfl (by decide)⟩

/-! ## Closing -/

theorem socketError_closed (c : ConnId) (w : World)
    (h : (w.conns c).bDisconnectedEmitted = true) : socketError c w = w := by
  simp [socketError, h]

theorem socketDisconnected_closed (c : ConnId) (w : World)
    (h : (w.conns c).bDisconnectedEmitted = true) : socketDisconnected c w = w := by
  simp [socketDisconnected, h]

theorem closeCall_open (c : ConnId) (w : World) (e : CloseCall)
    (h : (w.conns c).bDisconnectedEmitted = false) :
    (closeCall c w e).emitted = w.emitted ++ [.connectionClosed c e.reason] ∧
      ((closeCall c w e).conns c).bDisconnectedEmitted = true := by
  cases e <;>
    simp [closeCall, socketError, socketDisconnected, h, World.setConn, World.emit,
      CloseCall.reason]

theorem closeCall_closed (c : ConnId) (w : World) (e : CloseCall)
    (h : (w.conns c).bDisconnectedEmitted = true) :
    (closeCall c w e).emitted = w.emitted ∧
      ((closeCall c w e).conns c).bDisconnectedEmitted = true := by
  cases e <;> simp [closeCall, socketError, socketDisconnected, h, World.setConn]

theorem closeCalls_closed (c : ConnId) (es : List CloseCall) : ∀ (w : World),
    (w.conns c).bDisconnectedEmitted = true →
    (es.foldl (closeCall c) w).emitted = w.emitted ∧
      ((es.foldl (closeCall c) w).conns c).bDisconnectedEmitted = true := by
  induction es with
  | nil => intro w h; exact ⟨rfl, h⟩
  | cons e es ih =>
    intro w h
    obtain ⟨h1, h2⟩ := closeCall_closed c w e h
    obtain ⟨h3, h4⟩ := ih (closeCall c w e) h2
    exact ⟨by rw [List.foldl_cons, h3, h1], h4⟩

/-- C7: on a connection that has not yet announced its closing, any non-empty
sequence `e :: es` of error and disconnect notifications logs exactly one
signal, `connectionClosed` with the reason of the first call `e` (the error
string of the transport for an error, the empty string for a disconnect); it
is logged by the first call, and in every state reached after it, whatever
number `n` of the later calls has run, `socketError` and `socketDisconnected`
return the world unchanged. -/
theorem closure_idempotent (c : ConnId) (w : World) (e : CloseCall) (es : List CloseCall)
    (hfresh : (w.conns c).bDisconnectedEmitted = false) :
    ((e :: es).foldl (closeCall c) w).emitted = w.emitted ++ [.connectionClosed c e.reason] ∧
    (closeCall c w e).emitted = w.emitted ++ [.connectionClosed c e.reason] ∧
    ∀ n : Nat,
      socketError c ((es.take n).foldl (closeCall c) (closeCall c w e))
        = (es.take n).foldl (closeCall c) (closeCall c w e) ∧
      socketDisconnected c ((es.take n).foldl (closeCall c) (closeCall c w e))
        = (es.take n).foldl (closeCall c) (closeCall c w e) := by
  obtain ⟨h1, h2⟩ := closeCall_open c w e hfresh
  refine ⟨?_, h1, ?_⟩
  · rw [List.foldl_cons, (closeCalls_closed c es _ h2).1, h1]
  · intro n
    have h3 := (closeCalls_closed c (es.take n) _ h2).2
    exact ⟨socketError_closed c _ h3, socketDisconnected_closed c _ h3⟩

/-- Witness of C7: an error, a disconnect and another error on a new connection. -/
theorem closure_idempotent_witness :
    ([CloseCall.error "timeout", .disconnected, .error "reset"].foldl (closeCall 0)
        (World.init sockReady)).emitted
      = (World.init sockReady).emitted ++
        [.connectionClosed 0 (CloseCall.error "timeout").reason] ∧
    (closeCall 0 (World.init sockReady) (.error "timeout")).emitted
      = (World.init sockReady).emitted ++
        [.connectionClosed 0 (CloseCall.error "timeout").reason] ∧
    ∀ n : Nat,
      socketError 0 (([CloseCall.disconnected, .error "reset"].take n).foldl (closeCall 0)
          (closeCall 0 (World.init sockReady) (.error "timeout")))
        = ([CloseCall.disconnected, .error "reset"].take n).foldl (closeCall 0)
          (closeCall 0 (World.init sockReady) (.error "timeout")) ∧
      socketDisconnected 0 (([CloseCall.disconnected, .error "reset"].take n).foldl (closeCall 0)
          (closeCall 0 (World.init sockReady) (.error "timeout")))
        = ([CloseCall.disconnected, .error "reset"].take n).foldl (closeCall 0)
          (closeCall 0 (World.init sockReady) (.error "timeout")) :=
  closure_idempotent 0 (World.init sockReady) (.error "timeout") [.disconnected, .error "reset"]
    rfl

/-! ## Ping statistics -/

theorem updatePings_snoc (p : PingStats) (usecs : List Nat) (u : Nat) :
    updatePings p (usecs ++ [u]) = updatePing (updatePings p usecs) u := by
  simp [updatePings, List.foldl_append]

theorem sumSqDev_expand (xs : List ℚ) (m : ℚ) :
    sumSqDev xs m = (xs.map fun x => x ^ 2).sum - 2 * m * xs.sum + (xs.length : ℚ) * m ^ 2 := by
  induction xs with
  | nil => simp [sumSqDev]
  | cons x xs ih =>
    simp only [sumSqDev, List.map_cons, List.sum_cons, List.length_cons] at ih ⊢
    rw [ih]
    push_cast
    ring

/-- The running sums behind `updatePing`: after `n < 2^32` samples the counter
is `n`, `n * avg` is the sum of the samples and `var` is the sum of their
squares minus `n * avg^2`. -/
theorem updatePings_sums (usecs : List Nat) (hlen : usecs.length < 2 ^ 32) :
    (updatePings PingStats.zero usecs).samples = usecs.length ∧
    (usecs.length : ℚ) * (updatePings PingStats.zero usecs).avg = (usecs.map msec).sum ∧
    (updatePings PingStats.zero usecs).var =
      ((usecs.map msec).map fun x => x ^ 2).sum
        - (usecs.length : ℚ) * (updatePings PingStats.zero usecs).avg ^ 2 := by
  induction usecs using List.reverseRecOn with
  | nil => simp [updatePings, PingStats.zero]
  | append_singleton xs u ih =>
    rw [List.length_append, List.length_singleton] at hlen
    obtain ⟨h1, h2, h3⟩ := ih (by omega)
    rw [updatePings_snoc]
    generalize updatePings PingStats.zero xs = p at h1 h2 h3
    have hs : (p.samples + 1) % 2 ^ 32 = xs.length + 1 := by
      rw [h1]; exact Nat.mod_eq_of_lt hlen
    have hn : ((xs.length : ℚ) + 1) ≠ 0 := by positivity
    simp only [updatePing, hs, List.length_append, List.length_singleton, List.map_append,
      List.map_cons, List.map_nil, List.sum_append, List.sum_cons, List.sum_nil, add_zero,
      mul_one, msec] at h2 h3 ⊢
    push_cast
    refine ⟨trivial, ?_, ?_⟩
    · rw [← h2]
      field_simp
      ring
    · rw [h3]
      field_simp
      ring

theorem sum_msec (usecs : List Nat) :
    (usecs.map msec).sum = (usecs.map fun u : Nat => (u : ℚ)).sum / 1000 := by
  induction usecs with
  | nil => simp
  | cons u us ih =>
    simp only [List.map_cons, List.sum_cons, ih, msec]
    ring

theorem updatePings_example :
    (updatePings PingStats.zero [1000, 2000, 3000]).avg = 2 ∧
    (updatePings PingStats.zero [1000, 2000, 3000]).var /
      ((updatePings PingStats.zero [1000, 2000, 3000]).samples : ℚ) = 2 / 3 := by
  norm_num [updatePings, updatePing, PingStats.zero]

/-- C8: reading the arithmetic of `updatePing` over the rationals, any
non-empty sequence of fewer than `2^32` microsecond samples fed from
`avg = var = 0`, `samples = 0` ends with `samples` the number of samples, `avg`
the arithmetic mean of the samples divided by 1000, and `var` the sum over the
samples of `(sample / 1000 - avg)^2`; the samples `1000, 2000, 3000` give
`avg = 2` and `var / samples = 2 / 3`. -/
theorem updatePings_statistics (usecs : List Nat) (hne : usecs ≠ [])
    (hlen : usecs.length < 2 ^ 32) :
    (updatePings PingStats.zero usecs).samples = usecs.length ∧
    (updatePings PingStats.zero usecs).avg = mean (usecs.map fun u : Nat => (u : ℚ)) / 1000 ∧
    (updatePings PingStats.zero usecs).var =
      sumSqDev (usecs.map msec) (updatePings PingStats.zero usecs).avg ∧
    (updatePings PingStats.zero [1000, 2000, 3000]).avg = 2 ∧
    (updatePings PingStats.zero [1000, 2000, 3000]).var /
      ((updatePings PingStats.zero [1000, 2000, 3000]).samples : ℚ) = 2 / 3 := by
  obtain ⟨h1, h2, h3⟩ := updatePings_sums usecs hlen
  have hn : (usecs.length : ℚ) ≠ 0 := by
    have : usecs.length ≠ 0 := fun h => hne (List.length_eq_zero.1 h)
    exact_mod_cast this
  refine ⟨h1, ?_, ?_, updatePings_example⟩
  · have h4 := sum_msec usecs
    rw [← h2] at h4
    rw [mean, List.length_map]
    field_simp
    field_simp at h4
    linarith
  · rw [h3, sumSqDev_expand, List.length_map, ← h2]
    ring

/-- Witness of C8: the samples 1000, 2000 and 3000 microseconds. -/
theorem updatePings_statistics_witness :
    (updatePings PingStats.zero [1000, 2000, 3000]).samples = [1000, 2000, 3000].length ∧
    (updatePings PingStats.zero [1000, 2000, 3000]).avg
      = mean ([1000, 2000, 3000].map fun u : Nat => (u : ℚ)) / 1000 ∧
    (updatePings PingStats.zero [1000, 2000, 3000]).var =
      sumSqDev ([1000, 2000, 3000].map msec) (updatePings PingStats.zero [1000, 2000, 3000]).avg ∧
    (updatePings PingStats.zero [1000, 2000, 3000]).avg = 2 ∧
    (updatePings PingStats.zero [1000, 2000, 3000]).var /
      ((updatePings PingStats.zero [1000, 2000, 3000]).samples : ℚ) = 2 / 3 :=
  updatePings_statistics [1000, 2000, 3000] (by decide) (by decide)

theorem updatePing_steady (p : PingStats) (h : p.avg = 1) :
    updatePing p 1000 = { avg := 1, var := p.var, samples := (p.samples + 1) % 2 ^ 32 } := by
  simp [updatePing, h]

theorem updatePings_steady (n : Nat) : ∀ (p : PingStats), p.avg = 1 →
    updatePings p (List.replicate n 1000) =
      { avg := 1, var := p.var, samples := (p.samples + n) % 2 ^ 32 } ∨
    (n = 0 ∧ updatePings p (List.replicate n 1000) = p) := by
  induction n with
  | zero => intro p _; exact Or.inr ⟨rfl, rfl⟩
  | succ n ih =>
    intro p h
    left
    rw [List.replicate_succ]
    show updatePings (updatePing p 1000) (List.replicate n 1000) = _
    rw [updatePing_steady p h]
    rcases ih { avg := 1, var := p.var, samples := (p.samples + 1) % 2 ^ 32 } rfl with h1 | ⟨h0, h1⟩
    · rw [h1]
      simp only [PingStats.mk.injEq, true_and]
      omega
    · rw [h1, h0]

/-- After `n + 1` samples of 1000 microseconds the mean is 1 and the counter
is `n + 1` reduced modulo `2^32`. -/
theorem updatePings_constant (n : Nat) :
    updatePings PingStats.zero (List.replicate (n + 1) 1000) =
      { avg := 1, var := 0, samples := (n + 1) % 2 ^ 32 } := by
  rw [List.replicate_succ]
  show updatePings (updatePing PingStats.zero 1000) (List.replicate n 1000) = _
  have h0 : updatePing PingStats.zero 1000 = { avg := 1, var := 0, samples := 1 } := by
    norm_num [updatePing, PingStats.zero]
  rw [h0]
  rcases updatePings_steady n { avg := 1, var := 0, samples := 1 } rfl with h1 | ⟨hz, h1⟩
  · rw [h1]
    simp only [PingStats.mk.injEq, true_and]
    omega
  · rw [h1, hz]
    rfl

/-- C9 fails as stated: after `2^32` calls of `updatePing` with the sample 1000
the 32-bit counter `samples` has wrapped to 0 while `avg` is 1. -/
theorem tracker_invariant_counterexample :
    (updatePings PingStats.zero (List.replicate (2 ^ 32) 1000)).samples = 0 ∧
    ¬ ((updatePings PingStats.zero (List.replicate (2 ^ 32) 1000)).avg = 0 ∧
       (updatePings PingStats.zero (List.replicate (2 ^ 32) 1000)).var = 0) := by
  have h := updatePings_constant (2 ^ 32 - 1)
  have e : 2 ^ 32 - 1 + 1 = 2 ^ 32 := by norm_num
  rw [e] at h
  rw [h]
  exact ⟨by norm_num, fun hc => one_ne_zero hc.1⟩

/-- C9, amended: in every tracker state reached from the constructor's state
(`samples = 0`, `avg = 0`, `var = 0`) by fewer than `2^32` calls of
`updatePing`, with any sample values, `samples` is the number of calls, and
`samples = 0` implies `avg = 0` and `var = 0`. -/
theorem tracker_invariant_before_wrap (usecs : List Nat) (hlen : usecs.length < 2 ^ 32) :
    (updatePings PingStats.zero usecs).samples = usecs.length ∧
    ((updatePings PingStats.zero usecs).samples = 0 →
      (updatePings PingStats.zero usecs).avg = 0 ∧ (updatePings PingStats.zero usecs).var = 0) := by
  obtain ⟨h1, _, _⟩ := updatePings_sums usecs hlen
  refine ⟨h1, fun h0 => ?_⟩
  rw [h1] at h0
  rw [List.length_eq_zero.1 h0]
  exact ⟨rfl, rfl⟩

/-- Witness of the amended C9: one sample. -/
theorem tracker_invariant_before_wrap_witness :
    (updatePings PingStats.zero [1000]).samples = [1000].length ∧
    ((updatePings PingStats.zero [1000]).samples = 0 →
      (updatePings PingStats.zero [1000]).avg = 0 ∧ (updatePings PingStats.zero [1000]).var = 0) :=
  tracker_invariant_before_wrap [1000] (by decide)

/-! ## Re-entrant entry -/

/-- With the workaround, a `socketRead` entered at level 2 only queues its
connection. -/
theorem socketRead_level2 (env : Env) (hwa : env.workaround = true) (fuel : Nat) (c : ConnId)
    (w : World) (hl : w.iReceiveLevel = 2) :
    socketRead env (fuel + 1) c w = .ok (w.insertReceiver c) := by
  simp only [socketRead, hwa, hl, if_true, and_self]
  congr 1
  simp only [World.insertReceiver]
  rw [← hl]

/-- C12: in the build with the workaround, a `socketRead` entered while
`iReceiveLevel == 2` returns at once with the connection in `qsReceivers`;
every connection (so its unread bytes and its `iPacketLength`), the signal log
and the level are as at entry. One unit of fuel suffices, so the call makes no
nested call. -/
theorem socketRead_reentrant_deferred (env : Env) (fuel : Nat) (c : ConnId) (w : World)
    (hwa : env.workaround = true) (hl : w.iReceiveLevel = 2) (hfuel : 1 ≤ fuel) :
    ∃ w', socketRead env fuel c w = .ok w' ∧
      socketRead env 1 c w = .ok w' ∧
      c ∈ w'.qsReceivers ∧
      (∀ d, d ∈ w'.qsReceivers ↔ d ∈ w.qsReceivers ∨ d = c) ∧
      w'.conns = w.conns ∧ w'.emitted = w.emitted ∧ w'.iReceiveLevel = 2 := by
  obtain ⟨f, rfl⟩ : ∃ f, fuel = f + 1 := ⟨fuel - 1, by omega⟩
  refine ⟨w.insertReceiver c, socketRead_level2 env hwa f c w hl,
    socketRead_level2 env hwa 0 c w hl, ?_, ?_, rfl, rfl, hl⟩
  · by_cases h : c ∈ w.qsReceivers <;> simp [World.insertReceiver, h]
  · intro d
    by_cases h : c ∈ w.qsReceivers
    · simp only [World.insertReceiver, h, if_true]
      constructor
      · exact Or.inl
      · rintro (h1 | rfl)
        · exact h1
        · exact h
    · simp [World.insertReceiver, h]

/-- Witness of C12: a read entered while another one is in progress. -/
theorem socketRead_reentrant_deferred_witness :
    ∃ w', socketRead (Env.passive true) 1 0
        { (World.init sockReady).arrive 0 [0, 0, 1, 7] with iReceiveLevel := 2 } = .ok w' ∧
      socketRead (Env.passive true) 1 0
        { (World.init sockReady).arrive 0 [0, 0, 1, 7] with iReceiveLevel := 2 } = .ok w' ∧
      0 ∈ w'.qsReceivers ∧
      (∀ d, d ∈ w'.qsReceivers ↔
        d ∈ ({ (World.init sockReady).arrive 0 [0, 0, 1, 7] with
          iReceiveLevel := 2 } : World).qsReceivers ∨ d = 0) ∧
      w'.conns = ({ (World.init sockReady).arrive 0 [0, 0, 1, 7] with
          iReceiveLevel := 2 } : World).conns ∧
      w'.emitted = ({ (World.init sockReady).arrive 0 [0, 0, 1, 7] with
          iReceiveLevel := 2 } : World).emitted ∧
      w'.iReceiveLevel = 2 :=
  socketRead_reentrant_deferred (Env.passive true) 1 0
    { (World.init sockReady).arrive 0 [0, 0, 1, 7] with iReceiveLevel := 2 } rfl rfl (le_refl 1)

/-! ## The re-queue test -/

/-- When a `coreStep` emits a message, line 114 queues the connection exactly
when the body just read and the bytes left after it together count at least 2:
the test of line 113 sees `iAvailable + 1`, not the bytes left. -/
theorem coreStep_requeue (k : Connection) (hv : LengthOk k) (b : BodyStep) (m : List Byte)
    (h : coreStep k = some b) (hm : b.msg = some m) :
    b.requeue = true ↔ 2 ≤ m.length + b.conn.qtsSocket.readBuf.length := by
  unfold coreStep at h
  by_cases hpl : k.iPacketLength = -1
  · by_cases hav : k.qtsSocket.bytesAvailable < 3
    · simp [readHeader, hpl, hav] at h
    · obtain ⟨b0, b1, b2, rest, hbuf⟩ := exists_three k.qtsSocket.readBuf
        (by simp only [Socket.bytesAvailable] at hav; omega)
      rw [readHeader_cons k b0 b1 b2 rest hpl hbuf] at h
      simp only [Option.map_some', Option.some.injEq] at h
      have hnn := headerLength_nonneg [b0, b1, b2]
      by_cases hlen : headerLength [b0, b1, b2] ≤ (rest.length : Int)
      · rw [readBody_ready _ _ (by simp only; omega) (by simpa using hlen)] at h
        subst h
        simp only [Option.some.injEq] at hm
        subst hm
        simp only [decide_eq_true_eq, List.length_take, List.length_drop]
        omega
      · rw [readBody_short _ _ (by simp only; omega)] at h
        subst h
        simp at hm
  · have hh : readHeader k k.qtsSocket.bytesAvailable = some (k, k.qtsSocket.bytesAvailable) := by
      simp [readHeader, hpl]
    rw [hh] at h
    simp only [Option.map_some', Option.some.injEq] at h
    by_cases hlen : k.iPacketLength ≤ k.qtsSocket.bytesAvailable
    · rw [readBody_ready _ _ hpl hlen] at h
      subst h
      simp only [Option.some.injEq] at hm
      subst hm
      rcases hv with hv | ⟨hv0, hv1⟩
      · exact absurd hv hpl
      simp only [Socket.bytesAvailable] at hlen
      simp only [decide_eq_true_eq, List.length_take, List.length_drop, Socket.bytesAvailable]
      omega
    · rw [readBody_short _ _ (by omega)] at h
      subst h
      simp at hm

/-- C14, evaluated where it fails: a connection awaiting a header holds one
frame with a two-byte body and nothing else. `socketRead` emits the body and
leaves no unread byte, yet line 114 inserts the connection into `qsReceivers`
(shown on the body step and on the whole call in the build without the
workaround). -/
theorem requeue_with_nothing_left :
    coreStep (Connection.new { sockReady with readBuf := [0, 0, 2, 7, 8] }) =
      some { conn := { Connection.new sockReady with qtLastPacket := 2 }
             msg := some [7, 8]
             requeue := true } ∧
    ∃ w', socketRead (Env.passive false) 2 0 ((World.init sockReady).arrive 0 [0, 0, 2, 7, 8])
        = .ok w' ∧
      (w'.conns 0).qtsSocket.readBuf = [] ∧ w'.emitted = [.message 0 [7, 8]] ∧
      w'.qsReceivers = [0] := by
  have hk : coreStep (Connection.new { sockReady with readBuf := [0, 0, 2, 7, 8] }) =
      some { conn := { Connection.new sockReady with qtLastPacket := 2 }
             msg := some [7, 8]
             requeue := true } := by
    simp [coreStep, readHeader, readBody, Connection.new, sockReady, Socket.bytesAvailable,
      Socket.read, headerLength]
  refine ⟨hk, stepWorld 0 ((World.init sockReady).arrive 0 [0, 0, 2, 7, 8]),
    socketRead_plain 0 0 _, ?_⟩
  have hk' : coreStep (((World.init sockReady).arrive 0 [0, 0, 2, 7, 8]).conns 0) =
      some { conn := { Connection.new sockReady with qtLastPacket := 2 }
             msg := some [7, 8]
             requeue := true } := by
    rw [← hk]
    simp [World.arrive, World.setConn, World.init, Connection.new, sockReady]
  rw [stepWorld_msg 0 _ _ [7, 8] hk' rfl]
  simp [World.emit, World.insertReceiver, World.setConn, World.arrive, World.init,
    Connection.new, sockReady]

/-! ## Lengths above the sender's ceiling -/

/-- One `coreStep` on a connection whose unread stream is exactly the frame of
`payload`, whether or not its header has been read already. -/
theorem coreStep_unread_frame (k : Connection) (payload : List Byte)
    (hlen : payload.length < 2 ^ 24) (hv : LengthOk k) (hun : unread k = sendBuffer payload) :
    ∃ b, coreStep k = some b ∧ b.msg = some payload ∧ b.conn.iPacketLength = -1 ∧
      b.conn.qtsSocket.readBuf = [] := by
  have hun' : unread k = sendBuffer payload ++ [] := by simpa using hun
  cases hc : coreStep k with
  | none =>
    exact (starved_no_frame k (Or.inl (coreStep_none k hc)) hv payload [] hlen hun').elim
  | some b =>
    cases hm : b.msg with
    | none =>
      obtain ⟨_, hst, hlo, hu⟩ := coreStep_quiet k hv b hc hm
      exact (starved_no_frame b.conn hst hlo payload [] hlen (hu.trans hun')).elim
    | some m =>
      obtain ⟨hu, hml, hpl', _, _⟩ := coreStep_msg k hv b m hc hm
      obtain ⟨e1, e2⟩ := sendBuffer_append_inj m payload _ _ hml hlen (hu.trans hun')
      exact ⟨b, rfl, by rw [hm, e1], hpl', by simpa [unread, hpl'] using e2⟩

/-- What a connection does, in either build, when its unread stream is exactly
the frame of `payload`, for any payload that fits the 24-bit header. -/
theorem socketRead_unread_frame (workaround : Bool) (fuel : Nat) (r : ConnId) (w : World)
    (payload : List Byte) (hlen : payload.length < 2 ^ 24)
    (hv : LengthOk (w.conns r))
    (hun : unread (w.conns r) = sendBuffer payload)
    (hl : workaround = true → w.iReceiveLevel = 0)
    (hq : workaround = true → w.qsReceivers = [])
    (hfuel : 2 * payload.length + 10 ≤ fuel) :
    ∃ w', socketRead (Env.passive workaround) fuel r w = .ok w' ∧
      w'.emitted = w.emitted ++ [.message r payload] ∧
      (w'.conns r).qtsSocket.readBuf = [] ∧ (w'.conns r).iPacketLength = -1 ∧
      (workaround = true → w'.qsReceivers = []) ∧ w'.iReceiveLevel = w.iReceiveLevel := by
  cases workaround with
  | false =>
    obtain ⟨f, rfl⟩ : ∃ f, fuel = f + 2 := ⟨fuel - 2, by omega⟩
    obtain ⟨b, hc, hm, hp, hb⟩ := coreStep_unread_frame _ payload hlen hv hun
    refine ⟨_, socketRead_plain f r w, ?_⟩
    rw [stepWorld_msg r w b payload hc hm]
    cases b.requeue <;> simp [World.emit, World.setConn, World.insertReceiver, hp, hb]
  | true =>
    have hw : weight (w.conns r) ≤ 2 * (3 + payload.length) + 1 := by
      have := weight_le (w.conns r)
      rw [hun, sendBuffer_length] at this
      exact this
    obtain ⟨w', msgs, hr, hpu⟩ := socketRead_pumps r w (hl rfl) (hq rfl) hv fuel (by omega)
    have hst := hpu.stream
    have hun2 : unread (w.conns r) = frames [payload] := by
      simp [hun, frames]
    rw [hun2] at hst
    obtain ⟨e1, e2⟩ := frames_unique _ hpu.starved hpu.lengthOk msgs [payload] hpu.short
      (by simpa using hlen) hst
    refine ⟨w', hr, by rw [hpu.signals, e1]; rfl, ?_⟩
    by_cases h : (w'.conns r).iPacketLength = -1
    · exact ⟨by simpa [unread, h] using e2, h, fun _ => hpu.queue, hpu.level⟩
    · simp [unread, h, lengthOctets] at e2

/-- What a fresh connection does, in either build, with the three length
octets of a non-empty body and nothing more: it keeps the announced length. -/
theorem socketRead_header_only (workaround : Bool) (fuel : Nat) (c : ConnId) (w : World)
    (n : Nat) (hn : 0 < n) (hn2 : n < 2 ^ 24)
    (hpl : (w.conns c).iPacketLength = -1)
    (hbuf : (w.conns c).qtsSocket.readBuf = lengthOctets n)
    (hl : workaround = true → w.iReceiveLevel = 0)
    (hq : workaround = true → w.qsReceivers = []) :
    socketRead (Env.passive workaround) (fuel + 2) c w =
      .ok (w.setConn c { w.conns c with
        qtsSocket := { (w.conns c).qtsSocket with readBuf := [] }
        iPacketLength := (n : Int) }) := by
  have hH : headerLength (lengthOctets n) = (n : Int) := by
    simpa using headerLength_lengthOctets n hn2 []
  have hc : coreStep (w.conns c) =
      some { conn := { w.conns c with
               qtsSocket := { (w.conns c).qtsSocket with readBuf := [] }
               iPacketLength := (n : Int) }
             msg := none
             requeue := false } := by
    unfold coreStep
    rw [readHeader_cons (w.conns c) _ _ _ [] hpl hbuf]
    simp only [Option.map_some']
    rw [readBody_short _ _ (by
      simp only [List.length_nil]
      have : headerLength [Fin.ofNat ((n >>> 16) &&& 0xff), Fin.ofNat ((n >>> 8) &&& 0xff),
          Fin.ofNat (n &&& 0xff)] = (n : Int) := hH
      rw [this]
      exact_mod_cast hn)]
    have : headerLength [Fin.ofNat ((n >>> 16) &&& 0xff), Fin.ofNat ((n >>> 8) &&& 0xff),
        Fin.ofNat (n &&& 0xff)] = (n : Int) := hH
    rw [this]
  cases workaround with
  | false =>
    rw [socketRead_plain fuel c w, stepWorld_quiet c w _ hc rfl rfl]
  | true =>
    rw [socketRead_outer fuel c w (hl rfl), hc]
    simp only []
    rw [stepWorld_quiet c w _ hc rfl rfl, drain_nil _ _ _ (by simpa [World.setConn] using hq rfl)]
    simp only [Except.bind]
    congr 1
    exact level_self _ 0 (by simpa [World.setConn] using hl rfl)

/-- C15: the receiver accepts every length the 24-bit header can announce. For
a payload of up to `0xFFFFFF` bytes (so also above the sender's `0xFFFFF`), in
either build and with a passive slot: a fresh connection that holds the header
and the body emits exactly `message` with the payload; and when the body is
not empty and the three header octets arrive first, `socketRead` sets
`iPacketLength` to the announced length without emitting, then, once the body
has arrived, emits the payload and returns to `iPacketLength = -1`. -/
theorem receive_accepts_24_bit_lengths (workaround : Bool) (fuel : Nat) (c : ConnId) (w : World)
    (payload : List Byte)
    (hle : payload.length ≤ 0xffffff)
    (hpl : (w.conns c).iPacketLength = -1)
    (hempty : (w.conns c).qtsSocket.readBuf = [])
    (hl : workaround = true → w.iReceiveLevel = 0)
    (hq : workaround = true → w.qsReceivers = [])
    (hfuel : 2 * payload.length + 10 ≤ fuel) :
    (∃ w', socketRead (Env.passive workaround) fuel c
          (w.arrive c (lengthOctets payload.length ++ payload)) = .ok w' ∧
        w'.emitted = w.emitted ++ [.message c payload] ∧
        (w'.conns c).qtsSocket.readBuf = [] ∧ (w'.conns c).iPacketLength = -1) ∧
    (0 < payload.length →
      ∃ w1 w2, socketRead (Env.passive workaround) fuel c
          (w.arrive c (lengthOctets payload.length)) = .ok w1 ∧
        (w1.conns c).iPacketLength = (payload.length : Int) ∧
        (w1.conns c).qtsSocket.readBuf = [] ∧ w1.emitted = w.emitted ∧
        socketRead (Env.passive workaround) fuel c (w1.arrive c payload) = .ok w2 ∧
        w2.emitted = w.emitted ++ [.message c payload] ∧
        (w2.conns c).qtsSocket.readBuf = [] ∧ (w2.conns c).iPacketLength = -1) := by
  have hlt : payload.length < 2 ^ 24 := by
    norm_num at hle ⊢
    omega
  constructor
  · obtain ⟨w', h1, h2, h3, h4, _⟩ := socketRead_unread_frame workaround fuel c
      (w.arrive c (lengthOctets payload.length ++ payload)) payload hlt
      (by rw [lengthOk_arrive]; exact Or.inl hpl)
      (by rw [unread_arrive]; simp [unread, hpl, hempty, sendBuffer])
      hl hq hfuel
    exact ⟨w', h1, by simpa [World.arrive, World.setConn] using h2, h3, h4⟩
  · intro hpos
    obtain ⟨f, rfl⟩ : ∃ f, fuel = f + 2 := ⟨fuel - 2, by omega⟩
    have h1 := socketRead_header_only workaround f c (w.arrive c (lengthOctets payload.length))
      payload.length hpos hlt (by simpa [World.arrive, World.setConn] using hpl)
      (by simp [World.arrive, World.setConn, hempty]) hl hq
    obtain ⟨w2, g1, g2, g3, g4, _⟩ := socketRead_unread_frame workaround (f + 2) c
      (((w.arrive c (lengthOctets payload.length)).setConn c
        { (w.arrive c (lengthOctets payload.length)).conns c with
          qtsSocket := { ((w.arrive c (lengthOctets payload.length)).conns c).qtsSocket with
            readBuf := [] }
          iPacketLength := (payload.length : Int) }).arrive c payload) payload hlt
      (by
        rw [lengthOk_arrive]
        right
        simp only [World.setConn, Function.update_same]
        constructor
        · exact Int.ofNat_nonneg _
        · exact_mod_cast hlt)
      (by
        rw [unread_arrive]
        have hne : ((payload.length : Int) = -1) = False := by
          simp only [eq_iff_iff, iff_false]
          omega
        simp [unread, World.setConn, sendBuffer, hne])
      (by simpa [World.arrive, World.setConn] using hl)
      (by simpa [World.arrive, World.setConn] using hq) hfuel
    exact ⟨_, w2, h1, by simp [World.setConn], by simp [World.setConn],
      by simp [World.setConn, World.arrive], g1,
      by simpa [World.arrive, World.setConn] using g2, g3, g4⟩

/-- Witness of C15: a body of `0x100000` bytes, one more than the sender allows. -/
theorem receive_accepts_24_bit_lengths_witness :
    (∃ w', socketRead (Env.passive true) 2097162 0
          ((World.init sockReady).arrive 0
            (lengthOctets (List.replicate 0x100000 (0 : Byte)).length ++
              List.replicate 0x100000 0)) = .ok w' ∧
        w'.emitted = (World.init sockReady).emitted ++
          [.message 0 (List.replicate 0x100000 0)] ∧
        (w'.conns 0).qtsSocket.readBuf = [] ∧ (w'.conns 0).iPacketLength = -1) ∧
    (0 < (List.replicate 0x100000 (0 : Byte)).length →
      ∃ w1 w2, socketRead (Env.passive true) 2097162 0
          ((World.init sockReady).arrive 0
            (lengthOctets (List.replicate 0x100000 (0 : Byte)).length)) = .ok w1 ∧
        (w1.conns 0).iPacketLength = ((List.replicate 0x100000 (0 : Byte)).length : Int) ∧
        (w1.conns 0).qtsSocket.readBuf = [] ∧ w1.emitted = (World.init sockReady).emitted ∧
        socketRead (Env.passive true) 2097162 0 (w1.arrive 0 (List.replicate 0x100000 0))
          = .ok w2 ∧
        w2.emitted = (World.init sockReady).emitted ++
          [.message 0 (List.replicate 0x100000 0)] ∧
        (w2.conns 0).qtsSocket.readBuf = [] ∧ (w2.conns 0).iPacketLength = -1) :=
  receive_accepts_24_bit_lengths true 2097162 0 (World.init sockReady)
    (List.replicate 0x100000 0) (by rw [List.length_replicate]; decide) rfl rfl
    (fun _ => rfl) (fun _ => rfl) (by rw [List.length_replicate])

/-! ## The pending length -/

theorem coreStep_lengthOk (k : Connection) (hv : LengthOk k) (b : BodyStep)
    (h : coreStep k = some b) : LengthOk b.conn := by
  cases hm : b.msg with
  | none => exact (coreStep_quiet k hv b h hm).2.2.1
  | some m => exact Or.inl (coreStep_msg k hv b m h hm).2.2.1

theorem stepWorld_lengthOk (c : ConnId) (w : World) (hv : LengthOk (w.conns c)) :
    LengthOk ((stepWorld c w).conns c) := by
  unfold stepWorld
  cases hc : coreStep (w.conns c) with
  | none => exact hv
  | some b =>
    have hb := coreStep_lengthOk _ hv b hc
    cases hm : b.msg <;> cases hr : b.requeue <;>
      simpa [hm, hr, World.setConn, World.insertReceiver, World.emit] using hb

/-- Without the workaround every delivery returns and keeps the pending length
well-formed, whatever bytes arrive. -/
theorem deliverAll_plain_lengthOk (fuel : Nat) (c : ConnId) (chunks : List (List Byte)) :
    ∀ (w : World), LengthOk (w.conns c) →
    ∃ w', deliverAll (Env.passive false) (fuel + 2) c w chunks = .ok w' ∧
      LengthOk (w'.conns c) := by
  induction chunks with
  | nil => intro w hv; exact ⟨w, rfl, hv⟩
  | cons ch chs ih =>
    intro w hv
    obtain ⟨w', h1, h2⟩ := ih (stepWorld c (w.arrive c ch))
      (stepWorld_lengthOk c _ ((lengthOk_arrive w c ch).2 hv))
    refine ⟨w', ?_, h2⟩
    rw [deliverAll_cons, socketRead_plain fuel c]
    exact h1

/-- C17: from a freshly constructed connection, any sequence of chunks of any
bytes, each followed by a `socketRead` (either build, passive slot), returns
in a state whose `iPacketLength` is `-1` or lies in `0 .. 0xFFFFFF`. The header
step never yields `-1`: from `iPacketLength = -1` it returns a value in
`0 .. 0xFFFFFF`. The body step that emits a message leaves
`iPacketLength = -1`. -/
theorem packetLength_invariant (workaround : Bool) (fuel : Nat) (c : ConnId) (w : World)
    (chunks : List (List Byte))
    (hpl : (w.conns c).iPacketLength = -1)
    (hempty : (w.conns c).qtsSocket.readBuf = [])
    (hl : workaround = true → w.iReceiveLevel = 0)
    (hq : workaround = true → w.qsReceivers = [])
    (hfuel : 2 * chunks.flatten.length + 4 ≤ fuel) :
    (∃ w', deliverAll (Env.passive workaround) fuel c w chunks = .ok w' ∧
      ((w'.conns c).iPacketLength = -1 ∨
        (0 ≤ (w'.conns c).iPacketLength ∧ (w'.conns c).iPacketLength ≤ 0xffffff))) ∧
    (∀ (k k1 : Connection) (av av1 : Int), k.iPacketLength = -1 →
      readHeader k av = some (k1, av1) →
      0 ≤ k1.iPacketLength ∧ k1.iPacketLength ≤ 0xffffff) ∧
    (∀ (k : Connection) (av : Int), (readBody k av).msg ≠ none →
      (readBody k av).conn.iPacketLength = -1) := by
  refine ⟨?_, ?_, ?_⟩
  · have key : ∃ w', deliverAll (Env.passive workaround) fuel c w chunks = .ok w' ∧
        LengthOk (w'.conns c) := by
      cases workaround with
      | false =>
        obtain ⟨f, rfl⟩ : ∃ f, fuel = f + 2 := ⟨fuel - 2, by omega⟩
        exact deliverAll_plain_lengthOk f c chunks w (Or.inl hpl)
      | true =>
        have hun : unread (w.conns c) = [] := by simp [unread, hpl, hempty]
        obtain ⟨w', msgs, hd, hpu⟩ := deliverAll_pumps c chunks w (hl rfl) (hq rfl) (Or.inl hpl)
          (Or.inl ⟨hpl, by simp [Socket.bytesAvailable, hempty]⟩) fuel
          (by rw [hun]; simpa using hfuel)
        exact ⟨w', hd, hpu.lengthOk⟩
    obtain ⟨w', h1, h2⟩ := key
    refine ⟨w', h1, ?_⟩
    rcases h2 with h2 | ⟨h2, h3⟩
    · exact Or.inl h2
    · right
      refine ⟨h2, ?_⟩
      norm_num at h3 ⊢
      omega
  · intro k k1 av av1 hk h
    unfold readHeader at h
    rw [if_pos hk] at h
    by_cases hav : av < 3
    · simp [hav] at h
    · simp only [hav, if_false, Option.some.injEq, Prod.mk.injEq] at h
      obtain ⟨h1, _⟩ := h
      subst h1
      simp only []
      refine ⟨headerLength_nonneg _, ?_⟩
      simp only [headerLength]
      have h0 := (List.getD (k.qtsSocket.read 3).1 0 0).isLt
      have h1 := (List.getD (k.qtsSocket.read 3).1 1 0).isLt
      have h2 := (List.getD (k.qtsSocket.read 3).1 2 0).isLt
      rw [shl16_and, shl8_and]
      norm_cast
      omega
  · intro k av h
    unfold readBody at h ⊢
    by_cases hc : k.iPacketLength ≠ -1 ∧ av ≥ k.iPacketLength
    · simp [hc]
    · simp [hc] at h

/-- Witness of C17: bytes that are no well-formed frame stream, in two chunks. -/
theorem packetLength_invariant_witness :
    (∃ w', deliverAll (Env.passive true) 14 0 (World.init sockReady)
        [[255, 255], [255, 1, 2]] = .ok w' ∧
      ((w'.conns 0).iPacketLength = -1 ∨
        (0 ≤ (w'.conns 0).iPacketLength ∧ (w'.conns 0).iPacketLength ≤ 0xffffff))) ∧
    (∀ (k k1 : Connection) (av av1 : Int), k.iPacketLength = -1 →
      readHeader k av = some (k1, av1) →
      0 ≤ k1.iPacketLength ∧ k1.iPacketLength ≤ 0xffffff) ∧
    (∀ (k : Connection) (av : Int), (readBody k av).msg ≠ none →
      (readBody k av).conn.iPacketLength = -1) :=
  packetLength_invariant true 14 0 (World.init sockReady) [[255, 255], [255, 1, 2]]
    rfl rfl (fun _ => rfl) (fun _ => rfl) (by decide)

/-! ## Scripted arrivals -/

theorem arrivals_self (script : ConnId → List (Option (List Byte))) (c : ConnId) (a : Nat) :
    arrivals script c a a = [] := by
  simp [arrivals]

theorem arrivals_succ (script : ConnId → List (Option (List Byte))) (c : ConnId) (a : Nat) :
    arrivals script c a (a + 1) = (((script c)[a]?).join).getD [] := by
  simp only [arrivals, Nat.add_sub_cancel_left]
  by_cases h : a < (script c).length
  · rw [List.drop_eq_getElem_cons h, List.getElem?_eq_getElem h]
    show (List.map (fun o => o.getD []) [(script c)[a]]).flatten = _
    simp only [List.map_cons, List.map_nil, List.flatten_cons, List.flatten_nil,
      List.append_nil, Option.join]
    rfl
  · have h' : (script c).length ≤ a := by omega
    rw [List.drop_eq_nil_of_le h', List.getElem?_eq_none h']
    simp

theorem arrivals_append (script : ConnId → List (Option (List Byte))) (c : ConnId)
    (a b e : Nat) (hab : a ≤ b) (hbe : b ≤ e) :
    arrivals script c a b ++ arrivals script c b e = arrivals script c a e := by
  simp only [arrivals]
  have h1 : e - a = (b - a) + (e - b) := by omega
  rw [h1, List.take_add, List.map_append, List.flatten_append, List.drop_drop]
  have h2 : a + (b - a) = b := by omega
  rw [h2]

theorem pending_succ (script : ConnId → List (Option (List Byte))) (c : ConnId) (a : Nat) :
    pending script c a = arrivalCost (((script c)[a]?).join) + pending script c (a + 1) := by
  simp only [pending]
  by_cases h : a < (script c).length
  · rw [List.drop_eq_getElem_cons h, List.getElem?_eq_getElem h]
    simp only [List.map_cons, List.sum_cons]
    rfl
  · have h' : (script c).length ≤ a := by omega
    rw [List.drop_eq_nil_of_le h', List.getElem?_eq_none h',
      List.drop_eq_nil_of_le (by omega)]
    simp [arrivalCost]

theorem arrivals_empty (script : ConnId → List (Option (List Byte))) (c : ConnId) (a b : Nat)
    (h : script c = []) : arrivals script c a b = [] := by
  simp [arrivals, h]

/-! ## Calls made at level 2 -/

theorem Level2.same (script : ConnId → List (Option (List Byte))) (n : Nat) (w : World) :
    Level2 script n w w :=
  { level := rfl, signals := rfl, queued := fun _ h => h, queueLen := by omega,
    writes := fun _ => le_refl _, length := fun _ => rfl, timer := fun _ => rfl,
    input := fun d => by simp [arrivals_self], untouched := fun _ _ => rfl,
    cost := fun d => by simp [arrivals_self] }

theorem Level2.chain (script : ConnId → List (Option (List Byte))) (n m : Nat)
    (u v x : World) (h1 : Level2 script n u v) (h2 : Level2 script m v x) :
    Level2 script (n + m) u x :=
  { level := by rw [h2.level, h1.level]
    signals := by rw [h2.signals, h1.signals]
    queued := fun d h => h2.queued d (h1.queued d h)
    queueLen := by
      have := h1.queueLen
      have := h2.queueLen
      omega
    writes := fun d => le_trans (h1.writes d) (h2.writes d)
    length := fun d => by rw [h2.length, h1.length]
    timer := fun d => by rw [h2.timer, h1.timer]
    input := fun d => by
      rw [h2.input, h1.input, List.append_assoc,
        arrivals_append script d _ _ _ (h1.writes d) (h2.writes d)]
    untouched := fun d hd => by
      have hv : d ∉ v.qsReceivers := fun h => hd (h2.queued d h)
      rw [h2.untouched d hd, h1.untouched d hv]
    cost := fun d => by
      have e := arrivals_append script d _ _ _ (h1.writes d) (h2.writes d)
      have l := congrArg List.length e
      rw [List.length_append] at l
      have := h1.cost d
      have := h2.cost d
      omega }

theorem insertReceiver_mem (w : World) (c d : ConnId) :
    d ∈ (w.insertReceiver c).qsReceivers ↔ d ∈ w.qsReceivers ∨ d = c := by
  by_cases h : c ∈ w.qsReceivers
  · simp only [World.insertReceiver, h, if_true]
    constructor
    · exact Or.inl
    · rintro (h1 | rfl)
      · exact h1
      · exact h
  · simp [World.insertReceiver, h]

theorem insertReceiver_length (w : World) (c : ConnId) :
    (w.insertReceiver c).qsReceivers.length ≤ w.qsReceivers.length + 1 := by
  by_cases h : c ∈ w.qsReceivers <;> simp [World.insertReceiver, h]

/-- A re-entrant `socketRead` as a call made at level 2. -/
theorem Level2.insert (script : ConnId → List (Option (List Byte))) (w : World) (c : ConnId) :
    Level2 script 1 w (w.insertReceiver c) :=
  { level := rfl, signals := rfl
    queued := fun d h => (insertReceiver_mem w c d).2 (Or.inl h)
    queueLen := insertReceiver_length w c
    writes := fun _ => le_refl _, length := fun _ => rfl, timer := fun _ => rfl
    input := fun d => by
      show (w.conns d).qtsSocket.readBuf = _ ++ arrivals script d (w.writeCount d) (w.writeCount d)
      simp [arrivals_self]
    untouched := fun _ _ => rfl
    cost := fun d => by
      show pending script d (w.writeCount d) +
        2 * (arrivals script d (w.writeCount d) (w.writeCount d)).length ≤ _
      simp [arrivals_self] }

/-- A write in a scripted environment as a call made at level 2. -/
theorem Level2.afterWrite (script : ConnId → List (Option (List Byte))) (w : World) (c : ConnId)
    (data : List Byte) : Level2 script 1 w (w.afterWrite script c data) := by
  have hs := arrivals_succ script c (w.writeCount c)
  have hp := pending_succ script c (w.writeCount c)
  unfold World.afterWrite
  cases hj : ((script c)[w.writeCount c]?).join with
  | none =>
    rw [hj] at hs hp
    simp only [Option.getD_none] at hs
    simp only [arrivalCost, zero_add] at hp
    exact
      { level := rfl, signals := rfl, queued := fun _ h => h, queueLen := by simp [World.setConn]
        writes := fun d => by
          by_cases hd : d = c
          · subst hd; simp [World.writeCount, World.setConn, Socket.write]
          · simp [World.writeCount, World.setConn, hd]
        length := fun d => by
          by_cases hd : d = c
          · subst hd; simp [World.setConn]
          · simp [World.setConn, hd]
        timer := fun d => by
          by_cases hd : d = c
          · subst hd; simp [World.setConn]
          · simp [World.setConn, hd]
        input := fun d => by
          by_cases hd : d = c
          · subst hd
            have : (w.setConn d { w.conns d with
                qtsSocket := (w.conns d).qtsSocket.write data }).writeCount d
                = w.writeCount d + 1 := by
              simp [World.writeCount, World.setConn, Socket.write]
            simp only []
            rw [this, hs]
            simp [World.setConn, Socket.write]
          · have : (w.setConn c { w.conns c with
                qtsSocket := (w.conns c).qtsSocket.write data }).writeCount d
                = w.writeCount d := by
              simp [World.writeCount, World.setConn, hd]
            simp only []
            rw [this, arrivals_self]
            simp [World.setConn, hd]
        untouched := fun d _ => by
          by_cases hd : d = c
          · subst hd; simp [World.setConn, Socket.write]
          · simp [World.setConn, hd]
        cost := fun d => by
          by_cases hd : d = c
          · subst hd
            have : (w.setConn d { w.conns d with
                qtsSocket := (w.conns d).qtsSocket.write data }).writeCount d
                = w.writeCount d + 1 := by
              simp [World.writeCount, World.setConn, Socket.write]
            simp only []
            rw [this, hs, hp]
            simp
          · have : (w.setConn c { w.conns c with
                qtsSocket := (w.conns c).qtsSocket.write data }).writeCount d
                = w.writeCount d := by
              simp [World.writeCount, World.setConn, hd]
            simp only []
            rw [this, arrivals_self]
            simp }
  | some bs =>
    rw [hj] at hs hp
    simp only [Option.getD_some] at hs
    simp only [arrivalCost] at hp
    exact
      { level := rfl, signals := rfl
        queued := fun d h => (insertReceiver_mem _ c d).2 (Or.inl h)
        queueLen := by
          have := insertReceiver_length ((w.setConn c { w.conns c with
            qtsSocket := (w.conns c).qtsSocket.write data }).arrive c bs) c
          simpa [World.arrive, World.setConn] using this
        writes := fun d => by
          by_cases hd : d = c
          · subst hd
            simp [World.writeCount, World.setConn, Socket.write, World.arrive,
              World.insertReceiver]
          · simp [World.writeCount, World.setConn, hd, World.arrive, World.insertReceiver]
        length := fun d => by
          by_cases hd : d = c
          · subst hd; simp [World.setConn, World.arrive, World.insertReceiver]
          · simp [World.setConn, hd, World.arrive, World.insertReceiver]
        timer := fun d => by
          by_cases hd : d = c
          · subst hd; simp [World.setConn, World.arrive, World.insertReceiver]
          · simp [World.setConn, hd, World.arrive, World.insertReceiver]
        input := fun d => by
          by_cases hd : d = c
          · subst hd
            have : (((w.setConn d { w.conns d with
                qtsSocket := (w.conns d).qtsSocket.write data }).arrive d bs).insertReceiver
                  d).writeCount d = w.writeCount d + 1 := by
              simp [World.writeCount, World.setConn, Socket.write, World.arrive,
                World.insertReceiver]
            simp only []
            rw [this, hs]
            simp [World.setConn, Socket.write, World.arrive, World.insertReceiver]
          · have : (((w.setConn c { w.conns c with
                qtsSocket := (w.conns c).qtsSocket.write data }).arrive c bs).insertReceiver
                  c).writeCount d = w.writeCount d := by
              simp [World.writeCount, World.setConn, hd, World.arrive, World.insertReceiver]
            simp only []
            rw [this, arrivals_self]
            simp [World.setConn, hd, World.arrive, World.insertReceiver]
        untouched := fun d hq => by
          have hd : d ≠ c := fun h => hq ((insertReceiver_mem _ c d).2 (Or.inr h))
          simp [World.setConn, hd, World.arrive, World.insertReceiver]
        cost := fun d => by
          by_cases hd : d = c
          · subst hd
            have : (((w.setConn d { w.conns d with
                qtsSocket := (w.conns d).qtsSocket.write data }).arrive d bs).insertReceiver
                  d).writeCount d = w.writeCount d + 1 := by
              simp [World.writeCount, World.setConn, Socket.write, World.arrive,
                World.insertReceiver]
            simp only []
            rw [this, hs, hp]
            omega
          · have : (((w.setConn c { w.conns c with
                qtsSocket := (w.conns c).qtsSocket.write data }).arrive c bs).insertReceiver
                  c).writeCount d = w.writeCount d := by
              simp [World.writeCount, World.setConn, hd, World.arrive, World.insertReceiver]
            simp only []
            rw [this, arrivals_self]
            simp }

theorem afterWrite_level (script : ConnId → List (Option (List Byte))) (w : World) (c : ConnId)
    (data : List Byte) : (w.afterWrite script c data).iReceiveLevel = w.iReceiveLevel :=
  (Level2.afterWrite script w c data).level

/-- In a scripted environment `sendMessage` on a ready transport is the write,
with the re-entrant read it may raise, followed by the drain loop when the call
is the outermost one. -/
theorem sendMessage_scripted (spare : Nat) (slot : ConnId → List Byte → List Act)
    (script : ConnId → List (Option (List Byte))) (fuel : Nat) (c : ConnId) (p : List Byte)
    (w : World)
    (hconn : (w.conns c).qtsSocket.connected = true)
    (henc : (w.conns c).qtsSocket.encrypted = true)
    (hp : p.length ≤ 0xfffff) :
    sendMessage (Env.scripted spare slot script) (fuel + 2) c p w =
      (if w.iReceiveLevel = 0 then
          drain (Env.scripted spare slot script) (fuel + 1)
            { ({ w with iReceiveLevel := 2 } : World).afterWrite script c (sendBuffer p) with
              iReceiveLevel := 1 }
        else .ok (({ w with iReceiveLevel := 2 } : World).afterWrite script c (sendBuffer p))).bind
        fun y => .ok { y with iReceiveLevel := w.iReceiveLevel } := by
  have hp' : ¬ (1048575 < p.length) := by simpa using hp
  have hfit := stack_fits (Env.scripted spare slot script) p hp
  have hwc : (({ w with iReceiveLevel := 2 } : World).setConn c
      { w.conns c with qtsSocket := (w.conns c).qtsSocket.write (sendBuffer p) }).writeCount c - 1
      = w.writeCount c := by
    simp [World.writeCount, World.setConn, Socket.write]
  simp only [sendMessage, hfit, if_false]
  simp only [hconn, henc, hp', Env.scripted, not_true_eq_false, if_false, if_true,
    World.afterWrite]
  rw [hwc]
  have hwc2 : ({ w with iReceiveLevel := 2 } : World).writeCount c = w.writeCount c := rfl
  rw [hwc2]
  cases hj : ((script c)[w.writeCount c]?).join with
  | none => simp [Except.bind]
  | some bs =>
    simp only []
    have := socketRead_level2 (Env.scripted spare slot script) rfl fuel c
      ((({ w with iReceiveLevel := 2 } : World).setConn c
        { w.conns c with qtsSocket := (w.conns c).qtsSocket.write (sendBuffer p) }).arrive c bs)
      rfl
    simp only [Env.scripted] at this
    rw [this]
    simp [Except.bind]

/-- In a scripted environment a `sendMessage` called at level 2 with a payload
within the limit returns after at most one step at level 2. -/
theorem sendMessage_level2 (spare : Nat) (slot : ConnId → List Byte → List Act)
    (script : ConnId → List (Option (List Byte))) (fuel : Nat) (c : ConnId) (p : List Byte)
    (w : World) (hl : w.iReceiveLevel = 2) (hp : p.length ≤ 0xfffff) :
    ∃ x, sendMessage (Env.scripted spare slot script) (fuel + 2) c p w = .ok x ∧
      Level2 script 1 w x := by
  by_cases h : (w.conns c).qtsSocket.connected = true ∧ (w.conns c).qtsSocket.encrypted = true
  · rw [sendMessage_scripted spare slot script fuel c p w h.1 h.2 hp]
    have h2 : ¬ w.iReceiveLevel = 0 := by rw [hl]; decide
    have hw : ({ w with iReceiveLevel := 2 } : World) = w := level_self w 2 hl
    rw [if_neg h2, hw]
    refine ⟨w.afterWrite script c (sendBuffer p), ?_, Level2.afterWrite script w c _⟩
    simp only [Except.bind]
    congr 1
    exact level_self _ _ (afterWrite_level script w c _)
  · exact ⟨w, sendMessage_idle _ (fuel + 1) c p w (stack_fits _ p hp) h, Level2.same script 1 w⟩

/-- In a scripted environment the calls a slot makes at level 2 all return,
and together they are steps at level 2. -/
theorem runSlot_level2 (spare : Nat) (slot : ConnId → List Byte → List Act)
    (script : ConnId → List (Option (List Byte))) (acts : List Act) :
    ∀ (w : World), w.iReceiveLevel = 2 →
      (∀ d p, Act.sendMessage d p ∈ acts → p.length ≤ 0xfffff) →
      ∀ fuel, acts.length + 3 ≤ fuel →
      ∃ x, runSlot (Env.scripted spare slot script) fuel acts w = .ok x ∧
        Level2 script acts.length w x := by
  induction acts with
  | nil =>
    intro w _ _ fuel hf
    obtain ⟨f, rfl⟩ : ∃ f, fuel = f + 1 := ⟨fuel - 1, by omega⟩
    exact ⟨w, runSlot_nil _ f w, Level2.same script 0 w⟩
  | cons a rest ih =>
    intro w hl hs fuel hf
    simp only [List.length_cons] at hf
    obtain ⟨f, rfl⟩ : ∃ f, fuel = f + 3 := ⟨fuel - 3, by omega⟩
    cases a with
    | sendMessage d p =>
      obtain ⟨x, hx, hL⟩ := sendMessage_level2 spare slot script f d p w hl
        (hs d p (List.mem_cons_self _ _))
      obtain ⟨y, hy, hL2⟩ := ih x (by rw [hL.level]; exact hl)
        (fun d' p' h => hs d' p' (List.mem_cons_of_mem _ h)) (f + 2) (by omega)
      refine ⟨y, ?_, ?_⟩
      · show runSlot _ (f + 2 + 1) _ _ = _
        rw [runSlot, hx]
        exact hy
      · have := Level2.chain script 1 rest.length w x y hL hL2
        simpa [Nat.add_comm] using this
    | socketRead d =>
      have hx := socketRead_level2 (Env.scripted spare slot script) rfl (f + 1) d w hl
      obtain ⟨y, hy, hL2⟩ := ih (w.insertReceiver d) hl
        (fun d' p' h => hs d' p' (List.mem_cons_of_mem _ h)) (f + 2) (by omega)
      refine ⟨y, ?_, ?_⟩
      · show runSlot _ (f + 2 + 1) _ _ = _
        rw [runSlot, hx]
        exact hy
      · have := Level2.chain script 1 rest.length w _ y (Level2.insert script w d) hL2
        simpa [Nat.add_comm] using this

/-! ## One read, seen from the world -/

/-- What a `coreStep` leaves alone, without any assumption on the connection:
the write log; the timer unless a message is emitted; and the weight never
grows and shrinks with every message. -/
theorem coreStep_fields (k : Connection) (b : BodyStep) (h : coreStep k = some b) :
    b.conn.qtsSocket.writes = k.qtsSocket.writes ∧ weight b.conn ≤ weight k ∧
    (b.msg = none → b.requeue = false ∧ b.conn.qtLastPacket = k.qtLastPacket) ∧
    (∀ m, b.msg = some m → weight b.conn < weight k ∧
      b.conn.qtLastPacket = k.qtLastPacket + 1) := by
  unfold coreStep at h
  by_cases hpl : k.iPacketLength = -1
  · by_cases hav : k.qtsSocket.bytesAvailable < 3
    · simp [readHeader, hpl, hav] at h
    · obtain ⟨b0, b1, b2, rest, hbuf⟩ := exists_three k.qtsSocket.readBuf
        (by simp only [Socket.bytesAvailable] at hav; omega)
      rw [readHeader_cons k b0 b1 b2 rest hpl hbuf] at h
      simp only [Option.map_some', Option.some.injEq] at h
      have hnn := headerLength_nonneg [b0, b1, b2]
      by_cases hlen : headerLength [b0, b1, b2] ≤ (rest.length : Int)
      · rw [readBody_ready _ _ (by simp only; omega) (by simpa using hlen)] at h
        subst h
        refine ⟨rfl, ?_, by simp, ?_⟩
        · simp only [weight, hpl, if_true, hbuf, List.length_drop, List.length_cons]
          omega
        · intro m _
          refine ⟨?_, rfl⟩
          simp only [weight, hpl, if_true, hbuf, List.length_drop, List.length_cons]
          omega
      · rw [readBody_short _ _ (by simp only; omega)] at h
        subst h
        refine ⟨rfl, ?_, fun _ => ⟨rfl, rfl⟩, by simp⟩
        have hne : headerLength [b0, b1, b2] ≠ -1 := by omega
        simp only [weight, hpl, if_true, hbuf, hne, if_false, List.length_cons]
        omega
  · have hh : readHeader k k.qtsSocket.bytesAvailable = some (k, k.qtsSocket.bytesAvailable) := by
      simp [readHeader, hpl]
    rw [hh] at h
    simp only [Option.map_some', Option.some.injEq] at h
    by_cases hlen : k.iPacketLength ≤ k.qtsSocket.bytesAvailable
    · rw [readBody_ready _ _ hpl hlen] at h
      subst h
      refine ⟨rfl, ?_, by simp, ?_⟩
      · simp only [weight, hpl, if_false, if_true, List.length_drop]
        omega
      · intro m _
        refine ⟨?_, rfl⟩
        simp only [weight, hpl, if_false, if_true, List.length_drop]
        omega
    · rw [readBody_short _ _ (by omega)] at h
      subst h
      exact ⟨rfl, le_refl _, fun _ => ⟨rfl, rfl⟩, by simp⟩

/-- A connection short of data is left as it is by `coreStep`. -/
theorem coreStep_starved (k : Connection) (hs : Starved k) :
    coreStep k = none ∨ coreStep k = some { conn := k, msg := none, requeue := false } := by
  unfold coreStep
  rcases readHeader_starved k hs with ⟨h1, _⟩ | ⟨h1, h2⟩
  · left; rw [h1]; rfl
  · right; rw [h1]; simp [h2]

theorem starved_congr (k k' : Connection) (h1 : k'.iPacketLength = k.iPacketLength)
    (h2 : k'.qtsSocket.readBuf = k.qtsSocket.readBuf) : Starved k' ↔ Starved k := by
  simp only [Starved, Socket.bytesAvailable, h1, h2]

theorem coreStep_eq (k : Connection) :
    coreStep k = match readHeader k k.qtsSocket.bytesAvailable with
      | none => none
      | some (k1, av) => some (readBody k1 av) := by
  unfold coreStep
  cases readHeader k k.qtsSocket.bytesAvailable with
  | none => rfl
  | some p => rfl

/-- With the workaround, a `socketRead` that is not re-entrant, in terms of
`coreStep`: it leaves the pending set when called from the drain loop, steps
its connection, runs the slot on the message if there is one, and drains the
pending set when it is the outermost call. -/
theorem socketRead_unfold (env : Env) (hwa : env.workaround = true) (fuel : Nat) (c : ConnId)
    (w : World) (hl : w.iReceiveLevel ≠ 2) :
    socketRead env (fuel + 1) c w =
      match coreStep (w.conns c) with
      | none =>
        .ok (if w.iReceiveLevel = 1 then w.removeReceiver c else w)
      | some b =>
        (match b.msg with
          | none => (.ok (((if w.iReceiveLevel = 1 then
              ({ w with iReceiveLevel := 2 } : World).removeReceiver c
              else { w with iReceiveLevel := 2 }) : World).stepped c b) : Result)
          | some m => runSlot env fuel (env.slot c m)
              ((((if w.iReceiveLevel = 1 then
                ({ w with iReceiveLevel := 2 } : World).removeReceiver c
                else { w with iReceiveLevel := 2 }) : World).stepped c b).emit
                  (.message c m))).bind fun x =>
          (if w.iReceiveLevel = 0 then drain env fuel { x with iReceiveLevel := 1 }
            else .ok x).bind fun y => .ok { y with iReceiveLevel := w.iReceiveLevel } := by
  rw [coreStep_eq]
  simp only [socketRead, hwa, hl, if_true, and_false, if_false, true_and]
  by_cases h1 : w.iReceiveLevel = 1
  · simp only [h1, if_true]
    have hc : ((({ w with iReceiveLevel := 2 } : World).removeReceiver c).conns c) = w.conns c :=
      rfl
    rw [hc]
    cases hh : readHeader (w.conns c) (w.conns c).qtsSocket.bytesAvailable with
    | none =>
      simp only []
      congr 1
      simp only [World.removeReceiver]
      rw [← h1]
    | some p =>
      obtain ⟨k1, av⟩ := p
      simp only [World.stepped]
  · simp only [h1, if_false]
    have hc : (({ w with iReceiveLevel := 2 } : World).conns c) = w.conns c := rfl
    rw [hc]
    cases hh : readHeader (w.conns c) (w.conns c).qtsSocket.bytesAvailable with
    | none =>
      simp only []
    | some p =>
      obtain ⟨k1, av⟩ := p
      simp only [World.stepped]

/-! ## What has been served -/

theorem messagesOf_append (d : ConnId) (l1 l2 : List Signal) :
    messagesOf d (l1 ++ l2) = messagesOf d l1 ++ messagesOf d l2 := by
  induction l1 with
  | nil => rfl
  | cons s rest ih =>
    cases s with
    | message e m =>
      by_cases h : e = d <;> simp [messagesOf, h, ih]
    | connectionClosed e r => simp [messagesOf, ih]

theorem messagesOf_emit (d c : ConnId) (l : List Signal) (m : List Byte) :
    messagesOf d (l ++ [.message c m]) = messagesOf d l ++ (if c = d then [m] else []) := by
  rw [messagesOf_append]
  by_cases h : c = d <;> simp [messagesOf, h]

theorem Served.idle (script : ConnId → List (Option (List Byte))) (w : World)
    (hv : LengthAll w) : Served script w w :=
  { lengthOk := hv
    writes := fun _ => le_refl _
    hist := fun d => ⟨[], by simp, by simp, by simp [frames_nil, arrivals_self], by simp⟩ }

theorem Served.compose (script : ConnId → List (Option (List Byte))) (u v x : World)
    (h1 : Served script u v) (h2 : Served script v x) : Served script u x :=
  { lengthOk := h2.lengthOk
    writes := fun d => le_trans (h1.writes d) (h2.writes d)
    hist := fun d => by
      obtain ⟨n1, a1, b1, c1, d1⟩ := h1.hist d
      obtain ⟨n2, a2, b2, c2, d2⟩ := h2.hist d
      refine ⟨n1 ++ n2, by rw [a2, a1, List.append_assoc], ?_, ?_, ?_⟩
      · intro m hm
        rcases List.mem_append.1 hm with hm | hm
        · exact b1 m hm
        · exact b2 m hm
      · rw [frames_append, List.append_assoc, c2, ← List.append_assoc, c1, List.append_assoc,
          arrivals_append script d _ _ _ (h1.writes d) (h2.writes d)]
      · rw [d2, d1, List.length_append]
        omega }

/-- Steps at level 2 serve nothing and lose nothing. -/
theorem Served.of_level2 (script : ConnId → List (Option (List Byte))) (n : Nat) (u v : World)
    (hv : LengthAll u) (h : Level2 script n u v) : Served script u v :=
  { lengthOk := fun d => by
      have := hv d
      simpa [LengthOk, h.length d] using this
    writes := h.writes
    hist := fun d => by
      refine ⟨[], by simp [h.signals], by simp, ?_, by simp [h.timer d]⟩
      simp only [frames_nil, List.nil_append, unread, h.length d, h.input d]
      by_cases hp : (u.conns d).iPacketLength = -1 <;> simp [hp] }

theorem stepped_conns (u : World) (c : ConnId) (b : BodyStep) :
    (u.stepped c b).conns = Function.update u.conns c b.conn := by
  unfold World.stepped
  cases b.requeue <;> rfl

theorem stepped_level (u : World) (c : ConnId) (b : BodyStep) :
    (u.stepped c b).iReceiveLevel = u.iReceiveLevel := by
  unfold World.stepped
  cases b.requeue <;> rfl

theorem stepped_emitted (u : World) (c : ConnId) (b : BodyStep) :
    (u.stepped c b).emitted = u.emitted := by
  unfold World.stepped
  cases b.requeue <;> rfl

theorem stepped_queue (u : World) (c : ConnId) (b : BodyStep) :
    (u.stepped c b).qsReceivers =
      if b.requeue then (u.insertReceiver c).qsReceivers else u.qsReceivers := by
  unfold World.stepped
  cases b.requeue <;> rfl

/-- The step of one connection, with its signal, serves exactly the message it
emits. -/
theorem Served.step (script : ConnId → List (Option (List Byte))) (u : World) (c : ConnId)
    (b : BodyStep) (hv : LengthAll u) (hc : coreStep (u.conns c) = some b) (x : World)
    (hx : x.conns = Function.update u.conns c b.conn)
    (he : x.emitted = match b.msg with
      | none => u.emitted
      | some m => u.emitted ++ [.message c m]) :
    Served script u x := by
  obtain ⟨hw, _, hq, hm⟩ := coreStep_fields _ b hc
  have hwc : ∀ d, x.writeCount d = u.writeCount d := by
    intro d
    by_cases hd : d = c
    · subst hd; simp [World.writeCount, hx, hw]
    · simp [World.writeCount, hx, hd]
  refine { lengthOk := ?_, writes := fun d => by rw [hwc], hist := ?_ }
  · intro d
    by_cases hd : d = c
    · subst hd
      rw [hx, Function.update_same]
      exact coreStep_lengthOk _ (hv d) b hc
    · rw [hx, Function.update_noteq hd]
      exact hv d
  · intro d
    rw [hwc, arrivals_self, List.append_nil]
    by_cases hd : d = c
    · subst hd
      rw [hx, Function.update_same]
      cases hmsg : b.msg with
      | none =>
        obtain ⟨_, _, _, hun⟩ := coreStep_quiet _ (hv d) b hc hmsg
        refine ⟨[], by simp [he, hmsg], by simp, by simpa [frames_nil] using hun, ?_⟩
        simp [(hq hmsg).2]
      | some m =>
        obtain ⟨hun, hml, _, _, _⟩ := coreStep_msg _ (hv d) b m hc hmsg
        refine ⟨[m], ?_, by simpa using hml, ?_, ?_⟩
        · rw [he, hmsg]
          simp only []
          rw [messagesOf_emit]
          simp
        · simpa [frames] using hun
        · simp [(hm m hmsg).2]
    · rw [hx, Function.update_noteq hd]
      refine ⟨[], ?_, by simp, by simp [frames_nil], by simp⟩
      cases hmsg : b.msg with
      | none => simp [he, hmsg]
      | some m =>
        rw [he, hmsg]
        simp only []
        rw [messagesOf_emit]
        have : ¬ c = d := fun h => hd h.symm
        simp [this]

/-! ## Progress of one read -/

theorem potential_le (script : ConnId → List (Option (List Byte))) (S : Finset ConnId)
    (u x : World) (h : ∀ d ∈ S, load script x d ≤ load script u d) :
    potential script S x ≤ potential script S u :=
  Finset.sum_le_sum h

theorem potential_lt (script : ConnId → List (Option (List Byte))) (S : Finset ConnId)
    (u x : World) (h : ∀ d ∈ S, load script x d ≤ load script u d) (c : ConnId) (hc : c ∈ S)
    (hlt : load script x c < load script u c) :
    potential script S x < potential script S u :=
  Finset.sum_lt_sum h ⟨c, hc, hlt⟩

theorem Level2.load_le (script : ConnId → List (Option (List Byte))) (n : Nat) (u v : World)
    (h : Level2 script n u v) (d : ConnId) : load script v d ≤ load script u d := by
  have h1 := h.cost d
  have h2 := congrArg List.length (h.input d)
  rw [List.length_append] at h2
  simp only [load, weight, h.length d, h2]
  omega

theorem load_step (script : ConnId → List (Option (List Byte))) (u x : World) (c : ConnId)
    (b : BodyStep) (hc : coreStep (u.conns c) = some b)
    (hx : x.conns = Function.update u.conns c b.conn) (d : ConnId) :
    load script x d ≤ load script u d ∧
      (d = c → b.msg ≠ none → load script x d < load script u d) := by
  obtain ⟨hw, hle, _, hm⟩ := coreStep_fields _ b hc
  by_cases hd : d = c
  · subst hd
    have e1 : x.conns d = b.conn := by rw [hx, Function.update_same]
    have e2 : x.writeCount d = u.writeCount d := by simp [World.writeCount, e1, hw]
    simp only [load, e1, e2]
    refine ⟨by omega, fun _ hne => ?_⟩
    cases hmsg : b.msg with
    | none => exact (hne hmsg).elim
    | some m =>
      have := (hm m hmsg).1
      omega
  · have e1 : x.conns d = u.conns d := by rw [hx, Function.update_noteq hd]
    have e2 : x.writeCount d = u.writeCount d := by simp [World.writeCount, e1]
    simp only [load, e1, e2]
    exact ⟨le_refl _, fun h => (hd h).elim⟩

/-- Lines 108-117 of a read in a scripted environment, for a world at level 2
whose connection `c` can step: the slot returns, the level is still 2, no
input appears outside `S`, and the work left does not grow. If every pending
length is well-formed, the step serves exactly what it emits, and it settles
every connection provided all but `c` were settled. -/
theorem body_step (spare : Nat) (slot : ConnId → List Byte → List Act)
    (script : ConnId → List (Option (List Byte))) (S : Finset ConnId) (L : Nat)
    (hok : SlotOk slot L) (c : ConnId) (u : World) (hl : u.iReceiveLevel = 2) (b : BodyStep)
    (hc : coreStep (u.conns c) = some b) (hconf : Confined script S u) (fuel : Nat)
    (hf : L + 3 ≤ fuel) :
    ∃ x, (match b.msg with
        | none => (.ok (u.stepped c b) : Result)
        | some m => runSlot (Env.scripted spare slot script) fuel (slot c m)
            ((u.stepped c b).emit (.message c m))) = .ok x ∧
      x.iReceiveLevel = 2 ∧ Confined script S x ∧
      (L + 2) * potential script S x + x.qsReceivers.length ≤
        (L + 2) * potential script S u + u.qsReceivers.length ∧
      (LengthAll u → Served script u x ∧
        ((∀ d, d ≠ c → d ∉ u.qsReceivers → Starved (u.conns d)) → Settled x)) := by
  obtain ⟨hw, hle, hq, hm⟩ := coreStep_fields _ b hc
  cases hmsg : b.msg with
  | none =>
    have hr := (hq hmsg).1
    have hx : (u.stepped c b).conns = Function.update u.conns c b.conn := stepped_conns u c b
    have hqs : (u.stepped c b).qsReceivers = u.qsReceivers := by
      rw [stepped_queue, hr]; rfl
    refine ⟨u.stepped c b, rfl, by rw [stepped_level]; exact hl, ?_, ?_, ?_⟩
    · intro d hd
      refine ⟨(hconf d hd).1, ?_⟩
      by_cases hdc : d = c
      · subst hdc
        rcases coreStep_starved _ (hconf d hd).2 with h0 | h0
        · rw [h0] at hc; cases hc
        · rw [h0] at hc
          cases hc
          rw [hx, Function.update_same]
          exact (hconf d hd).2
      · rw [hx, Function.update_noteq hdc]
        exact (hconf d hd).2
    · have := potential_le script S u (u.stepped c b)
        (fun d _ => (load_step script u _ c b hc hx d).1)
      have := Nat.mul_le_mul_left (L + 2) this
      rw [hqs]
      omega
    · intro hv
      refine ⟨Served.step script u c b hv hc _ hx (by rw [stepped_emitted, hmsg]), ?_⟩
      intro hset d hd
      rw [hqs] at hd
      by_cases hdc : d = c
      · subst hdc
        rw [hx, Function.update_same]
        exact (coreStep_quiet _ (hv d) b hc hmsg).2.1
      · rw [hx, Function.update_noteq hdc]
        exact hset d hdc hd
  | some m =>
    have hx2 : ((u.stepped c b).emit (.message c m)).conns = Function.update u.conns c b.conn :=
      stepped_conns u c b
    have hcS : c ∈ S := by
      by_contra hcn
      rcases coreStep_starved _ (hconf c hcn).2 with h0 | h0
      · rw [h0] at hc; cases hc
      · rw [h0] at hc
        cases hc
        simp at hmsg
    obtain ⟨x, hx, hL⟩ := runSlot_level2 spare slot script (slot c m)
      ((u.stepped c b).emit (.message c m)) (by
        show (u.stepped c b).iReceiveLevel = 2
        rw [stepped_level]; exact hl)
      (hok.sizes c m) fuel (by have := hok.calls c m; omega)
    have hlen2 : ((u.stepped c b).emit (.message c m)).qsReceivers.length
        ≤ u.qsReceivers.length + 1 := by
      show (u.stepped c b).qsReceivers.length ≤ _
      rw [stepped_queue]
      cases b.requeue
      · simp
      · exact insertReceiver_length u c
    refine ⟨x, hx, ?_, ?_, ?_, ?_⟩
    · rw [hL.level]
      show (u.stepped c b).iReceiveLevel = 2
      rw [stepped_level]; exact hl
    · intro d hd
      refine ⟨(hconf d hd).1, ?_⟩
      have hdc : d ≠ c := fun h => hd (h ▸ hcS)
      have e1 : (x.conns d).qtsSocket.readBuf = (u.conns d).qtsSocket.readBuf := by
        rw [hL.input d, arrivals_empty script d _ _ (hconf d hd).1, List.append_nil, hx2,
          Function.update_noteq hdc]
      have e2 : (x.conns d).iPacketLength = (u.conns d).iPacketLength := by
        rw [hL.length d, hx2, Function.update_noteq hdc]
      exact (starved_congr _ _ e2 e1).2 (hconf d hd).2
    · have h1 := potential_le script S _ x (fun d _ => hL.load_le script _ _ _ d)
      have h2 := potential_lt script S u ((u.stepped c b).emit (.message c m))
        (fun d _ => (load_step script u _ c b hc hx2 d).1) c hcS
        ((load_step script u _ c b hc hx2 c).2 rfl (by simp [hmsg]))
      have h3 : potential script S x + 1 ≤ potential script S u := by omega
      have h4 := Nat.mul_le_mul_left (L + 2) h3
      have h5 := hL.queueLen
      have h6 := hok.calls c m
      rw [Nat.mul_add] at h4
      omega
    · intro hv
      have hS1 : Served script u ((u.stepped c b).emit (.message c m)) :=
        Served.step script u c b hv hc _ hx2 (by
          show (u.stepped c b).emitted ++ _ = _
          rw [stepped_emitted, hmsg])
      refine ⟨Served.compose script _ _ _ hS1
        (Served.of_level2 script _ _ _ hS1.lengthOk hL), ?_⟩
      intro hset d hd
      have hd2 : d ∉ (u.stepped c b).qsReceivers := fun h => hd (hL.queued d h)
      have e1 := hL.untouched d hd
      have e2 := hL.length d
      refine (starved_congr _ _ e2 e1).2 ?_
      rw [hx2]
      by_cases hdc : d = c
      · subst hdc
        rw [Function.update_same]
        have hr : b.requeue = false := by
          cases hr : b.requeue
          · rfl
          · rw [stepped_queue, hr] at hd2
            exact (hd2 ((insertReceiver_mem u d d).2 (Or.inr rfl))).elim
        exact (coreStep_msg _ (hv d) b m hc hmsg).2.2.2.1 hr
      · rw [Function.update_noteq hdc]
        refine hset d hdc (fun h => hd2 ?_)
        rw [stepped_queue]
        cases b.requeue
        · exact h
        · exact (insertReceiver_mem u c d).2 (Or.inl h)

/-! ## The drain loop with scripted arrivals -/

theorem potential_congr (script : ConnId → List (Option (List Byte))) (S : Finset ConnId)
    (u x : World) (h : x.conns = u.conns) : potential script S x = potential script S u := by
  simp only [potential]
  congr 1
  funext d
  simp [load, World.writeCount, h]

theorem Served.congr (script : ConnId → List (Option (List Byte))) (u v u' v' : World)
    (h : Served script u v) (h1 : u'.conns = u.conns) (h2 : u'.emitted = u.emitted)
    (h3 : v'.conns = v.conns) (h4 : v'.emitted = v.emitted) : Served script u' v' :=
  { lengthOk := fun d => by rw [h3]; exact h.lengthOk d
    writes := fun d => by
      have := h.writes d
      simpa [World.writeCount, h1, h3] using this
    hist := fun d => by
      have := h.hist d
      simpa [World.writeCount, h1, h2, h3, h4] using this }

theorem Level2.confined (script : ConnId → List (Option (List Byte))) (S : Finset ConnId)
    (n : Nat) (u v : World) (h : Level2 script n u v) (hc : Confined script S u) :
    Confined script S v := by
  intro d hd
  refine ⟨(hc d hd).1, ?_⟩
  have e1 : (v.conns d).qtsSocket.readBuf = (u.conns d).qtsSocket.readBuf := by
    rw [h.input d, arrivals_empty script d _ _ (hc d hd).1, List.append_nil]
  exact (starved_congr _ _ (h.length d) e1).2 (hc d hd).2

theorem Level2.settled (script : ConnId → List (Option (List Byte))) (n : Nat) (u v : World)
    (h : Level2 script n u v) (hs : Settled u) : Settled v := by
  intro d hd
  have hd2 : d ∉ u.qsReceivers := fun hq => hd (h.queued d hq)
  exact (starved_congr _ _ (h.length d) (h.untouched d hd)).2 (hs d hd2)

theorem removeReceiver_length (w : World) (c : ConnId) (h : c ∈ w.qsReceivers) :
    (w.removeReceiver c).qsReceivers.length + 1 ≤ w.qsReceivers.length := by
  simp only [World.removeReceiver]
  have : (w.qsReceivers.filter fun d => decide (d ≠ c)).length < w.qsReceivers.length := by
    apply List.length_filter_lt_length_iff_exists.2
    exact ⟨c, h, by simp⟩
  omega

theorem removeReceiver_mem (w : World) (c d : ConnId) :
    d ∈ (w.removeReceiver c).qsReceivers ↔ d ∈ w.qsReceivers ∧ d ≠ c := by
  simp [World.removeReceiver]

/-- One turn of the drain loop in a scripted environment: the read of a pending
connection at level 1 returns at level 1 with strictly less work left. -/
theorem socketRead_level1 (spare : Nat) (slot : ConnId → List Byte → List Act)
    (script : ConnId → List (Option (List Byte))) (S : Finset ConnId) (L : Nat)
    (hok : SlotOk slot L) (c : ConnId) (w : World) (hl : w.iReceiveLevel = 1)
    (hconf : Confined script S w) (hcq : c ∈ w.qsReceivers) (fuel : Nat) (hf : L + 4 ≤ fuel) :
    ∃ x, socketRead (Env.scripted spare slot script) fuel c w = .ok x ∧
      x.iReceiveLevel = 1 ∧ Confined script S x ∧
      (L + 2) * potential script S x + x.qsReceivers.length + 1 ≤
        (L + 2) * potential script S w + w.qsReceivers.length ∧
      (LengthAll w → Served script w x ∧ (Settled w → Settled x)) := by
  obtain ⟨f, rfl⟩ : ∃ f, fuel = f + 1 := ⟨fuel - 1, by omega⟩
  rw [socketRead_unfold _ rfl f c w (by rw [hl]; decide)]
  have hrl := removeReceiver_length w c hcq
  cases hc : coreStep (w.conns c) with
  | none =>
    simp only [hl, if_true]
    refine ⟨w.removeReceiver c, rfl, hl, hconf, ?_, ?_⟩
    · rw [potential_congr script S w (w.removeReceiver c) rfl]
      omega
    · intro hv
      refine ⟨Served.congr script w w _ _ (Served.idle script w hv) rfl rfl rfl rfl, ?_⟩
      intro hs d hd
      by_cases hdc : d = c
      · subst hdc
        exact Or.inl (coreStep_none _ hc)
      · exact hs d (fun hq => hd ((removeReceiver_mem w c d).2 ⟨hq, hdc⟩))
  | some b =>
    simp only [hl, if_true, show (Env.scripted spare slot script).slot = slot from rfl]
    obtain ⟨x, hx, hxl, hxc, hxp, hxe⟩ := body_step spare slot script S L hok c
      (({ w with iReceiveLevel := 2 } : World).removeReceiver c) rfl b hc hconf f (by omega)
    rw [hx]
    have h10 : ¬ ((1 : Int) = 0) := by decide
    simp only [Except.bind, h10, if_false]
    refine ⟨{ x with iReceiveLevel := 1 }, rfl, rfl, hxc, ?_, ?_⟩
    · rw [potential_congr script S x { x with iReceiveLevel := 1 } rfl]
      rw [potential_congr script S w
        (({ w with iReceiveLevel := 2 } : World).removeReceiver c) rfl] at hxp
      have : (({ w with iReceiveLevel := 2 } : World).removeReceiver c).qsReceivers
          = (w.removeReceiver c).qsReceivers := rfl
      rw [this] at hxp
      show _ + x.qsReceivers.length + 1 ≤ _
      omega
    · intro hv
      obtain ⟨h1, h2⟩ := hxe hv
      refine ⟨Served.congr script _ _ _ _ h1 rfl rfl rfl rfl, ?_⟩
      intro hs
      exact h2 (fun d hdc hd => hs d (fun hq => hd ((removeReceiver_mem w c d).2 ⟨hq, hdc⟩)))

/-- The drain loop in a scripted environment terminates: from a world at level
1 it returns at level 1 with nothing pending, for every fuel above the work
left. With well-formed pending lengths it serves exactly what it emits, and it
leaves every connection short of data if those not pending were so. -/
theorem drain_scripted (spare : Nat) (slot : ConnId → List Byte → List Act)
    (script : ConnId → List (Option (List Byte))) (S : Finset ConnId) (L : Nat)
    (hok : SlotOk slot L) (n : Nat) : ∀ (w : World), w.iReceiveLevel = 1 →
    Confined script S w →
    (L + 2) * potential script S w + w.qsReceivers.length ≤ n →
    ∀ fuel, n + L + 5 ≤ fuel →
    ∃ x, drain (Env.scripted spare slot script) fuel w = .ok x ∧
      x.iReceiveLevel = 1 ∧ x.qsReceivers = [] ∧ Confined script S x ∧
      (LengthAll w → Served script w x ∧ (Settled w → Settled x)) := by
  induction n with
  | zero =>
    intro w hl hconf hn fuel hf
    obtain ⟨f, rfl⟩ : ∃ f, fuel = f + 1 := ⟨fuel - 1, by omega⟩
    have hq : w.qsReceivers = [] := List.eq_nil_of_length_eq_zero (by omega)
    exact ⟨w, drain_nil _ f w hq, hl, hq, hconf,
      fun hv => ⟨Served.idle script w hv, fun hs => hs⟩⟩
  | succ n ih =>
    intro w hl hconf hn fuel hf
    obtain ⟨f, rfl⟩ : ∃ f, fuel = f + 1 := ⟨fuel - 1, by omega⟩
    cases hq : w.qsReceivers with
    | nil =>
      exact ⟨w, drain_nil _ f w hq, hl, hq, hconf,
        fun hv => ⟨Served.idle script w hv, fun hs => hs⟩⟩
    | cons c rest =>
      obtain ⟨x, hx, hxl, hxc, hxp, hxe⟩ := socketRead_level1 spare slot script S L hok c w hl hconf
        (by rw [hq]; exact List.mem_cons_self _ _) f (by omega)
      obtain ⟨y, hy, hyl, hyq, hyc, hye⟩ := ih x hxl hxc (by omega) f (by omega)
      refine ⟨y, ?_, hyl, hyq, hyc, ?_⟩
      · rw [drain, hq]
        simp only []
        rw [hx]
        exact hy
      · intro hv
        obtain ⟨h1, h2⟩ := hxe hv
        obtain ⟨h3, h4⟩ := hye h1.lengthOk
        exact ⟨Served.compose script _ _ _ h1 h3, fun hs => h4 (h2 hs)⟩

/-! ## Outermost calls with scripted arrivals -/

/-- An outermost `socketRead` in a scripted environment returns at level 0.
Unless it took the early return, nothing is pending afterwards. With
well-formed pending lengths it serves exactly what it emits, and it leaves
every connection short of data if all but its own were so or were pending. -/
theorem socketRead_level0 (spare : Nat) (slot : ConnId → List Byte → List Act)
    (script : ConnId → List (Option (List Byte))) (S : Finset ConnId) (L : Nat)
    (hok : SlotOk slot L) (c : ConnId) (w : World) (hl : w.iReceiveLevel = 0)
    (hconf : Confined script S w) (fuel : Nat)
    (hf : (L + 2) * potential script S w + w.qsReceivers.length + L + 7 ≤ fuel) :
    ∃ x, socketRead (Env.scripted spare slot script) fuel c w = .ok x ∧
      x.iReceiveLevel = 0 ∧ Confined script S x ∧
      ((coreStep (w.conns c) = none ∧ x = w) ∨
        (coreStep (w.conns c) ≠ none ∧ x.qsReceivers = [])) ∧
      (LengthAll w → Served script w x ∧
        ((∀ d, d ≠ c → d ∉ w.qsReceivers → Starved (w.conns d)) → Settled x)) := by
  obtain ⟨f, rfl⟩ : ∃ f, fuel = f + 1 := ⟨fuel - 1, by omega⟩
  rw [socketRead_unfold _ rfl f c w (by rw [hl]; decide)]
  have h01 : ¬ ((0 : Int) = 1) := by decide
  cases hc : coreStep (w.conns c) with
  | none =>
    simp only [hl, h01, if_false]
    refine ⟨w, rfl, hl, hconf, Or.inl ⟨by simp, rfl⟩, fun hv => ⟨Served.idle script w hv, ?_⟩⟩
    intro hs d hd
    by_cases hdc : d = c
    · subst hdc
      exact Or.inl (coreStep_none _ hc)
    · exact hs d hdc hd
  | some b =>
    simp only [hl, h01, if_false, if_true, show (Env.scripted spare slot script).slot = slot from rfl]
    obtain ⟨x, hx, hxl, hxc, hxp, hxe⟩ := body_step spare slot script S L hok c
      ({ w with iReceiveLevel := 2 } : World) rfl b hc hconf f (by omega)
    rw [hx]
    simp only [Except.bind]
    rw [potential_congr script S w ({ w with iReceiveLevel := 2 } : World) rfl] at hxp
    have hxp' : (L + 2) * potential script S x + x.qsReceivers.length ≤
        (L + 2) * potential script S w + w.qsReceivers.length := hxp
    obtain ⟨y, hy, hyl, hyq, hyc, hye⟩ := drain_scripted spare slot script S L hok
      ((L + 2) * potential script S w + w.qsReceivers.length)
      ({ x with iReceiveLevel := 1 } : World) rfl hxc
      (by rw [potential_congr script S x ({ x with iReceiveLevel := 1 } : World) rfl]
          exact hxp')
      f (by omega)
    rw [hy]
    refine ⟨{ y with iReceiveLevel := 0 }, rfl, rfl, hyc, Or.inr ⟨by simp, hyq⟩, ?_⟩
    intro hv
    obtain ⟨h1, h2⟩ := hxe hv
    have hv1 : LengthAll ({ x with iReceiveLevel := 1 } : World) := h1.lengthOk
    obtain ⟨h3, h4⟩ := hye hv1
    refine ⟨Served.congr script _ _ _ _ (Served.compose script _ _ _ h1
      (Served.congr script _ _ _ _ h3 rfl rfl rfl rfl)) rfl rfl rfl rfl, ?_⟩
    intro hs
    exact h4 (h2 hs)

/-- An outermost `sendMessage` in a scripted environment, with a payload within
the limit, returns at level 0. If the transport was ready nothing is pending
afterwards. With well-formed pending lengths it serves exactly what it emits
and keeps every connection settled. -/
theorem sendMessage_level0 (spare : Nat) (slot : ConnId → List Byte → List Act)
    (script : ConnId → List (Option (List Byte))) (S : Finset ConnId) (L : Nat)
    (hok : SlotOk slot L) (c : ConnId) (p : List Byte) (w : World) (hl : w.iReceiveLevel = 0)
    (hp : p.length ≤ 0xfffff) (hconf : Confined script S w) (fuel : Nat)
    (hf : (L + 2) * potential script S w + w.qsReceivers.length + L + 8 ≤ fuel) :
    ∃ x, sendMessage (Env.scripted spare slot script) fuel c p w = .ok x ∧
      x.iReceiveLevel = 0 ∧ Confined script S x ∧
      ((¬ ((w.conns c).qtsSocket.connected = true ∧ (w.conns c).qtsSocket.encrypted = true) ∧
          x = w) ∨
        (((w.conns c).qtsSocket.connected = true ∧ (w.conns c).qtsSocket.encrypted = true) ∧
          x.qsReceivers = [])) ∧
      (LengthAll w → Served script w x ∧ (Settled w → Settled x)) := by
  obtain ⟨f, rfl⟩ : ∃ f, fuel = f + 2 := ⟨fuel - 2, by omega⟩
  by_cases hr : (w.conns c).qtsSocket.connected = true ∧ (w.conns c).qtsSocket.encrypted = true
  · rw [sendMessage_scripted spare slot script f c p w hr.1 hr.2 hp]
    simp only [hl, if_true]
    have hL := Level2.afterWrite script ({ w with iReceiveLevel := 2 } : World) c (sendBuffer p)
    have hpot := potential_le script S ({ w with iReceiveLevel := 2 } : World) _
      (fun d _ => hL.load_le script _ _ _ d)
    rw [potential_congr script S w ({ w with iReceiveLevel := 2 } : World) rfl] at hpot
    have hmul := Nat.mul_le_mul_left (L + 2) hpot
    have hql := hL.queueLen
    have hql' : (({ w with iReceiveLevel := 2 } : World).afterWrite script c
        (sendBuffer p)).qsReceivers.length ≤ w.qsReceivers.length + 1 := hql
    obtain ⟨y, hy, hyl, hyq, hyc, hye⟩ := drain_scripted spare slot script S L hok
      ((L + 2) * potential script S w + w.qsReceivers.length + 1)
      ({ (({ w with iReceiveLevel := 2 } : World).afterWrite script c (sendBuffer p)) with
        iReceiveLevel := 1 } : World) rfl
      (hL.confined script S _ _ _ hconf)
      (by
        have e := potential_congr script S
          (({ w with iReceiveLevel := 2 } : World).afterWrite script c (sendBuffer p))
          ({ (({ w with iReceiveLevel := 2 } : World).afterWrite script c (sendBuffer p)) with
            iReceiveLevel := 1 } : World) rfl
        rw [e]
        show _ + (({ w with iReceiveLevel := 2 } : World).afterWrite script c
          (sendBuffer p)).qsReceivers.length ≤ _
        omega)
      (f + 1) (by omega)
    rw [hy]
    simp only [Except.bind]
    refine ⟨{ y with iReceiveLevel := 0 }, rfl, rfl, hyc, Or.inr ⟨hr, hyq⟩, ?_⟩
    intro hv
    have h1 : Served script ({ w with iReceiveLevel := 2 } : World)
        (({ w with iReceiveLevel := 2 } : World).afterWrite script c (sendBuffer p)) :=
      Served.of_level2 script _ _ _ hv hL
    obtain ⟨h3, h4⟩ := hye h1.lengthOk
    refine ⟨Served.congr script _ _ _ _ (Served.compose script _ _ _ h1
      (Served.congr script _ _ _ _ h3 rfl rfl rfl rfl)) rfl rfl rfl rfl, ?_⟩
    intro hs
    exact h4 (hL.settled script _ _ _ hs)
  · refine ⟨w, sendMessage_idle _ (f + 1) c p w (stack_fits _ p hp) hr, hl, hconf,
      Or.inl ⟨hr, rfl⟩,
      fun hv => ⟨Served.idle script w hv, fun hs => hs⟩⟩

/-! ## The receive level -/

theorem bind_ok (r : Result) (f : World → Result) (w' : World)
    (h : r.bind f = .ok w') : ∃ v, r = .ok v ∧ f v = .ok w' := by
  cases r with
  | error e => simp [Except.bind] at h
  | ok v => exact ⟨v, rfl, h⟩

/-- With the workaround, whenever `socketRead` returns the level is the one at
entry. -/
theorem socketRead_level (env : Env) (hwa : env.workaround = true) (fuel : Nat) (c : ConnId)
    (w w' : World) (h : socketRead env fuel c w = .ok w') :
    w'.iReceiveLevel = w.iReceiveLevel := by
  cases fuel with
  | zero => simp [socketRead] at h
  | succ f =>
    by_cases hl : w.iReceiveLevel = 2
    · rw [socketRead_level2 env hwa f c w hl] at h
      cases h
      rfl
    · rw [socketRead_unfold env hwa f c w hl] at h
      cases hc : coreStep (w.conns c) with
      | none =>
        rw [hc] at h
        simp only [Except.ok.injEq] at h
        subst h
        by_cases h1 : w.iReceiveLevel = 1 <;> simp [h1, World.removeReceiver]
      | some b =>
        rw [hc] at h
        simp only [] at h
        obtain ⟨x, _, h2⟩ := bind_ok _ _ _ h
        obtain ⟨y, _, h3⟩ := bind_ok _ _ _ h2
        simp only [Except.ok.injEq] at h3
        subst h3
        rfl

/-- With the workaround, whenever `sendMessage` returns the level is the one at
entry. -/
theorem sendMessage_level (env : Env) (hwa : env.workaround = true) (fuel : Nat) (c : ConnId)
    (p : List Byte) (w w' : World) (h : sendMessage env fuel c p w = .ok w') :
    w'.iReceiveLevel = w.iReceiveLevel := by
  cases fuel with
  | zero => simp [sendMessage] at h
  | succ f =>
    by_cases hfit : env.stack < 3 + p.length
    · rw [sendMessage_overflow env f c p w hfit] at h
      cases h
    · by_cases hr : (w.conns c).qtsSocket.connected = true ∧
          (w.conns c).qtsSocket.encrypted = true
      · by_cases hp : 1048575 < p.length
        · simp [sendMessage, hfit, hr.1, hr.2, hp] at h
        · simp only [sendMessage, hfit, hr.1, hr.2, hp, hwa, not_true_eq_false, if_false,
            if_true] at h
          obtain ⟨x, _, h2⟩ := bind_ok _ _ _ h
          obtain ⟨y, _, h3⟩ := bind_ok _ _ _ h2
          simp only [Except.ok.injEq] at h3
          subst h3
          rfl
      · rw [sendMessage_idle env f c p w hfit hr] at h
        cases h
        rfl

/-! ## The example world -/

theorem slotAck_ok : SlotOk slotAck 1 :=
  { calls := fun _ _ => by simp [slotAck]
    sizes := fun c m d p h => by
      simp only [slotAck, List.mem_singleton, Act.sendMessage.injEq] at h
      rw [h.2]
      decide }

theorem worldOne_conns (d : ConnId) (h : d ≠ 0) : worldOne.conns d = Connection.new sockReady := by
  simp [worldOne, World.arrive, World.setConn, World.init, h]

theorem worldOne_starved (d : ConnId) (h : d ≠ 0) : Starved (worldOne.conns d) := by
  rw [worldOne_conns d h]
  simp [Starved, Connection.new, sockReady, Socket.bytesAvailable]

theorem worldOne_lengthAll : LengthAll worldOne := by
  intro d
  by_cases h : d = 0
  · subst h
    exact Or.inl rfl
  · rw [worldOne_conns d h]
    exact Or.inl rfl

theorem worldOne_confined (script : ConnId → List (Option (List Byte)))
    (h : ∀ d, d ≠ 0 → script d = []) : Confined script {0} worldOne := by
  intro d hd
  have hd0 : d ≠ 0 := by simpa using hd
  exact ⟨h d hd0, worldOne_starved d hd0⟩

theorem scriptOne_off (d : ConnId) (h : d ≠ 0) : scriptOne d = [] := by
  simp [scriptOne, h]

theorem worldOne_potential : potential scriptOne {0} worldOne = 17 := by
  simp [potential, load, weight, pending, arrivalCost, scriptOne, worldOne, World.arrive,
    World.setConn, World.init, World.writeCount, Connection.new, sockReady, sendBuffer,
    lengthOctets]

theorem drain_cons (env : Env) (fuel : Nat) (w : World) (i : ConnId) (rest : List ConnId)
    (h : w.qsReceivers = i :: rest) :
    drain env (fuel + 1) w = (socketRead env fuel i w).bind (drain env fuel) := by
  simp [drain, h]

/-- When connection `c` completes the message `m` and the handler answers it
with the single message `r` on `c`, `socketRead` is the step, the signal, the
write with what it brings in, and, in an outermost call, the drain loop. -/
theorem socketRead_answer (spare : Nat) (slot : ConnId → List Byte → List Act)
    (script : ConnId → List (Option (List Byte))) (fuel : Nat) (c : ConnId) (w : World)
    (b : BodyStep) (m r : List Byte) (hl : w.iReceiveLevel ≠ 2)
    (hc : coreStep (w.conns c) = some b) (hm : b.msg = some m)
    (hs : slot c m = [.sendMessage c r]) (hr : r.length ≤ 0xfffff)
    (hconn : b.conn.qtsSocket.connected = true) (henc : b.conn.qtsSocket.encrypted = true) :
    socketRead (Env.scripted spare slot script) (fuel + 4) c w =
      (if w.iReceiveLevel = 0 then
          drain (Env.scripted spare slot script) (fuel + 3)
            { ((((if w.iReceiveLevel = 1 then
                ({ w with iReceiveLevel := 2 } : World).removeReceiver c
                else { w with iReceiveLevel := 2 }) : World).stepped c b).emit
                  (.message c m)).afterWrite script c (sendBuffer r) with iReceiveLevel := 1 }
        else .ok (((((if w.iReceiveLevel = 1 then
                ({ w with iReceiveLevel := 2 } : World).removeReceiver c
                else { w with iReceiveLevel := 2 }) : World).stepped c b).emit
                  (.message c m)).afterWrite script c (sendBuffer r))).bind
        fun y => .ok { y with iReceiveLevel := w.iReceiveLevel } := by
  rw [socketRead_unfold _ rfl (fuel + 3) c w hl, hc]
  simp only [hm, show (Env.scripted spare slot script).slot = slot from rfl, hs, runSlot]
  have hx : ∀ x : World, x.iReceiveLevel = 2 →
      (x.stepped c b).conns c = b.conn ∧ (x.stepped c b).iReceiveLevel = 2 := by
    intro x hx
    rw [stepped_conns, stepped_level]
    exact ⟨by simp, hx⟩
  have key : ∀ x : World, x.iReceiveLevel = 2 →
      sendMessage (Env.scripted spare slot script) (fuel + 2) c r
        ((x.stepped c b).emit (.message c m))
        = .ok (((x.stepped c b).emit (.message c m)).afterWrite script c (sendBuffer r)) := by
    intro x hx2
    obtain ⟨h1, h2⟩ := hx x hx2
    have h3 : ((x.stepped c b).emit (.message c m)).iReceiveLevel = 2 := h2
    rw [sendMessage_scripted spare slot script fuel c r _ (by simpa [World.emit, h1] using hconn)
      (by simpa [World.emit, h1] using henc) hr]
    rw [if_neg (by rw [h3]; decide)]
    simp only [Except.bind]
    congr 1
    have h5 : ({ (x.stepped c b).emit (.message c m) with iReceiveLevel := 2 } : World) =
        (x.stepped c b).emit (.message c m) := by
      rw [← h3]
    rw [h5]
    have h4 := (afterWrite_level script ((x.stepped c b).emit (.message c m)) c
      (sendBuffer r)).trans h3
    rw [h3]
    generalize World.afterWrite script ((x.stepped c b).emit (.message c m)) c (sendBuffer r) = A
      at h4
    cases A
    simp only [World.mk.injEq, true_and, and_true]
    exact h4.symm
  by_cases h1 : w.iReceiveLevel = 1
  · simp only [h1, if_true]
    rw [key _ rfl]
    rfl
  · simp only [h1, if_false]
    rw [key _ rfl]
    rfl

/-- The example run: the frame of `07` is emitted, the handler's answer brings in
the frame of `09`, the nested read queues the connection, and the drain loop
emits `09`. -/
theorem worldOne_answers (f : Nat) :
    ∃ w', socketRead (Env.scripted 0 slotAck scriptOne) (f + 9) 0 worldOne = .ok w' ∧
      w'.emitted = [.message 0 [7], .message 0 [9]] := by
  rw [socketRead_answer 0 slotAck scriptOne (f + 5) 0 worldOne _ [7] [1] (by decide) rfl rfl rfl
    (by decide) rfl rfl]
  rw [if_pos (show worldOne.iReceiveLevel = 0 from rfl), drain_cons _ (f + 7) _ 0 []]
  swap
  · rfl
  rw [socketRead_answer 0 slotAck scriptOne (f + 3) 0 _ _ [9] [1]]
  case hl => exact (by decide : (1 : Int) ≠ 2)
  case hc => rfl
  case hm => rfl
  case hs => rfl
  case hr => decide
  case hconn => rfl
  case henc => rfl
  rw [if_neg (by exact (by decide : ¬ ((1 : Int) = 0)))]
  simp only [Except.bind]
  rw [drain_nil _ (f + 6) _ rfl]
  exact ⟨_, rfl, rfl⟩

/-- The drain loop on the second example world with both connections pending:
three iterations, after which nothing is pending. Connection 0 is queued again
after its first frame and served once more after connection 1. -/
theorem worldTwo_drains (f : Nat) :
    ∃ w', drain (Env.scripted 0 slotAck fun _ => []) (f + 12)
        { worldTwo with iReceiveLevel := 1, qsReceivers := [0, 1] } = .ok w' ∧
      w'.emitted = [.message 0 [7], .message 1 [8], .message 0 [9]] := by
  rw [drain_cons _ (f + 11) _ 0 [1] rfl]
  rw [socketRead_answer 0 slotAck (fun _ => []) (f + 7) 0 _ _ [7] [1]]
  case hl => exact (by decide : (1 : Int) ≠ 2)
  case hc => rfl
  case hm => rfl
  case hs => rfl
  case hr => decide
  case hconn => rfl
  case henc => rfl
  rw [if_neg (by exact (by decide : ¬ ((1 : Int) = 0)))]
  simp only [Except.bind]
  rw [drain_cons _ (f + 10) _ 1 [0]]
  swap
  · rfl
  rw [socketRead_answer 0 slotAck (fun _ => []) (f + 6) 1 _ _ [8] [1]]
  case hl => exact (by decide : (1 : Int) ≠ 2)
  case hc => rfl
  case hm => rfl
  case hs => rfl
  case hr => decide
  case hconn => rfl
  case henc => rfl
  rw [if_neg (by exact (by decide : ¬ ((1 : Int) = 0)))]
  simp only [Except.bind]
  rw [drain_cons _ (f + 9) _ 0 []]
  swap
  · rfl
  rw [socketRead_answer 0 slotAck (fun _ => []) (f + 5) 0 _ _ [9] [1]]
  case hl => exact (by decide : (1 : Int) ≠ 2)
  case hc => rfl
  case hm => rfl
  case hs => rfl
  case hr => decide
  case hconn => rfl
  case henc => rfl
  rw [if_neg (by exact (by decide : ¬ ((1 : Int) = 0)))]
  simp only [Except.bind]
  rw [drain_nil _ (f + 8) _ rfl]
  exact ⟨_, rfl, rfl⟩

/-- An outermost read on the second example world: the first frame of connection
0 is emitted by the call itself, the second by one iteration of its drain loop. -/
theorem worldTwo_reads (f : Nat) :
    ∃ w', socketRead (Env.scripted 0 slotAck fun _ => []) (f + 9) 0 worldTwo = .ok w' ∧
      w'.emitted = [.message 0 [7], .message 0 [9]] := by
  rw [socketRead_answer 0 slotAck (fun _ => []) (f + 5) 0 worldTwo _ [7] [1] (by decide) rfl rfl
    rfl (by decide) rfl rfl]
  rw [if_pos (show worldTwo.iReceiveLevel = 0 from rfl), drain_cons _ (f + 7) _ 0 []]
  swap
  · rfl
  rw [socketRead_answer 0 slotAck (fun _ => []) (f + 3) 0 _ _ [9] [1]]
  case hl => exact (by decide : (1 : Int) ≠ 2)
  case hc => rfl
  case hm => rfl
  case hs => rfl
  case hr => decide
  case hconn => rfl
  case henc => rfl
  rw [if_neg (by exact (by decide : ¬ ((1 : Int) = 0)))]
  simp only [Except.bind]
  rw [drain_nil _ (f + 6) _ rfl]
  exact ⟨_, rfl, rfl⟩


theorem worldTwo_conns (d : ConnId) (h0 : d ≠ 0) (h1 : d ≠ 1) :
    worldTwo.conns d = Connection.new sockReady := by
  simp [worldTwo, World.arrive, World.setConn, World.init, h0, h1]

theorem worldTwo_starved (d : ConnId) (h : d ∉ ({0, 1} : Finset ConnId)) :
    Starved (worldTwo.conns d) := by
  have h0 : d ≠ 0 := fun e => h (by simp [e])
  have h1 : d ≠ 1 := fun e => h (by simp [e])
  rw [worldTwo_conns d h0 h1]
  simp [Starved, Connection.new, sockReady, Socket.bytesAvailable]

theorem worldTwo_weight :
    (({0, 1} : Finset ConnId).sum fun d => weight (worldTwo.conns d)) = 24 := by
  rw [Finset.sum_pair (by decide)]
  simp [weight, worldTwo, World.arrive, World.setConn, World.init, Connection.new, sockReady,
    sendBuffer, lengthOctets, frames]

/-! ## Quiet environments -/

theorem Env.eq_scripted (env : Env) (hwa : env.workaround = true)
    (hq : ∀ w c, env.onWrite w c = none) :
    env = Env.scripted env.stackSpare env.slot (fun _ => []) := by
  cases env with
  | mk wa sl ow sp =>
    simp only [Env.scripted, Env.mk.injEq, true_and, and_true] at *
    refine ⟨hwa, ?_⟩
    funext w c
    simp [hq]

theorem potential_quiet (S : Finset ConnId) (w : World) :
    potential (fun _ => []) S w = S.sum fun d => weight (w.conns d) := by
  simp [potential, load, pending]

/-! ## Claims on re-entrant delivery -/

/-- C11: in the workaround build, when the `message` handler calls `sendMessage`
and writes raise readiness events (the frames of `script` arrive during the
writes), an outermost `socketRead` returns with nothing pending and every
connection short of data, and for each connection the messages emitted during
the call, re-framed and followed by what is still unread, are exactly the bytes
that were unread at entry followed by the bytes that arrived during the call: so
when these bytes are the frames of `payloads`, the connection emitted exactly
`payloads`, each once and in arrival order. -/
theorem reentrant_frames_delivered_once_in_order (spare : Nat) (slot : ConnId → List Byte → List Act)
    (script : ConnId → List (Option (List Byte))) (S : Finset ConnId) (L : Nat)
    (hok : SlotOk slot L) (c : ConnId) (w : World) (hl : w.iReceiveLevel = 0)
    (hq : w.qsReceivers = []) (hconf : Confined script S w) (hv : LengthAll w)
    (hs : ∀ d, d ≠ c → Starved (w.conns d)) (fuel : Nat)
    (hf : (L + 2) * potential script S w + L + 7 ≤ fuel) :
    ∃ w', socketRead (Env.scripted spare slot script) fuel c w = .ok w' ∧
      w'.iReceiveLevel = 0 ∧ w'.qsReceivers = [] ∧
      ∀ d, Starved (w'.conns d) ∧
        ∃ new, messagesOf d w'.emitted = messagesOf d w.emitted ++ new ∧
          frames new ++ unread (w'.conns d) =
            unread (w.conns d) ++ arrivals script d (w.writeCount d) (w'.writeCount d) ∧
          ∀ payloads, (∀ p ∈ payloads, p.length < 2 ^ 24) →
            unread (w.conns d) ++ arrivals script d (w.writeCount d) (w'.writeCount d) =
              frames payloads → new = payloads := by
  obtain ⟨x, hx, hxl, _, hcase, hserve⟩ :=
    socketRead_level0 spare slot script S L hok c w hl hconf fuel (by rw [hq]; simpa using hf)
  obtain ⟨hsv, hset⟩ := hserve hv
  have hxq : x.qsReceivers = [] := by
    rcases hcase with ⟨_, h⟩ | ⟨_, h⟩
    · rw [h, hq]
    · exact h
  have hst : ∀ d, Starved (x.conns d) := fun d =>
    hset (fun d hd _ => hs d hd) d (by rw [hxq]; simp)
  refine ⟨x, hx, hxl, hxq, fun d => ⟨hst d, ?_⟩⟩
  obtain ⟨new, h1, h2, h3, _⟩ := hsv.hist d
  refine ⟨new, h1, h3, fun payloads hp he => ?_⟩
  exact (frames_unique (x.conns d) (hst d) (hsv.lengthOk d) new payloads h2 hp
    (by rw [h3, he])).1

theorem reentrant_frames_delivered_once_in_order_witness :
    ∃ w', socketRead (Env.scripted 0 slotAck scriptOne) 100 0 worldOne = .ok w' ∧
      w'.emitted = [.message 0 [7], .message 0 [9]] ∧
      w'.iReceiveLevel = 0 ∧ w'.qsReceivers = [] ∧
      ∀ d, Starved (w'.conns d) ∧
        ∃ new, messagesOf d w'.emitted = messagesOf d worldOne.emitted ++ new ∧
          frames new ++ unread (w'.conns d) =
            unread (worldOne.conns d) ++
              arrivals scriptOne d (worldOne.writeCount d) (w'.writeCount d) ∧
          ∀ payloads, (∀ p ∈ payloads, p.length < 2 ^ 24) →
            unread (worldOne.conns d) ++
                arrivals scriptOne d (worldOne.writeCount d) (w'.writeCount d) =
              frames payloads → new = payloads := by
  obtain ⟨w', h, hrest⟩ := reentrant_frames_delivered_once_in_order 0 slotAck scriptOne {0} 1
    slotAck_ok 0 worldOne rfl rfl (worldOne_confined scriptOne scriptOne_off) worldOne_lengthAll
    worldOne_starved 100 (by rw [worldOne_potential]; decide)
  obtain ⟨x, hx, he⟩ := worldOne_answers 91
  rw [h, Except.ok.injEq] at hx
  subst hx
  exact ⟨w', h, he, hrest⟩

/-- C13: in the workaround build, when writes raise no readiness event and the
handler makes at most `L` calls per message, the drain loop terminates with
`qsReceivers` empty: run on its own, and inside an outermost `socketRead` or
`sendMessage`, which return with `qsReceivers` empty unless they returned before
the loop (for lack of data, or because the transport is not ready). -/
theorem drain_terminates_with_nothing_pending (env : Env) (hwa : env.workaround = true)
    (hquiet : ∀ v c, env.onWrite v c = none) (S : Finset ConnId) (L : Nat)
    (hok : SlotOk env.slot L) (w : World) (hl : w.iReceiveLevel = 0)
    (hS : ∀ d, d ∉ S → Starved (w.conns d)) (fuel : Nat)
    (hf : (L + 2) * (S.sum fun d => weight (w.conns d)) + w.qsReceivers.length + L + 8 ≤ fuel) :
    (∃ w', drain env fuel { w with iReceiveLevel := 1 } = .ok w' ∧ w'.qsReceivers = []) ∧
    (∀ c, ∃ w', socketRead env fuel c w = .ok w' ∧
      ((coreStep (w.conns c) = none ∧ w' = w) ∨ w'.qsReceivers = [])) ∧
    (∀ c qbaMsg, qbaMsg.length ≤ 0xfffff → ∃ w', sendMessage env fuel c qbaMsg w = .ok w' ∧
      ((¬ ((w.conns c).qtsSocket.connected = true ∧ (w.conns c).qtsSocket.encrypted = true) ∧
        w' = w) ∨ w'.qsReceivers = [])) := by
  rw [Env.eq_scripted env hwa hquiet]
  rw [← potential_quiet] at hf
  have hconf : Confined (fun _ => []) S w := fun d hd => ⟨rfl, hS d hd⟩
  refine ⟨?_, fun c => ?_, fun c qbaMsg hp => ?_⟩
  · obtain ⟨x, hx, _, hxq, _⟩ := drain_scripted env.stackSpare env.slot (fun _ => []) S L hok
      ((L + 2) * potential (fun _ => []) S w + w.qsReceivers.length)
      { w with iReceiveLevel := 1 } rfl (fun d hd => hconf d hd) (le_refl _) fuel (by omega)
    exact ⟨x, hx, hxq⟩
  · obtain ⟨x, hx, _, _, hcase, _⟩ :=
      socketRead_level0 env.stackSpare env.slot (fun _ => []) S L hok c w hl hconf fuel (by omega)
    refine ⟨x, hx, ?_⟩
    rcases hcase with h | ⟨_, h⟩
    · exact Or.inl h
    · exact Or.inr h
  · obtain ⟨x, hx, _, _, hcase, _⟩ :=
      sendMessage_level0 env.stackSpare env.slot (fun _ => []) S L hok c qbaMsg w hl hp hconf fuel (by omega)
    refine ⟨x, hx, ?_⟩
    rcases hcase with h | ⟨_, h⟩
    · exact Or.inl h
    · exact Or.inr h

/-- Witness of C13: the loop makes three iterations over two pending connections,
and one iteration inside an outermost read of a connection holding two frames. -/
theorem drain_terminates_with_nothing_pending_witness :
    (∃ w', drain (Env.scripted 0 slotAck fun _ => []) 100
        { worldTwo with iReceiveLevel := 1, qsReceivers := [0, 1] } = .ok w' ∧
      w'.qsReceivers = [] ∧
      w'.emitted = [.message 0 [7], .message 1 [8], .message 0 [9]]) ∧
    (∃ w', socketRead (Env.scripted 0 slotAck fun _ => []) 100 0 worldTwo = .ok w' ∧
      w'.qsReceivers = [] ∧ w'.emitted = [.message 0 [7], .message 0 [9]]) := by
  constructor
  · obtain ⟨⟨x, hx, hq⟩, _, _⟩ := drain_terminates_with_nothing_pending
      (Env.scripted 0 slotAck fun _ => []) rfl (fun _ _ => rfl) {0, 1} 1 slotAck_ok
      { worldTwo with qsReceivers := [0, 1] } rfl worldTwo_starved 100
      (by rw [show (({0, 1} : Finset ConnId).sum fun d =>
            weight (({ worldTwo with qsReceivers := [0, 1] } : World).conns d)) = 24
          from worldTwo_weight]; decide)
    obtain ⟨y, hy, he⟩ := worldTwo_drains 88
    have hxy : Except.ok x = (Except.ok y : Result) := hx.symm.trans hy
    rw [Except.ok.injEq] at hxy
    subst hxy
    exact ⟨x, hy, hq, he⟩
  · obtain ⟨_, h2, _⟩ := drain_terminates_with_nothing_pending
      (Env.scripted 0 slotAck fun _ => []) rfl (fun _ _ => rfl) {0, 1} 1 slotAck_ok
      worldTwo rfl worldTwo_starved 100 (by rw [worldTwo_weight]; decide)
    obtain ⟨x, hx, hcase⟩ := h2 0
    obtain ⟨y, hy, he⟩ := worldTwo_reads 91
    rw [hx, Except.ok.injEq] at hy
    subst hy
    refine ⟨x, hx, ?_, he⟩
    rcases hcase with ⟨_, h⟩ | h
    · rw [h] at he
      cases he
    · exact h

/-- C16: a `socketRead` call restarts the timer `qtLastPacket` of a connection
once for every message it emits for that connection, hence restarts it if and
only if it emits one; a call that returns for lack of data changes nothing, and
a call that reads only a header emits nothing and restarts no timer. Shown in
the workaround build for an outermost call with any handler and any arrivals
during writes, and in the plain build for a handler that does nothing. -/
theorem timer_restarts_iff_message_emitted (spare : Nat) (slot : ConnId → List Byte → List Act)
    (script : ConnId → List (Option (List Byte))) (S : Finset ConnId) (L : Nat)
    (hok : SlotOk slot L) (c : ConnId) (w : World) (hl : w.iReceiveLevel = 0)
    (hconf : Confined script S w) (hv : LengthAll w) (fuel : Nat)
    (hf : (L + 2) * potential script S w + w.qsReceivers.length + L + 7 ≤ fuel) :
    (∃ w', socketRead (Env.scripted spare slot script) fuel c w = .ok w' ∧
      (∀ d, (∃ new, messagesOf d w'.emitted = messagesOf d w.emitted ++ new ∧
          (w'.conns d).qtLastPacket = (w.conns d).qtLastPacket + new.length) ∧
        ((w'.conns d).qtLastPacket ≠ (w.conns d).qtLastPacket ↔
          messagesOf d w'.emitted ≠ messagesOf d w.emitted)) ∧
      (coreStep (w.conns c) = none → w' = w) ∧
      (∀ b, coreStep (w.conns c) = some b → b.msg = none → w.qsReceivers = [] →
        w'.emitted = w.emitted ∧ ∀ d, (w'.conns d).qtLastPacket = (w.conns d).qtLastPacket)) ∧
    (∃ w', socketRead (Env.passive false) fuel c w = .ok w' ∧
      (∀ d, (∃ new, messagesOf d w'.emitted = messagesOf d w.emitted ++ new ∧
          (w'.conns d).qtLastPacket = (w.conns d).qtLastPacket + new.length) ∧
        ((w'.conns d).qtLastPacket ≠ (w.conns d).qtLastPacket ↔
          messagesOf d w'.emitted ≠ messagesOf d w.emitted)) ∧
      (coreStep (w.conns c) = none → w' = w) ∧
      (∀ b, coreStep (w.conns c) = some b → b.msg = none →
        w'.emitted = w.emitted ∧ ∀ d, (w'.conns d).qtLastPacket = (w.conns d).qtLastPacket)) := by
  have key : ∀ x, Served script w x →
      ∀ d, (∃ new, messagesOf d x.emitted = messagesOf d w.emitted ++ new ∧
          (x.conns d).qtLastPacket = (w.conns d).qtLastPacket + new.length) ∧
        ((x.conns d).qtLastPacket ≠ (w.conns d).qtLastPacket ↔
          messagesOf d x.emitted ≠ messagesOf d w.emitted) := by
    intro x hsv d
    obtain ⟨new, h1, _, _, h4⟩ := hsv.hist d
    refine ⟨⟨new, h1, h4⟩, ?_⟩
    rw [h1, h4]
    cases new with
    | nil => simp
    | cons m rest => simp
  have same : ∀ x : World, (∀ d, ((x.conns d).qtLastPacket ≠ (w.conns d).qtLastPacket ↔
      messagesOf d x.emitted ≠ messagesOf d w.emitted)) → x.emitted = w.emitted →
      ∀ d, (x.conns d).qtLastPacket = (w.conns d).qtLastPacket := by
    intro x hx he d
    by_contra hne
    exact (hx d).1 hne (by rw [he])
  constructor
  · obtain ⟨x, hx, _, _, hcase, hserve⟩ :=
      socketRead_level0 spare slot script S L hok c w hl hconf fuel hf
    have hk := key x (hserve hv).1
    refine ⟨x, hx, hk, fun hc => ?_, fun b hc hm hq => ?_⟩
    · rcases hcase with ⟨_, h⟩ | ⟨h, _⟩
      · exact h
      · exact (h hc).elim
    · have hx2 := hx
      obtain ⟨f, rfl⟩ : ∃ f, fuel = f + 2 := ⟨fuel - 2, by omega⟩
      obtain ⟨_, _, hquiet, _⟩ := coreStep_fields _ b hc
      rw [socketRead_unfold _ rfl (f + 1) c w (by rw [hl]; decide), hc] at hx2
      simp only [hm, hl, if_true, show ¬ ((0 : Int) = 1) by decide, if_false, Except.bind] at hx2
      rw [drain_nil _ f _ (by
        show (({ w with iReceiveLevel := 2 } : World).stepped c b).qsReceivers = []
        rw [stepped_queue, (hquiet hm).1]
        exact hq)] at hx2
      simp only [Except.ok.injEq] at hx2
      have he : x.emitted = w.emitted := by
        rw [← hx2]
        exact stepped_emitted _ c b
      exact ⟨he, same x (fun d => (hk d).2) he⟩
  · obtain ⟨f, rfl⟩ : ∃ f, fuel = f + 2 := ⟨fuel - 2, by omega⟩
    have hk : ∀ d, (∃ new, messagesOf d (stepWorld c w).emitted = messagesOf d w.emitted ++ new ∧
          ((stepWorld c w).conns d).qtLastPacket = (w.conns d).qtLastPacket + new.length) ∧
        (((stepWorld c w).conns d).qtLastPacket ≠ (w.conns d).qtLastPacket ↔
          messagesOf d (stepWorld c w).emitted ≠ messagesOf d w.emitted) := by
      refine key _ ?_
      cases hc : coreStep (w.conns c) with
      | none =>
        rw [stepWorld_none c w hc]
        exact Served.idle script w hv
      | some b =>
        refine Served.step script w c b hv hc _ ?_ ?_
        · simp only [stepWorld, hc]
          cases b.requeue <;> cases b.msg <;> rfl
        · simp only [stepWorld, hc]
          cases b.requeue <;> cases b.msg <;> rfl
    refine ⟨stepWorld c w, socketRead_plain f c w, hk, fun hc => stepWorld_none c w hc,
      fun b hc hm => ?_⟩
    have he : (stepWorld c w).emitted = w.emitted := by
      simp only [stepWorld, hc, hm]
      cases b.requeue <;> rfl
    exact ⟨he, same _ (fun d => (hk d).2) he⟩

theorem timer_restarts_iff_message_emitted_witness :
    ∃ w', socketRead (Env.scripted 0 slotAck scriptOne) 100 0 worldOne = .ok w' ∧
      messagesOf 0 w'.emitted = [[7], [9]] ∧
      (w'.conns 0).qtLastPacket = (worldOne.conns 0).qtLastPacket + 2 := by
  obtain ⟨w', h, hrest, _⟩ := (timer_restarts_iff_message_emitted 0 slotAck scriptOne {0} 1 slotAck_ok
    0 worldOne rfl (worldOne_confined scriptOne scriptOne_off) worldOne_lengthAll 100
    (by rw [worldOne_potential]; decide)).1
  obtain ⟨x, hx, he⟩ := worldOne_answers 91
  rw [h, Except.ok.injEq] at hx
  subst hx
  have hm : messagesOf 0 w'.emitted = [[7], [9]] := by rw [he]; rfl
  obtain ⟨⟨new, h1, h2⟩, _⟩ := hrest 0
  rw [hm] at h1
  have hn : new = [[7], [9]] := by simpa [messagesOf, worldOne, World.arrive, World.setConn,
    World.init] using h1.symm
  rw [hn] at h2
  exact ⟨w', h, hm, h2⟩

/-- C18: in the workaround build, whenever `socketRead` or `sendMessage` returns,
`iReceiveLevel` equals its value at entry, whatever the handler does through
`socketRead` and `sendMessage`; and the calls do return on each exit path: the
re-entrant early return, the return for lack of data, the return on a transport
that is not ready (reached when the buffer of line 164 fits the stack), and the
normal completion after the drain loop. -/
theorem receive_level_restored_on_return (env : Env) (hwa : env.workaround = true)
    (c : ConnId) (qbaMsg : List Byte) (w : World) :
    (∀ fuel w', socketRead env fuel c w = .ok w' → w'.iReceiveLevel = w.iReceiveLevel) ∧
    (∀ fuel w', sendMessage env fuel c qbaMsg w = .ok w' →
      w'.iReceiveLevel = w.iReceiveLevel) ∧
    (w.iReceiveLevel = 2 → ∀ fuel, ∃ w', socketRead env (fuel + 1) c w = .ok w' ∧
      w'.iReceiveLevel = w.iReceiveLevel) ∧
    (coreStep (w.conns c) = none → ∀ fuel, ∃ w', socketRead env (fuel + 1) c w = .ok w' ∧
      w'.iReceiveLevel = w.iReceiveLevel) ∧
    (¬ ((w.conns c).qtsSocket.connected = true ∧ (w.conns c).qtsSocket.encrypted = true) →
      3 + qbaMsg.length ≤ env.stack →
      ∀ fuel, ∃ w', sendMessage env (fuel + 1) c qbaMsg w = .ok w' ∧
        w'.iReceiveLevel = w.iReceiveLevel) ∧
    (∀ (script : ConnId → List (Option (List Byte))) (S : Finset ConnId) (L : Nat),
      env = Env.scripted env.stackSpare env.slot script → SlotOk env.slot L → w.iReceiveLevel = 0 →
      Confined script S w → qbaMsg.length ≤ 0xfffff →
      ∀ fuel, (L + 2) * potential script S w + w.qsReceivers.length + L + 8 ≤ fuel →
        (∃ w', socketRead env fuel c w = .ok w' ∧ w'.iReceiveLevel = w.iReceiveLevel) ∧
        (∃ w', sendMessage env fuel c qbaMsg w = .ok w' ∧
          w'.iReceiveLevel = w.iReceiveLevel)) := by
  have total : ∀ r : Result, (∀ w', r = .ok w' → w'.iReceiveLevel = w.iReceiveLevel) →
      (∃ x, r = .ok x) → ∃ w', r = .ok w' ∧ w'.iReceiveLevel = w.iReceiveLevel :=
    fun r h ⟨x, hx⟩ => ⟨x, hx, h x hx⟩
  refine ⟨fun fuel w' h => socketRead_level env hwa fuel c w w' h,
    fun fuel w' h => sendMessage_level env hwa fuel c qbaMsg w w' h, ?_, ?_, ?_, ?_⟩
  · intro h2 fuel
    exact total _ (fun w' h => socketRead_level env hwa _ c w w' h)
      ⟨_, socketRead_level2 env hwa fuel c w h2⟩
  · intro hc fuel
    refine total _ (fun w' h => socketRead_level env hwa _ c w w' h) ?_
    by_cases h2 : w.iReceiveLevel = 2
    · exact ⟨_, socketRead_level2 env hwa fuel c w h2⟩
    · rw [socketRead_unfold env hwa fuel c w h2, hc]
      exact ⟨_, rfl⟩
  · intro hr hfit fuel
    exact total _ (fun w' h => sendMessage_level env hwa _ c qbaMsg w w' h)
      ⟨w, sendMessage_idle env fuel c qbaMsg w (by omega) hr⟩
  · intro script S L he hok hl hconf hp fuel hf
    constructor
    · refine total _ (fun w' h => socketRead_level env hwa _ c w w' h) ?_
      rw [he]
      obtain ⟨x, hx, _⟩ := socketRead_level0 env.stackSpare env.slot script S L hok c w hl hconf fuel
        (by omega)
      exact ⟨x, hx⟩
    · refine total _ (fun w' h => sendMessage_level env hwa _ c qbaMsg w w' h) ?_
      rw [he]
      obtain ⟨x, hx, _⟩ := sendMessage_level0 env.stackSpare env.slot script S L hok c qbaMsg w hl hp hconf
        fuel hf
      exact ⟨x, hx⟩

theorem receive_level_restored_on_return_witness :
    (∃ w', socketRead (Env.scripted 0 slotAck scriptOne) 100 0 worldOne = .ok w' ∧
      w'.iReceiveLevel = 0) ∧
    (∃ w', sendMessage (Env.scripted 0 slotAck scriptOne) 100 0 [5] worldOne = .ok w' ∧
      w'.iReceiveLevel = 0) :=
  (receive_level_restored_on_return (Env.scripted 0 slotAck scriptOne) rfl 0 [5] worldOne).2.2.2.2.2
    scriptOne {0} 1 rfl slotAck_ok rfl (worldOne_confined scriptOne scriptOne_off) (by decide)
    100 (by rw [worldOne_potential]; decide)

end Mumble
